import Mathlib

/-!
Verification development for the RolLang runtime loader
(`src/LibRolLang/RuntimeLoader.h`) and the constraint unifier
(`src/LibRolLang/RuntimeLoaderConstraint.h`).

The C++ code is shallowly embedded: machine pointers to `RuntimeType` /
`RuntimeFunction` objects are represented by their (unique) `TypeId` /
`FunctionId` numbers, the loader's mutable members become an explicit
`LoaderState` record, exceptions become `Except String`, and the mutual
recursion of the loading pipeline is made total with a fuel parameter
(`Fns`, a fuel-indexed tuple of the mutually recursive member functions).
`assert(...)` statements in the source are debug-only (`NDEBUG` builds skip
them) and are modelled as no-ops; C++ undefined behaviour (out-of-bounds
vector indexing, null-pointer dereference, division by zero) is modelled
as an `Except.error` whose message mentions "UB".
-/

namespace RolLang

/-- Entry kinds of a RefList (`ReferenceType_` in `GenericDeclaration.h`).
`RuntimeLoader.h` dispatches on `REF_EMPTY`, `REF_CLONE`, `REF_ASSEMBLY`,
`REF_IMPORT`, `REF_ARGUMENT` and `REF_CLONETYPE`; all other kinds fall into
its `default:` branches. -/
inductive RefKind where
  | empty
  | listEnd
  | segment
  | clone
  | assemblyRef
  | imported
  | constraintRef
  | argument
  | selfRef
  | subtypeRef
  | cloneType
  | fieldId
  | tryRef
  | anyRef
  deriving DecidableEq, Repr

/-- `TSM_VALUE` / `TSM_REF` / `TSM_GLOBAL` storage modes. -/
inductive StorageMode where
  | value
  | ref
  | global
  deriving DecidableEq, Repr

/-- `DeclarationReference`: one RefList entry, a `(kind, index)` pair. -/
structure DeclRef where
  kind : RefKind
  index : Nat
  deriving DecidableEq, Repr

/-- `GenericDeclaration` as used by `RuntimeLoader.h` (the old-version
loader): a parameter list (of which only the size is ever read, kept here
as a count), a type RefList and a function RefList.
Modelled from the spec: the struct itself lives in a header that is not
under `src/`; its shape is fixed by every use site in `RuntimeLoader.h`. -/
structure GenericDecl where
  parameters : Nat
  types : List DeclRef
  functions : List DeclRef
  deriving DecidableEq, Repr

/-- A `Type` template.
Modelled from the spec: the struct lives in the missing `Assembly.h`;
fields are those read by `RuntimeLoader.h` (`GCMode`, `Generic`, `Fields`,
`Initializer`, `Finalizer`). -/
structure TypeTemplate where
  gcMode : StorageMode
  generic : GenericDecl
  fields : List Nat
  initializer : Nat
  finalizer : Nat
  deriving DecidableEq, Repr

/-- A function parameter / return-value slot of a `Function` template:
an index into the template's type RefList. -/
structure FuncSlot where
  typeId : Nat
  deriving DecidableEq, Repr

/-- A constant-table entry `(Offset, Length)`. -/
structure ConstEntry where
  offset : Nat
  length : Nat
  deriving DecidableEq, Repr

/-- A `Function` template.
Modelled from the spec: struct from the missing `Assembly.h`; fields are
those read by `RuntimeLoader.h`. -/
structure FunctionTemplate where
  generic : GenericDecl
  parameters : List FuncSlot
  returnValue : FuncSlot
  instruction : List Nat
  constantData : List Nat
  constantTable : List ConstEntry
  locals : Nat
  deriving DecidableEq, Repr

/-- An export-table entry `(ExportName, InternalId)`. -/
structure AssemblyExport where
  exportName : String
  internalId : Nat
  deriving DecidableEq, Repr

/-- An import-table entry; `genericParameters = none` models the
`SIZE_MAX` "don't check" sentinel. -/
structure AssemblyImport where
  assemblyName : String
  importName : String
  genericParameters : Option Nat
  deriving DecidableEq, Repr

/-- An `Assembly`.
Modelled from the spec: struct from the missing `Assembly.h`; fields are
those read by `RuntimeLoader.h`. -/
structure Assembly where
  assemblyName : String
  types : List TypeTemplate
  functions : List FunctionTemplate
  exportTypes : List AssemblyExport
  exportFunctions : List AssemblyExport
  importTypes : List AssemblyImport
  importFunctions : List AssemblyImport
  nativeTypes : List AssemblyExport
  deriving DecidableEq, Repr

/-- The immutable assembly list handed to the loader's constructor. -/
abbrev Env := List Assembly

/-- `LoadingArguments`: the structural key `(assembly, id, arguments)`.
Argument entries are `RuntimeType*` pointers, here `TypeId`s; `none`
models a null pointer (the loader can transiently build argument lists
containing null, which `CheckGenericArguments` then rejects). -/
structure LoadingArguments where
  assembly : String
  id : Nat
  arguments : List (Option Nat)
  deriving DecidableEq, Repr

/-- `RuntimeFieldInfo`: resolved field descriptor (type pointer, offset,
length). The type pointer is never null (checked in `LoadFields`). -/
structure FieldInfo where
  type : Nat
  offset : Nat
  length : Nat
  deriving DecidableEq, Repr

/-- A `RuntimeType` object. `staticPointer` abstracts the raw pointer to
a Boolean null/non-null flag (its numeric value is never inspected by the
loader logic under verification). -/
structure RuntimeType where
  typeId : Nat
  args : LoadingArguments
  storage : StorageMode
  fields : List FieldInfo
  size : Nat
  alignment : Nat
  initializer : Option Nat
  finalizer : Option Nat
  staticPointer : Bool
  pointerType : Option Nat
  deriving DecidableEq, Repr

/-- A cached `RuntimeFunctionCode` blob (shared across instantiations). -/
structure RuntimeFunctionCode where
  assemblyName : String
  id : Nat
  instruction : List Nat
  constantData : List Nat
  constantTable : List ConstEntry
  localVariables : Nat
  deriving DecidableEq, Repr

/-- A `RuntimeFunction` object. Referenced types/functions, the return
value and parameters are nullable pointers (`Option` of an id). -/
structure RuntimeFunction where
  functionId : Nat
  args : LoadingArguments
  code : Option RuntimeFunctionCode
  referencedType : List (Option Nat)
  referencedFunction : List (Option Nat)
  returnValue : Option Nat
  parameters : List (Option Nat)
  deriving DecidableEq, Repr

/-- The loader's mutable members. Queues keep the C++ vector order:
index 0 is the vector front, pushes append at the end, pops take the
back. `loadingTypes` holds raw (non-owning) pointers, modelled as the
`(TypeId, LoadingArguments)` data the loader reads through them. -/
structure LoaderState where
  loadedTypes : List (Option RuntimeType)
  loadedFunctions : List (Option RuntimeFunction)
  codeStorage : List RuntimeFunctionCode
  loadingTypes : List (Nat × LoadingArguments)
  loadingRefTypes : List RuntimeType
  postLoadingTypes : List RuntimeType
  loadingFunctions : List RuntimeFunction
  finishedLoadingTypes : List RuntimeType
  finishedLoadingFunctions : List RuntimeFunction
  nextFunctionId : Nat
  nextTypeId : Nat
  deriving DecidableEq, Repr

/-- The freshly constructed loader (`_nextFunctionId = 1, _nextTypeId = 1`). -/
def initialState : LoaderState :=
  { loadedTypes := []
    loadedFunctions := []
    codeStorage := []
    loadingTypes := []
    loadingRefTypes := []
    postLoadingTypes := []
    loadingFunctions := []
    finishedLoadingTypes := []
    finishedLoadingFunctions := []
    nextFunctionId := 1
    nextTypeId := 1 }

/-- The loader monad: state threading where an exception preserves the
state reached so far (C++ exceptions unwind but leave completed
mutations in place). -/
def M (α : Type) : Type := LoaderState → Except String α × LoaderState

instance : Monad M where
  pure a := fun s => (.ok a, s)
  bind x f := fun s =>
    match x s with
    | (.ok a, s') => f a s'
    | (.error e, s') => (.error e, s')

/-- `throw RuntimeLoaderException(msg)`. -/
def M.throw (e : String) : M α := fun s => (.error e, s)

def M.get : M LoaderState := fun s => (.ok s, s)

def M.set (s' : LoaderState) : M Unit := fun _ => (.ok (), s')

def M.modify (f : LoaderState → LoaderState) : M Unit := fun s => (.ok (), f s)

/-- Lift a state-independent `Except` computation into `M`. -/
def M.lift (x : Except String α) : M α := fun s => (x, s)

/-- `sizeof(void*)` on the reference platform (x86-64). -/
def ptrSize : Nat := 8

/-- `FindAssemblyNoThrow`. -/
def findAssemblyNoThrow (env : Env) (name : String) : Option Assembly :=
  env.find? (fun a => a.assemblyName = name)

/-- `FindAssemblyThrow`. -/
def findAssemblyThrow (env : Env) (name : String) : Except String Assembly :=
  match findAssemblyNoThrow env name with
  | some a => .ok a
  | none => .error "Referenced assembly not found"

/-- `FindTypeTemplate`. -/
def findTypeTemplate (env : Env) (assembly : String) (id : Nat) :
    Except String TypeTemplate := do
  let a ← findAssemblyThrow env assembly
  match a.types.get? id with
  | some t => .ok t
  | none => .error "Invalid type reference"

/-- `FindFunctionTemplate`. -/
def findFunctionTemplate (env : Env) (assembly : String) (id : Nat) :
    Except String FunctionTemplate := do
  let a ← findAssemblyThrow env assembly
  match a.functions.get? id with
  | some f => .ok f
  | none => .error "Invalid function reference"

/-- `CheckGenericArguments`: the argument count must equal the parameter
count and no argument may be null. -/
def checkGenericArguments (g : GenericDecl) (args : LoadingArguments) :
    Except String Unit :=
  if g.parameters ≠ args.arguments.length then
    .error "Invalid generic arguments"
  else if args.arguments.any (fun t => t = none) then
    .error "Invalid generic arguments"
  else
    .ok ()

/-- `FindPointerTypeId`, run by the constructor: locate the `Core.Pointer`
export and validate its template (`CheckPointerTypeTemplate`: exactly one
generic parameter, `TSM_VALUE`). `none` models the `SIZE_MAX` sentinel. -/
def pointerTypeIdOf (env : Env) : Option Nat :=
  match findAssemblyNoThrow env "Core" with
  | none => none
  | some a =>
    match a.exportTypes.find? (fun e => e.exportName = "Core.Pointer") with
    | none => none
    | some e =>
      match a.types.get? e.internalId with
      | none => none
      | some t =>
        if t.generic.parameters = 1 ∧ t.gcMode = StorageMode.value then
          some e.internalId
        else none

/-- `IsPointerType`. -/
def isPointerType (env : Env) (t : RuntimeType) : Bool :=
  t.args.assembly = "Core" ∧ pointerTypeIdOf env = some t.args.id

/-- `SetValueInList` (the body of `AddLoadedType` / `AddLoadedFunction`):
pad with null up to index `n`, then place the value at index `n`
(overwriting in release builds; the debug `assert` is a no-op). -/
def setValueInList (v : List (Option α)) (n : Nat) (x : α) : List (Option α) :=
  if n < v.length then v.set n (some x)
  else (v ++ List.replicate (n - v.length) none) ++ [some x]

/-- `AddLoadedType`. -/
def addLoadedType (t : RuntimeType) : M Unit :=
  M.modify fun s => { s with loadedTypes := setValueInList s.loadedTypes t.typeId t }

/-- `AddLoadedFunction`. -/
def addLoadedFunction (f : RuntimeFunction) : M Unit :=
  M.modify fun s =>
    { s with loadedFunctions := setValueInList s.loadedFunctions f.functionId f }

/-- The guarded scan in `GetType` / `LoadTypeInternal` over `_loadedTypes`:
first non-null entry whose `Args` equal `args` (null entries skipped). -/
def firstLoadedTypeMatch (l : List (Option RuntimeType)) (args : LoadingArguments) :
    Option Nat :=
  match l with
  | [] => none
  | none :: rest => firstLoadedTypeMatch rest args
  | some t :: rest =>
    if t.args = args then some t.typeId else firstLoadedTypeMatch rest args

/-- The guarded scan in `LoadFunctionInternal` over `_loadedFunctions`
(`if (ff && ff->Args == args)`). -/
def firstLoadedFuncMatch (l : List (Option RuntimeFunction)) (args : LoadingArguments) :
    Option Nat :=
  match l with
  | [] => none
  | none :: rest => firstLoadedFuncMatch rest args
  | some f :: rest =>
    if f.args = args then some f.functionId else firstLoadedFuncMatch rest args

/-- The UNguarded scan in `GetFunction` over `_loadedFunctions`
(`if (f->Args == args)` with no null check): reaching a null entry
dereferences it, which is C++ UB, modelled as an error. -/
def getFunctionScan (l : List (Option RuntimeFunction)) (args : LoadingArguments) :
    Except String (Option Nat) :=
  match l with
  | [] => .ok none
  | none :: _ => .error "UB: null dereference in GetFunction scan"
  | some f :: rest =>
    if f.args = args then .ok (some f.functionId) else getFunctionScan rest args

/-- Scan of an in-flight queue (`_finishedLoadingTypes`,
`_postLoadingTypes`, `_loadingRefTypes`) for a type with equal `Args`. -/
def firstQueueTypeMatch (l : List RuntimeType) (args : LoadingArguments) : Option Nat :=
  match l.find? (fun t => t.args = args) with
  | some t => some t.typeId
  | none => none

/-- Scan of an in-flight function queue for equal `Args`. -/
def firstQueueFuncMatch (l : List RuntimeFunction) (args : LoadingArguments) :
    Option Nat :=
  match l.find? (fun f => f.args = args) with
  | some f => some f.functionId
  | none => none

/-- Dereference a `RuntimeType*` (a `TypeId`): the object lives in the
loaded table or in one of the loading queues. -/
def findTypeObj (s : LoaderState) (id : Nat) : Option RuntimeType :=
  match (s.loadedTypes.filterMap (fun x => x)).find? (fun t => t.typeId = id) with
  | some t => some t
  | none =>
    match s.loadingRefTypes.find? (fun t => t.typeId = id) with
    | some t => some t
    | none =>
      match s.postLoadingTypes.find? (fun t => t.typeId = id) with
      | some t => some t
      | none => s.finishedLoadingTypes.find? (fun t => t.typeId = id)

/-- Dereference a `RuntimeFunction*` (a `FunctionId`). -/
def findFuncObj (s : LoaderState) (id : Nat) : Option RuntimeFunction :=
  match (s.loadedFunctions.filterMap (fun x => x)).find? (fun f => f.functionId = id) with
  | some f => some f
  | none =>
    match s.loadingFunctions.find? (fun f => f.functionId = id) with
    | some f => some f
    | none => s.finishedLoadingFunctions.find? (fun f => f.functionId = id)

/-- Apply `f` to the type object with id `id`, wherever it lives
(pointer-mediated in-place mutation). -/
def updateTypeById (s : LoaderState) (id : Nat) (f : RuntimeType → RuntimeType) :
    LoaderState :=
  let g : RuntimeType → RuntimeType := fun t => if t.typeId = id then f t else t
  { s with
    loadedTypes := s.loadedTypes.map (Option.map g)
    loadingRefTypes := s.loadingRefTypes.map g
    postLoadingTypes := s.postLoadingTypes.map g
    finishedLoadingTypes := s.finishedLoadingTypes.map g }

end RolLang

namespace RolLang

/-- `OP_NOP` (opcode header is outside `src/`; the value is irrelevant to
every claim, only the 16-byte pad matters). -/
def opNop : Nat := 0

/-- `GetCode`: look up the cached blob or clone it from the template,
appending 16 `NOP`s; empty templates yield a null blob. -/
def getCode (env : Env) (a : String) (i : Nat) : M (Option RuntimeFunctionCode) := do
  let s ← M.get
  match s.codeStorage.find? (fun c => c.assemblyName = a ∧ c.id = i) with
  | some c => pure (some c)
  | none => do
    let f ← M.lift (findFunctionTemplate env a i)
    if f.instruction.length = 0 ∧ f.constantData.length = 0 ∧
        f.constantTable.length = 0 then
      pure none
    else do
      let ret : RuntimeFunctionCode :=
        { assemblyName := a
          id := i
          instruction := f.instruction ++ List.replicate 16 opNop
          constantData := f.constantData
          constantTable := f.constantTable
          localVariables := f.locals }
      M.modify fun s2 => { s2 with codeStorage := s2.codeStorage ++ [ret] }
      pure (some ret)

/-- The field length/alignment contribution of a resolved field type:
reference storage contributes `(sizeof(void*), sizeof(void*))`, value
storage the type's `(Size, Alignment)`; global storage is rejected. -/
def fieldLenAlign (ft : RuntimeType) : Except String (Nat × Nat) :=
  match ft.storage with
  | .ref => .ok (ptrSize, ptrSize)
  | .value => .ok (ft.size, ft.alignment)
  | .global => .error "Invalid field type"

/-- `offset = (offset + alignment - 1) / alignment * alignment`; a zero
alignment divides by zero in C++ (UB), modelled as an error. -/
def alignUp (offset alignment : Nat) : Except String Nat :=
  if alignment = 0 then .error "UB: division by zero in field alignment"
  else .ok ((offset + alignment - 1) / alignment * alignment)

/-- The field-layout loop of `LoadFields` over the resolved field types,
threading `(offset, totalAlignment)`; returns the field descriptors, the
final offset and the final total alignment. -/
def layoutFields : List RuntimeType → Nat → Nat →
    Except String (List FieldInfo × Nat × Nat)
  | [], offset, total => .ok ([], offset, total)
  | ft :: rest, offset, total => do
    let (len, al) ← fieldLenAlign ft
    let off ← alignUp offset al
    let (fs, fo, tl) ← layoutFields rest (off + len) (max al total)
    .ok (⟨ft.typeId, off, len⟩ :: fs, fo, tl)

/-- Dereference a list of field-type pointers against the current state. -/
def derefTypeList (s : LoaderState) : List Nat → Except String (List RuntimeType)
  | [] => .ok []
  | i :: rest =>
    match findTypeObj s i with
    | none => .error "UB: dangling type pointer"
    | some t => do
      let r ← derefTypeList s rest
      .ok (t :: r)

/-- `func->Parameters.push_back(func->ReferencedType[Parameters[i].TypeId])`
with the C++ unchecked vector indexing modelled as UB error. -/
def paramsFrom (refTypes : List (Option Nat)) :
    List FuncSlot → Except String (List (Option Nat))
  | [] => .ok []
  | p :: rest =>
    match refTypes.get? p.typeId with
    | none => .error "UB: vector index out of range in PostLoadFunction"
    | some v => do
      let r ← paramsFrom refTypes rest
      .ok (v :: r)

/-- The tuple of mutually recursive private member functions of
`RuntimeLoader`, indexed by fuel (`fns` below). -/
structure Fns where
  loadRefType : LoadingArguments → GenericDecl → Nat → M (Option Nat)
  loadDependentType :
    String → Nat → LoadingArguments → GenericDecl → Nat → Option Nat → M Nat
  loadDependentTypeImport :
    String → Nat → LoadingArguments → GenericDecl → Nat → M Nat
  loadTypeInternal : LoadingArguments → M Nat
  loadFields : RuntimeType → Option TypeTemplate → M Nat
  loadRefFunction : LoadingArguments → GenericDecl → Nat → M (Option Nat)
  loadDependentFunction :
    String → Nat → LoadingArguments → GenericDecl → Nat → Option Nat → M Nat
  loadDependentFunctionImport :
    String → Nat → LoadingArguments → GenericDecl → Nat → M Nat
  loadFunctionInternal : LoadingArguments → M Nat
  postLoadType : RuntimeType → M Unit
  postLoadFunction : RuntimeFunction → M Unit
  processLoadingLists : M Unit

/-- Fuel exhaustion: every component fails (distinct from any source
error message; universally quantified theorems treat it as just another
error, concrete runs are given enough fuel never to reach it). -/
def errFns : Fns where
  loadRefType := fun _ _ _ => M.throw "Out of fuel"
  loadDependentType := fun _ _ _ _ _ _ => M.throw "Out of fuel"
  loadDependentTypeImport := fun _ _ _ _ _ => M.throw "Out of fuel"
  loadTypeInternal := fun _ => M.throw "Out of fuel"
  loadFields := fun _ _ => M.throw "Out of fuel"
  loadRefFunction := fun _ _ _ => M.throw "Out of fuel"
  loadDependentFunction := fun _ _ _ _ _ _ => M.throw "Out of fuel"
  loadDependentFunctionImport := fun _ _ _ _ _ => M.throw "Out of fuel"
  loadFunctionInternal := fun _ => M.throw "Out of fuel"
  postLoadType := fun _ => M.throw "Out of fuel"
  postLoadFunction := fun _ => M.throw "Out of fuel"
  processLoadingLists := M.throw "Out of fuel"

/-- The argument-collection loop of `LoadDependentType`: slots from
`i` up to the end of the type RefList, stopping at `REF_EMPTY`.
`steps` bounds the loop (callers pass the RefList length, which the
loop can never exceed). -/
def collectTypeArgs (F : Fns) (lastArgs : LoadingArguments) (g : GenericDecl) :
    Nat → Nat → M (List (Option Nat))
  | _, 0 => pure []
  | i, steps+1 =>
    match g.types.get? i with
    | none => pure []
    | some entry =>
      if entry.kind = RefKind.empty then pure []
      else do
        let v ← F.loadRefType lastArgs g i
        let rest ← collectTypeArgs F lastArgs g (i+1) steps
        pure (v :: rest)

/-- The argument-collection loop of `LoadDependentFunction`: slots must
be `REF_CLONETYPE` entries (indices into the type RefList), stopping at
`REF_EMPTY`. -/
def collectFuncArgs (F : Fns) (lastArgs : LoadingArguments) (g : GenericDecl) :
    Nat → Nat → M (List (Option Nat))
  | _, 0 => pure []
  | i, steps+1 =>
    match g.functions.get? i with
    | none => pure []
    | some entry =>
      if entry.kind = RefKind.empty then pure []
      else if entry.kind ≠ RefKind.cloneType then
        M.throw "Invalid generic function argument"
      else do
        let v ← F.loadRefType lastArgs g entry.index
        let rest ← collectFuncArgs F lastArgs g (i+1) steps
        pure (v :: rest)

/-- The field-type resolution loop of `LoadFields`: each entry of the
template's `Fields` list is resolved through the type RefList; a null
result (`REF_EMPTY`) is rejected. -/
def resolveFieldTypes (F : Fns) (args : LoadingArguments) (g : GenericDecl) :
    List Nat → M (List Nat)
  | [] => pure []
  | fid :: rest => do
    let v ← F.loadRefType args g fid
    match v with
    | none => M.throw "Invalid field type"
    | some t => do
      let r ← resolveFieldTypes F args g rest
      pure (t :: r)

/-- The reference-resolution loop of `PostLoadFunction` over all entries
of the type RefList (`for i in [0, Generic.Types.size())`). -/
def refTypeListLoop (F : Fns) (args : LoadingArguments) (g : GenericDecl) :
    Nat → Nat → M (List (Option Nat))
  | _, 0 => pure []
  | i, steps+1 =>
    if i < g.types.length then do
      let v ← F.loadRefType args g i
      let rest ← refTypeListLoop F args g (i+1) steps
      pure (v :: rest)
    else pure []

/-- The reference-resolution loop of `PostLoadFunction` over all entries
of the function RefList. -/
def refFuncListLoop (F : Fns) (args : LoadingArguments) (g : GenericDecl) :
    Nat → Nat → M (List (Option Nat))
  | _, 0 => pure []
  | i, steps+1 =>
    if i < g.functions.length then do
      let v ← F.loadRefFunction args g i
      let rest ← refFuncListLoop F args g (i+1) steps
      pure (v :: rest)
    else pure []

/-- `ClearLoadingLists`. -/
def clearLoadingLists (s : LoaderState) : LoaderState :=
  { s with
    loadingTypes := []
    loadingFunctions := []
    loadingRefTypes := []
    postLoadingTypes := []
    finishedLoadingTypes := []
    finishedLoadingFunctions := [] }

/-- The fuel-indexed loader: level `n+1` bodies are the verbatim C++
member-function bodies, with every call to another member made at level
`n`. -/
def fns (env : Env) : Nat → Fns
  | 0 => errFns
  | n+1 =>
    let F := fns env n
    { loadRefType := fun args g typeId =>
        match g.types.get? typeId with
        | none => M.throw "Invalid type reference"
        | some entry =>
          match entry.kind with
          | .empty => pure none
          | .clone =>
            if entry.index < g.types.length then F.loadRefType args g entry.index
            else M.throw "Invalid type reference"
          | .assemblyRef => do
            let r ← F.loadDependentType args.assembly entry.index args g typeId none
            pure (some r)
          | .imported => do
            let r ← F.loadDependentTypeImport args.assembly entry.index args g typeId
            pure (some r)
          | .argument =>
            match args.arguments.get? entry.index with
            | none => M.throw "Invalid type reference"
            | some v => pure v
          | _ => M.throw "Invalid type reference"
      loadDependentType := fun assembly i lastArgs g refListIndex checkArgSize => do
        let argsList ← collectTypeArgs F lastArgs g (refListIndex + 1) g.types.length
        match checkArgSize with
        | some k =>
          if argsList.length ≠ k then M.throw "Invalid generic argument list"
          else F.loadTypeInternal ⟨assembly, i, argsList⟩
        | none => F.loadTypeInternal ⟨assembly, i, argsList⟩
      loadDependentTypeImport := fun assembly i lastArgs g refListIndex => do
        let a ← M.lift (findAssemblyThrow env assembly)
        match a.importTypes.get? i with
        | none => M.throw "Invalid type reference"
        | some imp => do
          let a2 ← M.lift (findAssemblyThrow env imp.assemblyName)
          match a2.exportTypes.find? (fun e => e.exportName = imp.importName) with
          | some e =>
            F.loadDependentType imp.assemblyName e.internalId lastArgs g refListIndex
              imp.genericParameters
          | none => M.throw "Import type not found"
      loadTypeInternal := fun args => do
        let s ← M.get
        match firstLoadedTypeMatch s.loadedTypes args with
        | some r => pure r
        | none =>
        match firstQueueTypeMatch s.finishedLoadingTypes args with
        | some r => pure r
        | none =>
        match firstQueueTypeMatch s.postLoadingTypes args with
        | some r => pure r
        | none =>
        match firstQueueTypeMatch s.loadingRefTypes args with
        | some r => pure r
        | none => do
          let tt ← M.lift (findTypeTemplate env args.assembly args.id)
          M.lift (checkGenericArguments tt.generic args)
          let t : RuntimeType :=
            { typeId := s.nextTypeId
              args := args
              storage := tt.gcMode
              fields := []
              size := 0
              alignment := 0
              initializer := none
              finalizer := none
              staticPointer := false
              pointerType := none }
          if tt.gcMode = StorageMode.ref then do
            M.modify fun s2 =>
              { s2 with
                nextTypeId := s2.nextTypeId + 1
                loadingRefTypes := s2.loadingRefTypes ++ [t] }
            pure t.typeId
          else do
            M.modify fun s2 => { s2 with nextTypeId := s2.nextTypeId + 1 }
            F.loadFields t (some tt)
      loadFields := fun t tmpl => do
        let s ← M.get
        if s.loadingTypes.any (fun e => e.2 = t.args) then
          M.throw "Cyclic type dependence"
        else do
          M.set { s with loadingTypes := s.loadingTypes ++ [(t.typeId, t.args)] }
          let tt ←
            match tmpl with
            | some tt => pure tt
            | none => M.lift (findTypeTemplate env t.args.assembly t.args.id)
          let fieldIds ← resolveFieldTypes F t.args tt.generic tt.fields
          let s2 ← M.get
          let ftypes ← M.lift (derefTypeList s2 fieldIds)
          let layout ← M.lift (layoutFields ftypes 0 1)
          let t' : RuntimeType :=
            { t with
              fields := layout.1
              size := if layout.2.1 = 0 then 1 else layout.2.1
              alignment := layout.2.2 }
          M.modify fun s3 =>
            { s3 with
              postLoadingTypes := s3.postLoadingTypes ++ [t']
              loadingTypes := s3.loadingTypes.dropLast }
          pure t'.typeId
      loadRefFunction := fun args g funcId =>
        match g.functions.get? funcId with
        | none => M.throw "Invalid function reference"
        | some entry =>
          match entry.kind with
          | .empty => pure none
          | .clone =>
            if entry.index < g.functions.length then
              F.loadRefFunction args g entry.index
            else M.throw "Invalid function reference"
          | .assemblyRef => do
            let r ← F.loadDependentFunction args.assembly entry.index args g funcId none
            pure (some r)
          | .imported => do
            let r ← F.loadDependentFunctionImport args.assembly entry.index args g funcId
            pure (some r)
          | _ => M.throw "Invalid function reference"
      loadDependentFunction := fun assembly i lastArgs g refListIndex checkArgSize => do
        let argsList ← collectFuncArgs F lastArgs g (refListIndex + 1) g.functions.length
        match checkArgSize with
        | some k =>
          if argsList.length ≠ k then M.throw "Invalid generic argument list"
          else F.loadFunctionInternal ⟨assembly, i, argsList⟩
        | none => F.loadFunctionInternal ⟨assembly, i, argsList⟩
      loadDependentFunctionImport := fun assembly i lastArgs g refListIndex => do
        let a ← M.lift (findAssemblyThrow env assembly)
        match a.importFunctions.get? i with
        | none => M.throw "Invalid function reference"
        | some imp => do
          let a2 ← M.lift (findAssemblyThrow env imp.assemblyName)
          match a2.exportFunctions.find? (fun e => e.exportName = imp.importName) with
          | some e =>
            F.loadDependentFunction imp.assemblyName e.internalId lastArgs g
              refListIndex imp.genericParameters
          | none => M.throw "Import function not found"
      loadFunctionInternal := fun args => do
        let s ← M.get
        match firstLoadedFuncMatch s.loadedFunctions args with
        | some r => pure r
        | none =>
        match firstQueueFuncMatch s.finishedLoadingFunctions args with
        | some r => pure r
        | none =>
        match firstQueueFuncMatch s.loadingFunctions args with
        | some r => pure r
        | none => do
          let ft ← M.lift (findFunctionTemplate env args.assembly args.id)
          M.lift (checkGenericArguments ft.generic args)
          let s2 ← M.get
          let code ← getCode env args.assembly args.id
          let f : RuntimeFunction :=
            { functionId := s2.nextFunctionId
              args := args
              code := code
              referencedType := []
              referencedFunction := []
              returnValue := none
              parameters := [] }
          M.modify fun s3 =>
            { s3 with
              nextFunctionId := s3.nextFunctionId + 1
              loadingFunctions := s3.loadingFunctions ++ [f] }
          pure f.functionId
      postLoadType := fun t => do
        let tt ← M.lift (findTypeTemplate env t.args.assembly t.args.id)
        let ini ← F.loadRefFunction t.args tt.generic tt.initializer
        let fin ← F.loadRefFunction t.args tt.generic tt.finalizer
        let t2 := { t with initializer := ini, finalizer := fin }
        if t2.storage ≠ StorageMode.global ∧ ini.isSome then
          M.throw "Only global type can have initializer"
        else if t2.storage ≠ StorageMode.ref ∧ fin.isSome then
          M.throw "Only reference type can have finalizer"
        else do
          let t3 :=
            if t2.storage = StorageMode.global then { t2 with staticPointer := true }
            else t2
          M.modify fun s =>
            { s with finishedLoadingTypes := s.finishedLoadingTypes ++ [t3] }
      postLoadFunction := fun f => do
        let ft ← M.lift (findFunctionTemplate env f.args.assembly f.args.id)
        let refTypes ← refTypeListLoop F f.args ft.generic 0 ft.generic.types.length
        let refFuncs ← refFuncListLoop F f.args ft.generic 0 ft.generic.functions.length
        let rv ←
          match refTypes.get? ft.returnValue.typeId with
          | none => M.throw "UB: vector index out of range in PostLoadFunction"
          | some v => pure v
        let ps ← M.lift (paramsFrom refTypes ft.parameters)
        let f2 :=
          { f with
            referencedType := refTypes
            referencedFunction := refFuncs
            returnValue := rv
            parameters := ps }
        M.modify fun s =>
          { s with finishedLoadingFunctions := s.finishedLoadingFunctions ++ [f2] }
      processLoadingLists := do
        let s ← M.get
        match s.loadingRefTypes.getLast? with
        | some t => do
          M.set { s with loadingRefTypes := s.loadingRefTypes.dropLast }
          let _ ← F.loadFields t none
          F.processLoadingLists
        | none =>
        match s.postLoadingTypes.getLast? with
        | some t => do
          M.set { s with postLoadingTypes := s.postLoadingTypes.dropLast }
          F.postLoadType t
          F.processLoadingLists
        | none =>
        match s.loadingFunctions.getLast? with
        | some f => do
          M.set { s with loadingFunctions := s.loadingFunctions.dropLast }
          F.postLoadFunction f
          F.processLoadingLists
        | none => pure () }

end RolLang

namespace RolLang

/-- `FinalCheckType`: install the pointer-type back-reference on the
canonical `Core.Pointer` instantiation, then validate initializer and
finalizer signatures. The source's `assert`s are debug-only no-ops. -/
def finalCheckType (env : Env) (t : RuntimeType) : M Unit := do
  (if t.args.assembly = "Core" ∧ pointerTypeIdOf env = some t.args.id then do
    match t.args.arguments.get? 0 with
    | none => M.throw "UB: vector index out of range in FinalCheckType"
    | some none => M.throw "UB: null dereference in FinalCheckType"
    | some (some elemId) =>
      M.modify fun s =>
        updateTypeById s elemId (fun e => { e with pointerType := some t.typeId })
  else pure ())
  (match t.initializer with
  | none => pure ()
  | some fid => do
    let s ← M.get
    match findFuncObj s fid with
    | none => M.throw "UB: dangling function pointer in FinalCheckType"
    | some f =>
      if f.returnValue ≠ none ∨ f.parameters.length ≠ 0 then
        M.throw "Invalid initializer"
      else pure ())
  (match t.finalizer with
  | none => pure ()
  | some fid => do
    let s ← M.get
    match findFuncObj s fid with
    | none => M.throw "UB: dangling function pointer in FinalCheckType"
    | some f =>
      if f.returnValue ≠ none ∨ f.parameters.length ≠ 1 then
        M.throw "Invalid finalizer"
      else if f.parameters.get? 0 ≠ some (some t.typeId) then
        M.throw "Invalid finalizer"
      else pure ())

/-- The first loop of `MoveFinishedObjects`: `FinalCheckType` (and the
no-op `OnTypeLoaded` hook) on each finished type, front to back, reading
each element from the current state (earlier iterations may have set a
pointer back-reference on a later element). `FinalCheckFunction` and
`OnFunctionLoaded` are empty and not modelled. -/
def finalChecksLoop (env : Env) : Nat → Nat → M Unit
  | 0, _ => pure ()
  | steps+1, i => do
    let s ← M.get
    match s.finishedLoadingTypes.get? i with
    | none => pure ()
    | some t => do
      finalCheckType env t
      finalChecksLoop env steps (i+1)

/-- The two pop-back publication loops of `MoveFinishedObjects`
(they cannot throw): each finished object is placed in the loaded table
at its reserved id slot, back of the queue first. -/
def publishFinished (s : LoaderState) : LoaderState :=
  { s with
    loadedTypes :=
      s.finishedLoadingTypes.reverse.foldl
        (fun acc t => setValueInList acc t.typeId t) s.loadedTypes
    finishedLoadingTypes := []
    loadedFunctions :=
      s.finishedLoadingFunctions.reverse.foldl
        (fun acc f => setValueInList acc f.functionId f) s.loadedFunctions
    finishedLoadingFunctions := [] }

/-- `MoveFinishedObjects`: run all final checks, then publish. -/
def moveFinishedObjects (env : Env) : M Unit := do
  let s ← M.get
  finalChecksLoop env s.finishedLoadingTypes.length 0
  M.modify publishFinished

/-- `LoadTypeNoLock`: clear the loading lists, run the pipeline, catch
any exception into the `err` out-parameter (a null result), and clear
the loading lists again. -/
def loadTypeNoLock (env : Env) (fuel : Nat) (args : LoadingArguments) : M Nat :=
  fun s =>
    let pipeline : M Nat := do
      let r ← (fns env fuel).loadTypeInternal args
      (fns env fuel).processLoadingLists
      moveFinishedObjects env
      pure r
    match pipeline (clearLoadingLists s) with
    | (.ok r, s2) => (.ok r, clearLoadingLists s2)
    | (.error e, s2) => (.error e, clearLoadingLists s2)

/-- `LoadFunctionNoLock`. -/
def loadFunctionNoLock (env : Env) (fuel : Nat) (args : LoadingArguments) : M Nat :=
  fun s =>
    let pipeline : M Nat := do
      let r ← (fns env fuel).loadFunctionInternal args
      (fns env fuel).processLoadingLists
      moveFinishedObjects env
      pure r
    match pipeline (clearLoadingLists s) with
    | (.ok r, s2) => (.ok r, clearLoadingLists s2)
    | (.error e, s2) => (.error e, clearLoadingLists s2)

/-- `GetType`: scan the loaded table (null-guarded) and fall back to
`LoadTypeNoLock`. The spin-lock serializes calls and is not modelled. -/
def getType (env : Env) (fuel : Nat) (args : LoadingArguments) : M Nat :=
  fun s =>
    match firstLoadedTypeMatch s.loadedTypes args with
    | some r => (.ok r, s)
    | none => loadTypeNoLock env fuel args s

/-- `GetFunction`: scan the loaded table WITHOUT a null guard
(`if (f->Args == args)`) and fall back to `LoadFunctionNoLock`. -/
def getFunction (env : Env) (fuel : Nat) (args : LoadingArguments) : M Nat :=
  fun s =>
    match getFunctionScan s.loadedFunctions args with
    | .error e => (.error e, s)
    | .ok (some r) => (.ok r, s)
    | .ok none => loadFunctionNoLock env fuel args s

/-- `GetTypeById`: `if (id >= _loadedTypes.size()) return nullptr;
return _loadedTypes[id].get();` — always in bounds. -/
def getTypeById (s : LoaderState) (i : Nat) : Option Nat :=
  if i ≥ s.loadedTypes.length then none
  else
    match s.loadedTypes.get? i with
    | some e => e.map (·.typeId)
    | none => none

/-- `GetFunctionById`: `if (id > _loadedFunctions.size()) return nullptr;
return _loadedFunctions[id].get();` — note `>` where `GetTypeById`
uses `>=`: at `id == size()` the guard passes and the vector is indexed
out of bounds (UB). -/
def getFunctionById (s : LoaderState) (i : Nat) : Except String (Option Nat) :=
  if i > s.loadedFunctions.length then .ok none
  else
    match s.loadedFunctions.get? i with
    | some e => .ok (e.map (·.functionId))
    | none => .error "UB: vector index out of range in GetFunctionById"

/-- Count the loaded-table entries whose `Args` equal `args` (used to
state the at-most-once property of the loaded table). -/
def countLoadedTypeMatches (s : LoaderState) (args : LoadingArguments) : Nat :=
  (s.loadedTypes.filterMap (fun x => x)).countP (fun t => t.args = args)

end RolLang

namespace RolLang

/-! ### Concrete assemblies used by witnesses and counterexamples -/

/-- Assembly `M` with the self-referential reference-storage template
`Node` (spec end-to-end scenario 3): one field referencing `Node` itself
by `REF_ASSEMBLY`; initializer/finalizer are `REF_EMPTY`. -/
def nodeRefAssembly : Assembly :=
  { assemblyName := "M"
    types :=
      [{ gcMode := StorageMode.ref
         generic :=
           { parameters := 0
             types := [⟨RefKind.assemblyRef, 0⟩]
             functions := [⟨RefKind.empty, 0⟩] }
         fields := [0]
         initializer := 0
         finalizer := 0 }]
    functions := []
    exportTypes := []
    exportFunctions := []
    importTypes := []
    importFunctions := []
    nativeTypes := [] }

def nodeRefEnv : Env := [nodeRefAssembly]

/-- The identical template with `GCMode = TSM_VALUE`
(spec end-to-end scenario 4). -/
def nodeValAssembly : Assembly :=
  { assemblyName := "M"
    types :=
      [{ gcMode := StorageMode.value
         generic :=
           { parameters := 0
             types := [⟨RefKind.assemblyRef, 0⟩]
             functions := [⟨RefKind.empty, 0⟩] }
         fields := [0]
         initializer := 0
         finalizer := 0 }]
    functions := []
    exportTypes := []
    exportFunctions := []
    importTypes := []
    importFunctions := []
    nativeTypes := [] }

def nodeValEnv : Env := [nodeValAssembly]

/-- `(M, 0, [])` — the request for template 0 of assembly `M`. -/
def nodeArgs : LoadingArguments := ⟨"M", 0, []⟩

/-- A `Core` assembly: template 0 is a plain empty value type (`I32`),
template 1 is the canonical pointer template (value storage, one generic
parameter) exported as `"Core.Pointer"`. -/
def coreAssembly : Assembly :=
  { assemblyName := "Core"
    types :=
      [{ gcMode := StorageMode.value
         generic := { parameters := 0, types := [], functions := [⟨RefKind.empty, 0⟩] }
         fields := []
         initializer := 0
         finalizer := 0 },
       { gcMode := StorageMode.value
         generic := { parameters := 1, types := [], functions := [⟨RefKind.empty, 0⟩] }
         fields := []
         initializer := 0
         finalizer := 0 }]
    functions := []
    exportTypes := [⟨"Core.Pointer", 1⟩]
    exportFunctions := []
    importTypes := []
    importFunctions := []
    nativeTypes := [] }

def coreEnv : Env := [coreAssembly]

/-- Stage 1 of the `Core.I32` load (`GetType(Core, 0, [])`, id 1):
`LoadTypeInternal` from the cleared initial state. The run is staged per
pipeline phase so concrete facts evaluate phase by phase. -/
def ciT1 : Except String Nat × LoaderState :=
  (fns coreEnv 20).loadTypeInternal ⟨"Core", 0, []⟩ (clearLoadingLists initialState)

/-- Stage 2 of the `Core.I32` load: `ProcessLoadingLists`. -/
def ciT2 : Except String Unit × LoaderState := (fns coreEnv 20).processLoadingLists ciT1.2

/-- Stage 3 of the `Core.I32` load: `MoveFinishedObjects`. -/
def ciT3 : Except String Unit × LoaderState := moveFinishedObjects coreEnv ciT2.2

def coreStateI32 : LoaderState := clearLoadingLists ciT3.2

/-- Stage 1 of the `Core.Pointer` instantiation over `I32`
(`GetType(Core, 1, [some 1])`, id 2). -/
def cpT1 : Except String Nat × LoaderState :=
  (fns coreEnv 20).loadTypeInternal ⟨"Core", 1, [some 1]⟩ (clearLoadingLists coreStateI32)

/-- Stage 2 of the `Core.Pointer` load: `ProcessLoadingLists`. -/
def cpT2 : Except String Unit × LoaderState := (fns coreEnv 20).processLoadingLists cpT1.2

/-- Stage 3 of the `Core.Pointer` load: `MoveFinishedObjects`. -/
def cpT3 : Except String Unit × LoaderState := moveFinishedObjects coreEnv cpT2.2

/-- The loader state after additionally `GetType(Core.Pointer, [I32])`. -/
def coreStatePtr : LoaderState := clearLoadingLists cpT3.2

/-- Assembly `M` with one trivial function template (empty code,
`REF_EMPTY` return type, no parameters). -/
def funcAssembly : Assembly :=
  { assemblyName := "M"
    types := []
    functions :=
      [{ generic := { parameters := 0, types := [⟨RefKind.empty, 0⟩], functions := [] }
         parameters := []
         returnValue := ⟨0⟩
         instruction := []
         constantData := []
         constantTable := []
         locals := 0 }]
    exportTypes := []
    exportFunctions := []
    importTypes := []
    importFunctions := []
    nativeTypes := [] }

def funcEnv : Env := [funcAssembly]

/-- Assembly `M` with a reference type `R` whose finalizer is the
function `fin : (R) → void` (function template 0). -/
def finAssembly : Assembly :=
  { assemblyName := "M"
    types :=
      [{ gcMode := StorageMode.ref
         generic :=
           { parameters := 0
             types := []
             functions := [⟨RefKind.empty, 0⟩, ⟨RefKind.assemblyRef, 0⟩] }
         fields := []
         initializer := 0
         finalizer := 1 }]
    functions :=
      [{ generic :=
           { parameters := 0
             types := [⟨RefKind.assemblyRef, 0⟩, ⟨RefKind.empty, 0⟩]
             functions := [] }
         parameters := [⟨0⟩]
         returnValue := ⟨1⟩
         instruction := []
         constantData := []
         constantTable := []
         locals := 0 }]
    exportTypes := []
    exportFunctions := []
    importTypes := []
    importFunctions := []
    nativeTypes := [] }

def finEnv : Env := [finAssembly]

/-- A handcrafted loaded 4-byte/4-aligned value type (stands in for a
native `I32`). -/
def i32rt : RuntimeType :=
  { typeId := 1, args := ⟨"N", 0, []⟩, storage := StorageMode.value, fields := []
    size := 4, alignment := 4, initializer := none, finalizer := none
    staticPointer := false, pointerType := none }

/-- A handcrafted loaded 1-byte/1-aligned value type (a native `I8`). -/
def i8rt : RuntimeType :=
  { typeId := 2, args := ⟨"N", 1, []⟩, storage := StorageMode.value, fields := []
    size := 1, alignment := 1, initializer := none, finalizer := none
    staticPointer := false, pointerType := none }

/-- A state holding the two handcrafted value types. -/
def pairState : LoaderState :=
  { initialState with loadedTypes := [none, some i32rt, some i8rt], nextTypeId := 3 }

/-- A `Pair<T,U>`-style template whose two fields are the generic
arguments (spec end-to-end scenario 2). -/
def pairTemplate : TypeTemplate :=
  { gcMode := StorageMode.value
    generic :=
      { parameters := 2
        types := [⟨RefKind.argument, 1⟩, ⟨RefKind.argument, 0⟩]
        functions := [⟨RefKind.empty, 0⟩] }
    fields := [1, 0]
    initializer := 0
    finalizer := 0 }

/-- The in-flight `Pair<I32, I8>` object before field layout. -/
def pairT : RuntimeType :=
  { typeId := 3, args := ⟨"M", 0, [some 1, some 2]⟩, storage := StorageMode.value
    fields := [], size := 0, alignment := 0, initializer := none, finalizer := none
    staticPointer := false, pointerType := none }

end RolLang

namespace RolLang

/-! ### Constraint solver: `ConstraintType` and `TryDetermineEqualTypes`
(`src/LibRolLang/RuntimeLoaderConstraint.h`, new-version data model with
segmented `MultiList` argument lists). -/

/-- `ConstraintTypeType` (`CTT_*`). -/
inductive CTT where
  | fail
  | any
  | generic
  | subtypeT
  | rt
  | empty
  deriving DecidableEq, Repr

/-- New-version `LoadingArguments`: `(assembly, id, MultiList<RuntimeType*>)`,
the argument list segmented; entries are nullable pointers. -/
structure MLoadingArguments where
  assembly : String
  id : Nat
  arguments : List (List (Option Nat))
  deriving DecidableEq, Repr

/-- A `ConstraintType` node. Fields mirror the C++ struct; the `Root`
pointer is implicit (a single root per solver run, its tables live in
`SolverState`); `otype`/`clevel` are the backtracking metadata written by
`DeductRT`/`DeductFail`. `args` is the `MultiList<ConstraintType>` as a
list of segments. -/
inductive CTNode where
  | mk
    (ctype : CTT)
    (determined : Option Nat)
    (typeTemplateAssembly : String)
    (typeTemplateIndex : Nat)
    (subtypeName : String)
    (args : List (List CTNode))
    (undetermined : Nat)
    (tryArgumentConstraint : Bool)
    (parentType : List CTNode)
    (otype : CTT)
    (clevel : Nat)

def CTNode.ctype : CTNode → CTT
  | .mk c _ _ _ _ _ _ _ _ _ _ => c

def CTNode.determined : CTNode → Option Nat
  | .mk _ d _ _ _ _ _ _ _ _ _ => d

def CTNode.typeTemplateAssembly : CTNode → String
  | .mk _ _ a _ _ _ _ _ _ _ _ => a

def CTNode.typeTemplateIndex : CTNode → Nat
  | .mk _ _ _ i _ _ _ _ _ _ _ => i

def CTNode.subtypeName : CTNode → String
  | .mk _ _ _ _ n _ _ _ _ _ _ => n

def CTNode.args : CTNode → List (List CTNode)
  | .mk _ _ _ _ _ ar _ _ _ _ _ => ar

def CTNode.undetermined : CTNode → Nat
  | .mk _ _ _ _ _ _ u _ _ _ _ => u

def CTNode.tryArgumentConstraint : CTNode → Bool
  | .mk _ _ _ _ _ _ _ t _ _ _ => t

def CTNode.parentType : CTNode → List CTNode
  | .mk _ _ _ _ _ _ _ _ p _ _ => p

/-- Replace the `Args` multilist (in-place mutation of the C++ node). -/
def CTNode.withArgs : CTNode → List (List CTNode) → CTNode
  | .mk c d a i n _ u t p o l, ar => .mk c d a i n ar u t p o l

/-- Replace the `ParentType` vector. -/
def CTNode.withParentType : CTNode → List CTNode → CTNode
  | .mk c d a i n ar u t _ o l, p => .mk c d a i n ar u t p o l

/-- `DeductRT` on the node itself: save `OType`/`CLevel`, become `CTT_RT`
with the given `Determined` pointer. -/
def CTNode.deductRT : CTNode → Option Nat → Nat → CTNode
  | .mk c _ a i n ar u t p _ _, d, lvl => .mk .rt d a i n ar u t p c lvl

/-- `DeductFail` on the node itself: save `OType`/`CLevel`, become
`CTT_FAIL` (the `Determined` field is left as-is). -/
def CTNode.deductFail : CTNode → Nat → CTNode
  | .mk c d a i n ar u t p _ _, lvl => .mk .fail d a i n ar u t p c lvl

/-- `ConstraintType::RT(root, rt)` (aggregate initialization zeroes the
remaining members; `OType` value-initializes to enum 0 = `CTT_FAIL`). -/
def ctRT (d : Option Nat) : CTNode := .mk .rt d "" 0 "" [] 0 false [] .fail 0

/-- `ConstraintType::Empty(root)`. -/
def ctEmptyN : CTNode := .mk .empty none "" 0 "" [] 0 false [] .fail 0

/-- `ConstraintType::Fail(root)`. -/
def ctFailN : CTNode := .mk .fail none "" 0 "" [] 0 false [] .fail 0

/-- A `CTT_ANY` node owning undetermined-table slot `uid`
(`ConstraintType::UD` allocates the slot in the root's table). -/
def ctAnyN (uid : Nat) : CTNode := .mk .any none "" 0 "" [] uid false [] .fail 0

/-- `ConstraintType::G(root, assembly, index)` with argument children. -/
def ctG (a : String) (i : Nat) (ar : List (List CTNode)) : CTNode :=
  .mk .generic none a i "" ar 0 false [] .fail 0

/-- `ConstraintType::SUB(root, name)` with its parent and arguments. -/
def ctSub (n : String) (parent : CTNode) (ar : List (List CTNode)) : CTNode :=
  .mk .subtypeT none "" 0 n ar 0 false [parent] .fail 0

/-- The root's solver-global state: the undetermined table
(`ConstraintUndeterminedTypeSource`), a map from `RuntimeType*` ids to
their `LoadingArguments` (pointer dereference in the `RT`-vs-`Generic`
branches), and the backtracking log/mark counters (entry contents are
only traversed by `DoBacktrack`, outside this development's scope). -/
structure SolverState where
  undeterminedTypes : List (Option Nat)
  rtArgs : Nat → MLoadingArguments
  backtrackLength : Nat
  marksLength : Nat

/-- `GetDetermined(i)`. -/
def SolverState.getDetermined (s : SolverState) (i : Nat) : Option Nat :=
  match s.undeterminedTypes.get? i with
  | some d => d
  | none => none

/-- `Determined(i, t)`: write the table slot (an out-of-range write is
UB in C++; `List.set` drops it, which no reachable caller exercises). -/
def SolverState.setDetermined (s : SolverState) (i : Nat) (t : Option Nat) :
    SolverState :=
  { s with undeterminedTypes := s.undeterminedTypes.set i t }

/-- The solver monad: same error-preserves-state shape as `M`. -/
def SM (α : Type) : Type := SolverState → Except String α × SolverState

instance : Monad SM where
  pure a := fun s => (.ok a, s)
  bind x f := fun s =>
    match x s with
    | (.ok a, s') => f a s'
    | (.error e, s') => (.error e, s')

def SM.throw (e : String) : SM α := fun s => (.error e, s)

def SM.get : SM SolverState := fun s => (.ok s, s)

def SM.set (s' : SolverState) : SM Unit := fun _ => (.ok (), s')

def SM.lift (x : Except String α) : SM α := fun s => (x, s)

/-- `DeductRT` including the root-side effects (`GetCurrentLevel`,
`BacktrackList.push_back`). -/
def deductRTm (t : CTNode) (d : Option Nat) : SM CTNode := fun s =>
  (.ok (t.deductRT d s.marksLength), { s with backtrackLength := s.backtrackLength + 1 })

/-- `DeductFail` including the root-side effects. -/
def deductFailm (t : CTNode) : SM CTNode := fun s =>
  (.ok (t.deductFail s.marksLength), { s with backtrackLength := s.backtrackLength + 1 })

/-- The collaborators of `SimplifyConstraintType` that live outside
`src/` (`RuntimeLoaderRefList.h` and the subtype resolver).
Modelled from the spec: `precheck` is the constraint pre-check run for
`TryArgumentConstraint` nodes (§4.3.7 "a pre-check of the target
template's constraints is run"), `instantiate` is `LoadTypeInternal(la,
tryArg)` ("invoke instantiation"), `findSub` is `FindSubType` ("resolve
the nested name"). Every claim-C6 theorem is quantified over this
record, because the unifier's rule table does not depend on it. -/
structure SimplifyOracle where
  precheck : MLoadingArguments → Bool
  instantiate : MLoadingArguments → Bool → Except String Nat
  findSub : Option Nat → String → List (List (Option Nat)) → Option MLoadingArguments

/-- The fuel-indexed pair `SimplifyConstraintType` /
`TrySimplifyConstraintType`. -/
structure SimpFns where
  simplifyConstraintType : CTNode → SM CTNode
  trySimplifyConstraintType : CTNode → CTNode → SM (CTNode × CTNode × Bool)

/-- One segment of the `CopyList` loop: each child runs through
`TrySimplifyConstraintType` unless the break flag is already set; a
failing child sets the flag (after possibly `DeductFail`ing the parent).
Returns the updated children, updated parent, flag, and the collected
`Determined` pointers. -/
def simplifySegLoop (F : SimpFns) :
    List CTNode → CTNode → Bool → SM (List CTNode × CTNode × Bool × List (Option Nat))
  | [], p, brk => pure ([], p, brk, [])
  | c :: rest, p, brk =>
    if brk then do
      let (rest', p', brk', ds) ← simplifySegLoop F rest p true
      pure (c :: rest', p', brk', none :: ds)
    else do
      let (c', p', okFlag) ← F.trySimplifyConstraintType c p
      let (rest', p'', brk', ds) ← simplifySegLoop F rest p' (!okFlag)
      pure (c' :: rest', p'', brk', (if okFlag then c'.determined else none) :: ds)

/-- The outer `CopyList` loop over the segments of an argumentMultiList. -/
def simplifyArgsLoop (F : SimpFns) :
    List (List CTNode) → CTNode → Bool →
    SM (List (List CTNode) × CTNode × Bool × List (List (Option Nat)))
  | [], p, brk => pure ([], p, brk, [])
  | seg :: rest, p, brk => do
    let (seg', p', brk', ds) ← simplifySegLoop F seg p brk
    let (rest', p'', brk'', dss) ← simplifyArgsLoop F rest p' brk'
    pure (seg' :: rest', p'', brk'', ds :: dss)

/-- `SimplifyConstraintType` / `TrySimplifyConstraintType`, by fuel. -/
def simpFns (oracle : SimplifyOracle) : Nat → SimpFns
  | 0 =>
    { simplifyConstraintType := fun _ => SM.throw "Out of fuel"
      trySimplifyConstraintType := fun _ _ => SM.throw "Out of fuel" }
  | n+1 =>
    let F := simpFns oracle n
    { simplifyConstraintType := fun t =>
        match t.ctype with
        | .rt => pure t
        | .empty => pure t
        | .fail => pure t
        | .any => do
          let s ← SM.get
          match s.getDetermined t.undetermined with
          | some rt => deductRTm t (some rt)
          | none => pure t
        | .generic => do
          let (args', t1, brk, ds) ← simplifyArgsLoop F t.args t false
          let t2 := t1.withArgs args'
          if brk then pure t2
          else do
            let la : MLoadingArguments :=
              ⟨t.typeTemplateAssembly, t.typeTemplateIndex, ds⟩
            if t.tryArgumentConstraint ∧ ¬ oracle.precheck la then
              deductFailm t2
            else do
              let rt ← SM.lift (oracle.instantiate la t.tryArgumentConstraint)
              deductRTm t2 (some rt)
        | .subtypeT => do
          match t.parentType with
          | [] => SM.throw "UB: vector index out of range in SimplifyConstraintType"
          | p :: pRest => do
            let (p', t1, okFlag) ← F.trySimplifyConstraintType p t
            let t2 := t1.withParentType (p' :: pRest)
            if ¬ okFlag then pure t2
            else do
              let (args', t3, brk, ds) ← simplifyArgsLoop F t2.args t2 false
              let t4 := t3.withArgs args'
              if brk then pure t4
              else
                match oracle.findSub p'.determined t.subtypeName ds with
                | none =>
                  if t.tryArgumentConstraint then deductFailm t4
                  else SM.throw "Invalid subtype constraint"
                | some la =>
                  if t.tryArgumentConstraint ∧ ¬ oracle.precheck la then
                    deductFailm t4
                  else do
                    let rt ← SM.lift (oracle.instantiate la t.tryArgumentConstraint)
                    deductRTm t4 (some rt)
      trySimplifyConstraintType := fun t parent => do
        let t' ← F.simplifyConstraintType t
        if t'.ctype ≠ CTT.rt then
          if t'.ctype = CTT.fail then do
            let parent' ← deductFailm parent
            pure (t', parent', false)
          else pure (t', parent, false)
        else pure (t', parent, true) }

/-- `GetSizeList` of a MultiList: the per-segment lengths. -/
def sizeList (l : List (List α)) : List Nat := l.map List.length

/-- All elements of a MultiList, in segment order (`GetAll` /
the nested `(i, j)` loops). -/
def flattenML (l : List (List α)) : List α := l.foldr (· ++ ·) []

/-- The element-wise unification loop shared by the `Generic`/`Generic`
and `Generic`/`RT` branches: run `td` on each pair and stop at the first
non-zero result. -/
def unifyPairsWith (td : CTNode → CTNode → SM Int) :
    List (CTNode × CTNode) → SM Int
  | [] => pure 0
  | (x, y) :: rest => do
    let r ← td x y
    if r ≠ 0 then pure r else unifyPairsWith td rest

/-- `TryDetermineEqualTypes`, by fuel: simplify both sides, then apply
the rule table; recursive calls descend one fuel level. -/
def tryDetermineEqualTypes (oracle : SimplifyOracle) : Nat → CTNode → CTNode → SM Int
  | 0, _, _ => SM.throw "Out of fuel"
  | n+1, a0, b0 => do
    let a ← (simpFns oracle (n+1)).simplifyConstraintType a0
    let b ← (simpFns oracle (n+1)).simplifyConstraintType b0
    if a.ctype = CTT.empty ∨ b.ctype = CTT.empty then
      pure 0
    else if a.ctype = CTT.fail ∨ b.ctype = CTT.fail then
      pure (-1)
    else if a.ctype = CTT.any ∨ b.ctype = CTT.any then
      if a.ctype = CTT.rt then do
        let s ← SM.get
        SM.set (s.setDetermined b.undetermined a.determined)
        pure 1
      else if b.ctype = CTT.rt then do
        let s ← SM.get
        SM.set (s.setDetermined a.undetermined b.determined)
        pure 1
      else pure 0
    else if a.ctype = CTT.subtypeT ∨ b.ctype = CTT.subtypeT then
      pure 0
    else if a.ctype = CTT.rt ∧ b.ctype = CTT.rt then
      if a.determined ≠ b.determined then pure (-1) else pure 0
    else if a.ctype = CTT.generic ∧ b.ctype = CTT.generic then
      if a.typeTemplateAssembly ≠ b.typeTemplateAssembly ∨
          a.typeTemplateIndex ≠ b.typeTemplateIndex ∨
          sizeList a.args ≠ sizeList b.args then
        pure (-1)
      else
        unifyPairsWith (tryDetermineEqualTypes oracle n)
          ((flattenML a.args).zip (flattenML b.args))
    else if a.ctype = CTT.rt then do
      let s ← SM.get
      match a.determined with
      | none => SM.throw "UB: null dereference in TryDetermineEqualTypes"
      | some aId =>
        let la := s.rtArgs aId
        if la.assembly ≠ b.typeTemplateAssembly ∨
            la.id ≠ b.typeTemplateIndex ∨
            sizeList la.arguments ≠ sizeList b.args then
          pure (-1)
        else
          unifyPairsWith (tryDetermineEqualTypes oracle n)
            ((flattenML b.args).zip ((flattenML la.arguments).map ctRT))
    else
      tryDetermineEqualTypes oracle n b a

/-- A trivial oracle instance for closed evaluations: no pre-check ever
fails, instantiation always throws, no subtype resolves, every
`RuntimeType` id maps to an empty argument record. -/
def oracle0 : SimplifyOracle :=
  { precheck := fun _ => true
    instantiate := fun _ _ => .error "no instantiation"
    findSub := fun _ _ _ => none }

/-- A solver state with an empty undetermined table. -/
def solverState0 : SolverState :=
  { undeterminedTypes := []
    rtArgs := fun _ => ⟨"", 0, []⟩
    backtrackLength := 0
    marksLength := 0 }

end RolLang

namespace RolLang

/-! ### Invariant predicates for the pipeline proofs -/

/-- The `(TypeId, Args)` pairs of every in-flight type object
(the three owning queues). -/
def typeMembers (s : LoaderState) : List (Nat × LoadingArguments) :=
  (s.loadingRefTypes ++ s.postLoadingTypes ++ s.finishedLoadingTypes).map
    (fun t => (t.typeId, t.args))

/-- The `(FunctionId, Args)` pairs of every in-flight function object. -/
def funcMembers (s : LoaderState) : List (Nat × LoadingArguments) :=
  (s.loadingFunctions ++ s.finishedLoadingFunctions).map
    (fun f => (f.functionId, f.args))

/-- Freshness of in-flight type ids: all below the counter and pairwise
distinct. -/
def typeIdsOK (s : LoaderState) : Prop :=
  (∀ p ∈ typeMembers s, p.1 < s.nextTypeId) ∧
  ((typeMembers s).map Prod.fst).Nodup

/-- Freshness of in-flight function ids. -/
def funcIdsOK (s : LoaderState) : Prop :=
  (∀ p ∈ funcMembers s, p.1 < s.nextFunctionId) ∧
  ((funcMembers s).map Prod.fst).Nodup

/-- The storage-mode half of the initializer/finalizer invariant,
established by `PostLoadType` before an object reaches the finished
queue. -/
def storageCondOK (t : RuntimeType) : Prop :=
  (t.initializer.isSome → t.storage = StorageMode.global) ∧
  (t.finalizer.isSome → t.storage = StorageMode.ref)

/-- Every type in the finished queue satisfies the storage-mode
invariant. -/
def finishedSigOK (s : LoaderState) : Prop :=
  ∀ t ∈ s.finishedLoadingTypes, storageCondOK t

/-- The common postcondition of every pipeline member function on a
successful run: loaded tables and the `loadingTypes` stack are untouched,
counters grow, in-flight objects persist (same id and `Args`), new
in-flight objects take fresh ids, and the freshness / storage invariants
transfer. -/
def Step (s s' : LoaderState) : Prop :=
  s'.loadedTypes = s.loadedTypes ∧
  s'.loadedFunctions = s.loadedFunctions ∧
  s'.loadingTypes = s.loadingTypes ∧
  s.nextTypeId ≤ s'.nextTypeId ∧
  s.nextFunctionId ≤ s'.nextFunctionId ∧
  (∀ p, p ∈ typeMembers s → p ∈ typeMembers s') ∧
  (∀ p, p ∈ funcMembers s → p ∈ funcMembers s') ∧
  (∀ p, p ∈ typeMembers s' → p ∈ typeMembers s ∨ s.nextTypeId ≤ p.1) ∧
  (∀ p, p ∈ funcMembers s' → p ∈ funcMembers s ∨ s.nextFunctionId ≤ p.1) ∧
  (typeIdsOK s → typeIdsOK s') ∧
  (funcIdsOK s → funcIdsOK s') ∧
  (finishedSigOK s → finishedSigOK s')

/-- `Step` variant for `LoadFields` / `PostLoadType`, which receive an
owned object `t` (absent from the queues) and insert it. -/
def StepAddT (t : RuntimeType) (s s' : LoaderState) : Prop :=
  s'.loadedTypes = s.loadedTypes ∧
  s'.loadedFunctions = s.loadedFunctions ∧
  s'.loadingTypes = s.loadingTypes ∧
  s.nextTypeId ≤ s'.nextTypeId ∧
  s.nextFunctionId ≤ s'.nextFunctionId ∧
  (∀ p, p ∈ typeMembers s → p ∈ typeMembers s') ∧
  (t.typeId, t.args) ∈ typeMembers s' ∧
  (∀ p, p ∈ funcMembers s → p ∈ funcMembers s') ∧
  (∀ p, p ∈ typeMembers s' →
    p ∈ typeMembers s ∨ p = (t.typeId, t.args) ∨ s.nextTypeId ≤ p.1) ∧
  (∀ p, p ∈ funcMembers s' → p ∈ funcMembers s ∨ s.nextFunctionId ≤ p.1) ∧
  (typeIdsOK s → t.typeId < s.nextTypeId →
    (∀ p ∈ typeMembers s, p.1 ≠ t.typeId) → typeIdsOK s') ∧
  (funcIdsOK s → funcIdsOK s') ∧
  (finishedSigOK s → finishedSigOK s')

/-- `Step` variant for `PostLoadFunction`, which receives an owned
function object `f` and inserts it. -/
def StepAddF (f : RuntimeFunction) (s s' : LoaderState) : Prop :=
  s'.loadedTypes = s.loadedTypes ∧
  s'.loadedFunctions = s.loadedFunctions ∧
  s'.loadingTypes = s.loadingTypes ∧
  s.nextTypeId ≤ s'.nextTypeId ∧
  s.nextFunctionId ≤ s'.nextFunctionId ∧
  (∀ p, p ∈ typeMembers s → p ∈ typeMembers s') ∧
  (∀ p, p ∈ funcMembers s → p ∈ funcMembers s') ∧
  (f.functionId, f.args) ∈ funcMembers s' ∧
  (∀ p, p ∈ typeMembers s' → p ∈ typeMembers s ∨ s.nextTypeId ≤ p.1) ∧
  (∀ p, p ∈ funcMembers s' →
    p ∈ funcMembers s ∨ p = (f.functionId, f.args) ∨ s.nextFunctionId ≤ p.1) ∧
  (typeIdsOK s → typeIdsOK s') ∧
  (funcIdsOK s → f.functionId < s.nextFunctionId →
    (∀ p ∈ funcMembers s, p.1 ≠ f.functionId) → funcIdsOK s') ∧
  (finishedSigOK s → finishedSigOK s')

/-- The combined success-path specification of a fuel level of `fns`. -/
def SpecOK (F : Fns) : Prop :=
  (∀ args g i s r s', F.loadRefType args g i s = (.ok r, s') → Step s s') ∧
  (∀ asm i la g ri ca s r s',
    F.loadDependentType asm i la g ri ca s = (.ok r, s') → Step s s') ∧
  (∀ asm i la g ri s r s',
    F.loadDependentTypeImport asm i la g ri s = (.ok r, s') → Step s s') ∧
  (∀ args s r s', F.loadTypeInternal args s = (.ok r, s') →
    Step s s' ∧
    (firstLoadedTypeMatch s.loadedTypes args = some r ∨ (r, args) ∈ typeMembers s') ∧
    (firstLoadedTypeMatch s.loadedTypes args = none →
      (∀ p ∈ typeMembers s, p.2 ≠ args) →
      r = s.nextTypeId ∧ (r, args) ∈ typeMembers s')) ∧
  (∀ t tmpl s r s', F.loadFields t tmpl s = (.ok r, s') →
    r = t.typeId ∧ StepAddT t s s') ∧
  (∀ args g i s r s', F.loadRefFunction args g i s = (.ok r, s') → Step s s') ∧
  (∀ asm i la g ri ca s r s',
    F.loadDependentFunction asm i la g ri ca s = (.ok r, s') → Step s s') ∧
  (∀ asm i la g ri s r s',
    F.loadDependentFunctionImport asm i la g ri s = (.ok r, s') → Step s s') ∧
  (∀ args s r s', F.loadFunctionInternal args s = (.ok r, s') → Step s s') ∧
  (∀ t s r s', F.postLoadType t s = (.ok r, s') → StepAddT t s s') ∧
  (∀ f s r s', F.postLoadFunction f s = (.ok r, s') → StepAddF f s s') ∧
  (∀ s r s', F.processLoadingLists s = (.ok r, s') →
    Step s s' ∧ s'.loadingRefTypes = [] ∧ s'.postLoadingTypes = [] ∧
    s'.loadingFunctions = [])

end RolLang

namespace RolLang

/-- Everything of a `RuntimeType` except the `pointerType` back-reference
(the only field the final-check phase mutates on already-created
objects). -/
def tShape (t : RuntimeType) :
    Nat × LoadingArguments × StorageMode × List FieldInfo × Nat × Nat ×
    Option Nat × Option Nat × Bool :=
  (t.typeId, t.args, t.storage, t.fields, t.size, t.alignment,
    t.initializer, t.finalizer, t.staticPointer)

/-- Reachability invariant: the id counters dominate the loaded-table
lengths (ids are allocated from the counters and tables are indexed by
id). Holds in the initial state and is preserved by every API call. -/
def countersOK (s : LoaderState) : Prop :=
  s.loadedTypes.length ≤ s.nextTypeId ∧
  s.loadedFunctions.length ≤ s.nextFunctionId

/-- Reachability invariant: every loaded object's id is below its
counter. -/
def loadedIdsOK (s : LoaderState) : Prop :=
  (∀ t : RuntimeType, some t ∈ s.loadedTypes → t.typeId < s.nextTypeId) ∧
  (∀ f : RuntimeFunction, some f ∈ s.loadedFunctions → f.functionId < s.nextFunctionId)

/-- The signature conditions `FinalCheckType` enforces, stated against a
state `s` used to dereference the function pointers. -/
def sigCheckOK (s : LoaderState) (t : RuntimeType) : Prop :=
  (∀ fid, t.initializer = some fid →
    ∃ f, findFuncObj s fid = some f ∧ f.returnValue = none ∧ f.parameters = []) ∧
  (∀ fid, t.finalizer = some fid →
    ∃ f, findFuncObj s fid = some f ∧ f.returnValue = none ∧
      f.parameters.length = 1 ∧ f.parameters.get? 0 = some (some t.typeId))

/-- The published form of the signature conditions: the initializer /
finalizer function objects live in the loaded-function table with the
checked signatures. -/
def loadedFuncSig (s : LoaderState) (t : RuntimeType) : Prop :=
  (∀ fid, t.initializer = some fid →
    ∃ f, some f ∈ s.loadedFunctions ∧ f.functionId = fid ∧
      f.returnValue = none ∧ f.parameters = []) ∧
  (∀ fid, t.finalizer = some fid →
    ∃ f, some f ∈ s.loadedFunctions ∧ f.functionId = fid ∧
      f.returnValue = none ∧ f.parameters.length = 1 ∧
      f.parameters.get? 0 = some (some t.typeId))

/-- A solver state with one unbound undetermined slot. -/
def solverStateAny : SolverState :=
  { solverState0 with undeterminedTypes := [none] }

/-- A solver state where `RuntimeType` 7 has `LoadingArguments`
`("A", 1, [[5]])` (for the `RT`-vs-`Generic` virtual-`Generic` rule). -/
def solverStateRT : SolverState :=
  { solverStateAny with
    rtArgs := fun i => if i = 7 then ⟨"A", 1, [[some 5]]⟩ else ⟨"", 0, []⟩ }

/-- Loaded-table framing from a fixed start state: on every outcome
(success or error) the computation leaves `_loadedTypes` and
`_loadedFunctions` untouched. -/
def PresLoadedFrom (s : LoaderState) (m : M α) : Prop :=
  ∀ r s', m s = (r, s') →
    s'.loadedTypes = s.loadedTypes ∧ s'.loadedFunctions = s.loadedFunctions

/-- Loaded-table framing from every start state (in the source, only
`MoveFinishedObjects` writes the loaded tables, so the whole recursive
loading layer satisfies this on success and on error alike). -/
def PresLoaded (m : M α) : Prop := ∀ s, PresLoadedFrom s m

/-- The loaded-table framing spec of a fuel level of `fns`. -/
def PresOK (F : Fns) : Prop :=
  (∀ args g i, PresLoaded (F.loadRefType args g i)) ∧
  (∀ asm i la g ri ca, PresLoaded (F.loadDependentType asm i la g ri ca)) ∧
  (∀ asm i la g ri, PresLoaded (F.loadDependentTypeImport asm i la g ri)) ∧
  (∀ args, PresLoaded (F.loadTypeInternal args)) ∧
  (∀ t tmpl, PresLoaded (F.loadFields t tmpl)) ∧
  (∀ args g i, PresLoaded (F.loadRefFunction args g i)) ∧
  (∀ asm i la g ri ca, PresLoaded (F.loadDependentFunction asm i la g ri ca)) ∧
  (∀ asm i la g ri, PresLoaded (F.loadDependentFunctionImport asm i la g ri)) ∧
  (∀ args, PresLoaded (F.loadFunctionInternal args)) ∧
  (∀ t, PresLoaded (F.postLoadType t)) ∧
  (∀ f, PresLoaded (F.postLoadFunction f)) ∧
  PresLoaded F.processLoadingLists

/-- Pointwise equality of two loaded-type tables up to the `pointerType`
field of each entry. -/
def tShapeEqL (l l' : List (Option RuntimeType)) : Prop :=
  List.Forall₂ (fun a b => a.map tShape = b.map tShape) l l'

/-- Pointwise equality of two type queues up to `pointerType`. -/
def tShapeEqQ (l l' : List RuntimeType) : Prop :=
  List.Forall₂ (fun a b => tShape a = tShape b) l l'

/-- A computation that never changes the state (the signature checks of
`FinalCheckType` only read and throw). -/
def ReadOnly (m : M α) : Prop := ∀ s r s', m s = (r, s') → s' = s

/-- The state relation realized by the final-check phase
(`FinalCheckType` over the finished queue, on success or on error):
only `pointerType` fields of type objects change — the loaded tables
keep length, occupancy and every other field of every entry, and all
queues, counters and the code cache are untouched (type queues up to
`pointerType`, since `UpdateTypeById` writes through pointers that may
point into them). -/
def PtrOnly (s s' : LoaderState) : Prop :=
  tShapeEqL s.loadedTypes s'.loadedTypes ∧
  s'.loadedFunctions = s.loadedFunctions ∧
  s'.codeStorage = s.codeStorage ∧
  s'.loadingTypes = s.loadingTypes ∧
  tShapeEqQ s.loadingRefTypes s'.loadingRefTypes ∧
  tShapeEqQ s.postLoadingTypes s'.postLoadingTypes ∧
  s'.loadingFunctions = s.loadingFunctions ∧
  tShapeEqQ s.finishedLoadingTypes s'.finishedLoadingTypes ∧
  s'.finishedLoadingFunctions = s.finishedLoadingFunctions ∧
  s'.nextFunctionId = s.nextFunctionId ∧
  s'.nextTypeId = s.nextTypeId

/-- Stage 1 of the end-to-end reference-node load (`GetType` on `Node`
from the reference assembly, fuel 8): `LoadTypeInternal`. -/
def nrT1 : Except String Nat × LoaderState :=
  (fns nodeRefEnv 8).loadTypeInternal nodeArgs (clearLoadingLists initialState)

/-- Stage 2 of the reference-node load: `ProcessLoadingLists`. -/
def nrT2 : Except String Unit × LoaderState := (fns nodeRefEnv 8).processLoadingLists nrT1.2

/-- Stage 3 of the reference-node load: `MoveFinishedObjects`. -/
def nrT3 : Except String Unit × LoaderState := moveFinishedObjects nodeRefEnv nrT2.2

/-- The loader state after the end-to-end reference-node load. -/
def nodeRunState : LoaderState := clearLoadingLists nrT3.2

/-- Stage 1 of the failing value-node load (the cyclic value type): the
pipeline throws inside `LoadTypeInternal`. -/
def nvT1 : Except String Nat × LoaderState :=
  (fns nodeValEnv 8).loadTypeInternal nodeArgs (clearLoadingLists initialState)

/-- The loader state left behind by the failing value-node load. -/
def nodeValErrState : LoaderState := clearLoadingLists nvT1.2

/-- The loader state after the first successful `GetFunction` on the
function assembly. -/
def funcRunState : LoaderState := (getFunction funcEnv 8 ⟨"M", 0, []⟩ initialState).2

/-- Stage 1 of the finalizer-assembly load (`GetType` on `R`, fuel 10):
`LoadTypeInternal`. -/
def finT1 : Except String Nat × LoaderState :=
  (fns finEnv 10).loadTypeInternal ⟨"M", 0, []⟩ (clearLoadingLists initialState)

/-- Stage 2 of the finalizer-assembly load: `ProcessLoadingLists`. -/
def finT2 : Except String Unit × LoaderState := (fns finEnv 10).processLoadingLists finT1.2

/-- Stage 3 of the finalizer-assembly load: `MoveFinishedObjects`. -/
def finT3 : Except String Unit × LoaderState := moveFinishedObjects finEnv finT2.2

/-- The loader state after loading the type with a finalizer from the
finalizer assembly. -/
def finRunState : LoaderState := clearLoadingLists finT3.2

/-- The published type object produced by the finalizer-assembly load. -/
def finRType : RuntimeType :=
  { typeId := 1, args := ⟨"M", 0, []⟩, storage := StorageMode.ref, fields := []
    size := 1, alignment := 1, initializer := none, finalizer := some 1
    staticPointer := false, pointerType := none }

end RolLang

namespace RolLang

/-! ### Infrastructure lemmas -/

@[simp] theorem M_bind_apply (x : M α) (f : α → M β) (s : LoaderState) :
    (x >>= f) s =
      match x s with
      | (.ok a, s') => f a s'
      | (.error e, s') => (.error e, s') := rfl

@[simp] theorem M_pure_apply (a : α) (s : LoaderState) :
    (pure a : M α) s = (.ok a, s) := rfl

@[simp] theorem M_get_apply (s : LoaderState) : M.get s = (.ok s, s) := rfl

@[simp] theorem M_set_apply (s' s : LoaderState) : M.set s' s = (.ok (), s') := rfl

@[simp] theorem M_modify_apply (f : LoaderState → LoaderState) (s : LoaderState) :
    M.modify f s = (.ok (), f s) := rfl

@[simp] theorem M_throw_apply (e : String) (s : LoaderState) :
    (M.throw e : M α) s = (.error e, s) := rfl

@[simp] theorem M_lift_apply (x : Except String α) (s : LoaderState) :
    M.lift x s = (x, s) := rfl

@[simp] theorem SM_bind_apply (x : SM α) (f : α → SM β) (s : SolverState) :
    (x >>= f) s =
      match x s with
      | (.ok a, s') => f a s'
      | (.error e, s') => (.error e, s') := rfl

@[simp] theorem SM_pure_apply (a : α) (s : SolverState) :
    (pure a : SM α) s = (.ok a, s) := rfl

@[simp] theorem SM_get_apply (s : SolverState) : SM.get s = (.ok s, s) := rfl

@[simp] theorem SM_set_apply (s' s : SolverState) : SM.set s' s = (.ok (), s') := rfl

@[simp] theorem SM_throw_apply (e : String) (s : SolverState) :
    (SM.throw e : SM α) s = (.error e, s) := rfl

@[simp] theorem SM_lift_apply (x : Except String α) (s : SolverState) :
    SM.lift x s = (x, s) := rfl

theorem Step.reflS {s : LoaderState} : Step s s := by
  refine ⟨rfl, rfl, rfl, le_refl _, le_refl _, ?_, ?_, ?_, ?_, ?_, ?_, ?_⟩ <;>
    intros <;> simp_all

theorem Step.chainS {s1 s2 s3 : LoaderState} (h1 : Step s1 s2) (h2 : Step s2 s3) :
    Step s1 s3 := by
  obtain ⟨a1, b1, c1, d1, e1, f1, g1, h1', i1, j1, k1, l1⟩ := h1
  obtain ⟨a2, b2, c2, d2, e2, f2, g2, h2', i2, j2, k2, l2⟩ := h2
  refine ⟨a2.trans a1, b2.trans b1, c2.trans c1, d1.trans d2, e1.trans e2,
    fun p hp => f2 p (f1 p hp), fun p hp => g2 p (g1 p hp), ?_, ?_,
    fun h => j2 (j1 h), fun h => k2 (k1 h), fun h => l2 (l1 h)⟩
  · intro p hp
    rcases h2' p hp with h | h
    · exact h1' p h
    · exact Or.inr (d1.trans h)
  · intro p hp
    rcases i2 p hp with h | h
    · exact i1 p h
    · exact Or.inr (e1.trans h)

end RolLang

namespace RolLang

theorem collectTypeArgs_step (F : Fns)
    (hF : ∀ args g i s r s', F.loadRefType args g i s = (.ok r, s') → Step s s') :
    ∀ steps i la g s r s',
      collectTypeArgs F la g i steps s = (.ok r, s') → Step s s' := by
  intro steps
  induction steps with
  | zero =>
    intro i la g s r s' h
    simp only [collectTypeArgs, M_pure_apply] at h
    cases h
    exact Step.reflS
  | succ n ih =>
    intro i la g s r s' h
    simp only [collectTypeArgs] at h
    rcases hg : g.types.get? i with _ | entry <;> rw [hg] at h <;>
      simp only [M_bind_apply, M_pure_apply] at h
    · cases h; exact Step.reflS
    · by_cases hk : entry.kind = RefKind.empty
      · simp only [if_pos hk, M_pure_apply] at h
        cases h; exact Step.reflS
      · simp only [if_neg hk, M_bind_apply, M_pure_apply] at h
        split at h
        · next v s1 hx =>
          split at h
          · next rest s2 hy =>
            cases h
            exact (hF _ _ _ _ _ _ hx).chainS (ih _ _ _ _ _ _ hy)
          · simp at h
        · simp at h

end RolLang

namespace RolLang

theorem collectFuncArgs_step (F : Fns)
    (hF : ∀ args g i s r s', F.loadRefType args g i s = (.ok r, s') → Step s s') :
    ∀ steps i la g s r s',
      collectFuncArgs F la g i steps s = (.ok r, s') → Step s s' := by
  intro steps
  induction steps with
  | zero =>
    intro i la g s r s' h
    simp only [collectFuncArgs, M_pure_apply] at h
    cases h
    exact Step.reflS
  | succ n ih =>
    intro i la g s r s' h
    simp only [collectFuncArgs] at h
    rcases hg : g.functions.get? i with _ | entry <;> rw [hg] at h <;>
      simp only [M_bind_apply, M_pure_apply] at h
    · cases h; exact Step.reflS
    · by_cases hk : entry.kind = RefKind.empty
      · simp only [if_pos hk, M_pure_apply] at h
        cases h; exact Step.reflS
      · simp only [if_neg hk] at h
        by_cases hk2 : entry.kind ≠ RefKind.cloneType
        · simp only [if_pos hk2, M_throw_apply] at h
          cases h
        · simp only [if_neg hk2, M_bind_apply, M_pure_apply] at h
          split at h
          · next v s1 hx =>
            split at h
            · next rest s2 hy =>
              cases h
              exact (hF _ _ _ _ _ _ hx).chainS (ih _ _ _ _ _ _ hy)
            · simp at h
          · simp at h

theorem resolveFieldTypes_step (F : Fns)
    (hF : ∀ args g i s r s', F.loadRefType args g i s = (.ok r, s') → Step s s') :
    ∀ l la g s r s',
      resolveFieldTypes F la g l s = (.ok r, s') → Step s s' := by
  intro l
  induction l with
  | nil =>
    intro la g s r s' h
    simp only [resolveFieldTypes, M_pure_apply] at h
    cases h
    exact Step.reflS
  | cons fid rest ih =>
    intro la g s r s' h
    simp only [resolveFieldTypes, M_bind_apply, M_pure_apply] at h
    split at h
    · next v s1 hx =>
      rcases v with _ | t
      · simp only [M_throw_apply] at h
        cases h
      · simp only [M_bind_apply, M_pure_apply] at h
        split at h
        · next rs s2 hy =>
          cases h
          exact (hF _ _ _ _ _ _ hx).chainS (ih _ _ _ _ _ hy)
        · simp at h
    · simp at h

theorem refTypeListLoop_step (F : Fns)
    (hF : ∀ args g i s r s', F.loadRefType args g i s = (.ok r, s') → Step s s') :
    ∀ steps i la g s r s',
      refTypeListLoop F la g i steps s = (.ok r, s') → Step s s' := by
  intro steps
  induction steps with
  | zero =>
    intro i la g s r s' h
    simp only [refTypeListLoop, M_pure_apply] at h
    cases h
    exact Step.reflS
  | succ n ih =>
    intro i la g s r s' h
    simp only [refTypeListLoop] at h
    by_cases hi : i < g.types.length
    · simp only [if_pos hi, M_bind_apply, M_pure_apply] at h
      split at h
      · next v s1 hx =>
        split at h
        · next rest s2 hy =>
          cases h
          exact (hF _ _ _ _ _ _ hx).chainS (ih _ _ _ _ _ _ hy)
        · simp at h
      · simp at h
    · simp only [if_neg hi, M_pure_apply] at h
      cases h
      exact Step.reflS

theorem refFuncListLoop_step (F : Fns)
    (hF : ∀ args g i s r s', F.loadRefFunction args g i s = (.ok r, s') → Step s s') :
    ∀ steps i la g s r s',
      refFuncListLoop F la g i steps s = (.ok r, s') → Step s s' := by
  intro steps
  induction steps with
  | zero =>
    intro i la g s r s' h
    simp only [refFuncListLoop, M_pure_apply] at h
    cases h
    exact Step.reflS
  | succ n ih =>
    intro i la g s r s' h
    simp only [refFuncListLoop] at h
    by_cases hi : i < g.functions.length
    · simp only [if_pos hi, M_bind_apply, M_pure_apply] at h
      split at h
      · next v s1 hx =>
        split at h
        · next rest s2 hy =>
          cases h
          exact (hF _ _ _ _ _ _ hx).chainS (ih _ _ _ _ _ _ hy)
        · simp at h
      · simp at h
    · simp only [if_neg hi, M_pure_apply] at h
      cases h
      exact Step.reflS

theorem getCode_step (env : Env) (a : String) (i : Nat) (s : LoaderState)
    (r : Option RuntimeFunctionCode) (s' : LoaderState)
    (h : getCode env a i s = (.ok r, s')) :
    s'.loadedTypes = s.loadedTypes ∧ s'.loadedFunctions = s.loadedFunctions ∧
    s'.loadingTypes = s.loadingTypes ∧ s'.nextTypeId = s.nextTypeId ∧
    s'.nextFunctionId = s.nextFunctionId ∧
    s'.loadingRefTypes = s.loadingRefTypes ∧
    s'.postLoadingTypes = s.postLoadingTypes ∧
    s'.finishedLoadingTypes = s.finishedLoadingTypes ∧
    s'.loadingFunctions = s.loadingFunctions ∧
    s'.finishedLoadingFunctions = s.finishedLoadingFunctions := by
  simp only [getCode, M_bind_apply, M_pure_apply, M_get_apply, M_lift_apply,
    M_modify_apply] at h
  rcases hc : s.codeStorage.find? (fun c => c.assemblyName = a ∧ c.id = i) with _ | c <;>
    rw [hc] at h <;>
    simp only [M_bind_apply, M_pure_apply, M_lift_apply, M_modify_apply] at h
  · rcases hft : findFunctionTemplate env a i with e | ft <;> rw [hft] at h <;>
      simp only [M_bind_apply, M_pure_apply, M_modify_apply] at h
    · cases h
    · by_cases hemp : ft.instruction.length = 0 ∧ ft.constantData.length = 0 ∧
        ft.constantTable.length = 0
      · simp only [if_pos hemp, M_pure_apply] at h
        cases h; simp
      · simp only [if_neg hemp, M_bind_apply, M_pure_apply, M_modify_apply] at h
        cases h; simp
  · cases h; simp

theorem getCode_step_state (env : Env) (a : String) (i : Nat) (s : LoaderState)
    (r : Option RuntimeFunctionCode) (s' : LoaderState)
    (h : getCode env a i s = (.ok r, s')) : Step s s' := by
  obtain ⟨h1, h2, h3, h4, h5, h6, h7, h8, h9, h10⟩ := getCode_step env a i s r s' h
  have hm : typeMembers s' = typeMembers s := by
    unfold typeMembers; rw [h6, h7, h8]
  have hf : funcMembers s' = funcMembers s := by
    unfold funcMembers; rw [h9, h10]
  refine ⟨h1, h2, h3, le_of_eq h4.symm, le_of_eq h5.symm, ?_, ?_, ?_, ?_, ?_, ?_, ?_⟩
  · intro p hp; rw [hm]; exact hp
  · intro p hp; rw [hf]; exact hp
  · intro p hp; rw [hm] at hp; exact Or.inl hp
  · intro p hp; rw [hf] at hp; exact Or.inl hp
  · intro hok
    unfold typeIdsOK at hok ⊢
    rw [hm, h4]; exact hok
  · intro hok
    unfold funcIdsOK at hok ⊢
    rw [hf, h5]; exact hok
  · intro hok
    unfold finishedSigOK at hok ⊢
    rw [h8]; exact hok

end RolLang

namespace RolLang

theorem firstQueueTypeMatch_mem {l : List RuntimeType} {args : LoadingArguments}
    {r : Nat} (h : firstQueueTypeMatch l args = some r) :
    (r, args) ∈ l.map (fun t => (t.typeId, t.args)) := by
  unfold firstQueueTypeMatch at h
  rcases hf : l.find? (fun t => t.args = args) with _ | t <;> rw [hf] at h
  · cases h
  · cases h
    have hmem := List.mem_of_find?_eq_some hf
    have hp := List.find?_some hf
    simp only [decide_eq_true_eq] at hp
    exact List.mem_map.mpr ⟨t, hmem, by rw [hp]⟩

theorem firstQueueFuncMatch_mem {l : List RuntimeFunction} {args : LoadingArguments}
    {r : Nat} (h : firstQueueFuncMatch l args = some r) :
    (r, args) ∈ l.map (fun f => (f.functionId, f.args)) := by
  unfold firstQueueFuncMatch at h
  rcases hf : l.find? (fun f => f.args = args) with _ | f <;> rw [hf] at h
  · cases h
  · cases h
    have hmem := List.mem_of_find?_eq_some hf
    have hp := List.find?_some hf
    simp only [decide_eq_true_eq] at hp
    exact List.mem_map.mpr ⟨f, hmem, by rw [hp]⟩

theorem getLast?_decomp {l : List α} {t : α} (h : l.getLast? = some t) :
    l = l.dropLast ++ [t] := by
  rcases l with _ | ⟨a, l'⟩
  · cases h
  · have hne : a :: l' ≠ [] := by simp
    rw [List.getLast?_eq_getLast _ hne] at h
    cases h
    exact (List.dropLast_append_getLast hne).symm

theorem loadRefType_spec_succ (env : Env) (n : Nat) (ih : SpecOK (fns env n)) :
    ∀ args g i s r s',
      (fns env (n+1)).loadRefType args g i s = (.ok r, s') → Step s s' := by
  obtain ⟨ihRef, ihDepT, ihDepTI, ihLTI, ihLF, ihRefF, ihDepF, ihDepFI, ihLFI,
    ihPLT, ihPLF, ihPLL⟩ := ih
  intro args g i s r s' h
  simp only [fns] at h
  rcases hg : g.types.get? i with _ | entry <;> rw [hg] at h
  · cases h
  · rcases entry with ⟨k, idx⟩
    cases k <;> simp only [M_bind_apply, M_pure_apply, M_throw_apply] at h
    case empty => cases h; exact Step.reflS
    case clone =>
      by_cases hlt : idx < g.types.length
      · simp only [if_pos hlt] at h
        exact ihRef _ _ _ _ _ _ h
      · simp only [if_neg hlt, M_throw_apply] at h
        cases h
    case assemblyRef =>
      split at h
      · next v s1 hx =>
        cases h
        exact ihDepT _ _ _ _ _ _ _ _ _ hx
      · simp at h
    case imported =>
      split at h
      · next v s1 hx =>
        cases h
        exact ihDepTI _ _ _ _ _ _ _ _ hx
      · simp at h
    case argument =>
      rcases ha : args.arguments.get? idx with _ | v <;> rw [ha] at h
      · cases h
      · cases h; exact Step.reflS
    all_goals cases h

end RolLang

namespace RolLang

theorem loadDependentType_spec_succ (env : Env) (n : Nat) (ih : SpecOK (fns env n)) :
    ∀ asm i la g ri ca s r s',
      (fns env (n+1)).loadDependentType asm i la g ri ca s = (.ok r, s') → Step s s' := by
  obtain ⟨ihRef, ihDepT, ihDepTI, ihLTI, ihLF, ihRefF, ihDepF, ihDepFI, ihLFI,
    ihPLT, ihPLF, ihPLL⟩ := ih
  intro asm i la g ri ca s r s' h
  simp only [fns, M_bind_apply] at h
  split at h
  · next l s1 hx =>
    have step1 := collectTypeArgs_step _ ihRef _ _ _ _ _ _ _ hx
    rcases ca with _ | k <;> simp only [M_throw_apply] at h
    · exact step1.chainS (ihLTI _ _ _ _ h).1
    · by_cases hlen : l.length ≠ k
      · simp only [if_pos hlen, M_throw_apply] at h
        cases h
      · simp only [if_neg hlen] at h
        exact step1.chainS (ihLTI _ _ _ _ h).1
  · simp at h

theorem loadDependentTypeImport_spec_succ (env : Env) (n : Nat)
    (ih : SpecOK (fns env n)) :
    ∀ asm i la g ri s r s',
      (fns env (n+1)).loadDependentTypeImport asm i la g ri s = (.ok r, s') →
        Step s s' := by
  obtain ⟨ihRef, ihDepT, ihDepTI, ihLTI, ihLF, ihRefF, ihDepF, ihDepFI, ihLFI,
    ihPLT, ihPLF, ihPLL⟩ := ih
  intro asm i la g ri s r s' h
  simp only [fns, M_bind_apply, M_lift_apply] at h
  rcases ha : findAssemblyThrow env asm with e | a <;> rw [ha] at h <;>
    simp only [M_bind_apply, M_lift_apply] at h
  · cases h
  · rcases hi : a.importTypes.get? i with _ | imp <;> rw [hi] at h
    · cases h
    · simp only [M_bind_apply, M_lift_apply] at h
      rcases ha2 : findAssemblyThrow env imp.assemblyName with e2 | a2 <;>
        rw [ha2] at h <;> simp only [M_bind_apply, M_lift_apply] at h
      · cases h
      · rcases hf : a2.exportTypes.find? (fun e => e.exportName = imp.importName)
          with _ | e <;> rw [hf] at h
        · cases h
        · exact ihDepT _ _ _ _ _ _ _ _ _ h

theorem loadRefFunction_spec_succ (env : Env) (n : Nat) (ih : SpecOK (fns env n)) :
    ∀ args g i s r s',
      (fns env (n+1)).loadRefFunction args g i s = (.ok r, s') → Step s s' := by
  obtain ⟨ihRef, ihDepT, ihDepTI, ihLTI, ihLF, ihRefF, ihDepF, ihDepFI, ihLFI,
    ihPLT, ihPLF, ihPLL⟩ := ih
  intro args g i s r s' h
  simp only [fns] at h
  rcases hg : g.functions.get? i with _ | entry <;> rw [hg] at h
  · cases h
  · rcases entry with ⟨k, idx⟩
    cases k <;> simp only [M_bind_apply, M_pure_apply, M_throw_apply] at h
    case empty => cases h; exact Step.reflS
    case clone =>
      by_cases hlt : idx < g.functions.length
      · simp only [if_pos hlt] at h
        exact ihRefF _ _ _ _ _ _ h
      · simp only [if_neg hlt, M_throw_apply] at h
        cases h
    case assemblyRef =>
      split at h
      · next v s1 hx =>
        cases h
        exact ihDepF _ _ _ _ _ _ _ _ _ hx
      · simp at h
    case imported =>
      split at h
      · next v s1 hx =>
        cases h
        exact ihDepFI _ _ _ _ _ _ _ _ hx
      · simp at h
    all_goals cases h

theorem loadDependentFunction_spec_succ (env : Env) (n : Nat)
    (ih : SpecOK (fns env n)) :
    ∀ asm i la g ri ca s r s',
      (fns env (n+1)).loadDependentFunction asm i la g ri ca s = (.ok r, s') →
        Step s s' := by
  obtain ⟨ihRef, ihDepT, ihDepTI, ihLTI, ihLF, ihRefF, ihDepF, ihDepFI, ihLFI,
    ihPLT, ihPLF, ihPLL⟩ := ih
  intro asm i la g ri ca s r s' h
  simp only [fns, M_bind_apply] at h
  split at h
  · next l s1 hx =>
    have step1 := collectFuncArgs_step _ ihRef _ _ _ _ _ _ _ hx
    rcases ca with _ | k <;> simp only [M_throw_apply] at h
    · exact step1.chainS (ihLFI _ _ _ _ h)
    · by_cases hlen : l.length ≠ k
      · simp only [if_pos hlen, M_throw_apply] at h
        cases h
      · simp only [if_neg hlen] at h
        exact step1.chainS (ihLFI _ _ _ _ h)
  · simp at h

theorem loadDependentFunctionImport_spec_succ (env : Env) (n : Nat)
    (ih : SpecOK (fns env n)) :
    ∀ asm i la g ri s r s',
      (fns env (n+1)).loadDependentFunctionImport asm i la g ri s = (.ok r, s') →
        Step s s' := by
  obtain ⟨ihRef, ihDepT, ihDepTI, ihLTI, ihLF, ihRefF, ihDepF, ihDepFI, ihLFI,
    ihPLT, ihPLF, ihPLL⟩ := ih
  intro asm i la g ri s r s' h
  simp only [fns, M_bind_apply, M_lift_apply] at h
  rcases ha : findAssemblyThrow env asm with e | a <;> rw [ha] at h <;>
    simp only [M_bind_apply, M_lift_apply] at h
  · cases h
  · rcases hi : a.importFunctions.get? i with _ | imp <;> rw [hi] at h
    · cases h
    · simp only [M_bind_apply, M_lift_apply] at h
      rcases ha2 : findAssemblyThrow env imp.assemblyName with e2 | a2 <;>
        rw [ha2] at h <;> simp only [M_bind_apply, M_lift_apply] at h
      · cases h
      · rcases hf : a2.exportFunctions.find? (fun e => e.exportName = imp.importName)
          with _ | e <;> rw [hf] at h
        · cases h
        · exact ihDepF _ _ _ _ _ _ _ _ _ h

end RolLang

namespace RolLang

theorem nodup_insert_middle {xs ys : List Nat} {a : Nat}
    (h : (xs ++ ys).Nodup) (hx : a ∉ xs) (hy : a ∉ ys) :
    (xs ++ a :: ys).Nodup := by
  rw [List.nodup_append] at h
  rw [List.nodup_append]
  refine ⟨h.1, List.nodup_cons.mpr ⟨hy, h.2.1⟩, ?_⟩
  intro x hxm hc
  simp only [List.mem_cons] at hc
  rcases hc with hc | hc
  · exact hx (hc ▸ hxm)
  · exact h.2.2 hxm hc

/-- Pushing a freshly created function (id = counter) and bumping the
counter is a `Step`. -/
theorem Step.pushFunc (s : LoaderState) (f : RuntimeFunction)
    (hid : f.functionId = s.nextFunctionId) :
    Step s
      { s with
        nextFunctionId := s.nextFunctionId + 1
        loadingFunctions := s.loadingFunctions ++ [f] } := by
  set s' : LoaderState :=
    { s with
      nextFunctionId := s.nextFunctionId + 1
      loadingFunctions := s.loadingFunctions ++ [f] } with hs'
  have hshape : funcMembers s' =
      s.loadingFunctions.map (fun x => (x.functionId, x.args)) ++
        (f.functionId, f.args) ::
          s.finishedLoadingFunctions.map (fun x => (x.functionId, x.args)) := by
    simp [funcMembers, hs']
  have hshape0 : funcMembers s =
      s.loadingFunctions.map (fun x => (x.functionId, x.args)) ++
        s.finishedLoadingFunctions.map (fun x => (x.functionId, x.args)) := by
    simp [funcMembers]
  refine ⟨rfl, rfl, rfl, by simp [hs'], by simp [hs'], ?_, ?_, ?_, ?_, ?_, ?_, ?_⟩
  · intro p hp; exact hp
  · intro p hp
    rw [hshape]
    rw [hshape0] at hp
    rcases List.mem_append.mp hp with hp | hp
    · exact List.mem_append.mpr (Or.inl hp)
    · exact List.mem_append.mpr (Or.inr (List.mem_cons_of_mem _ hp))
  · intro p hp; exact Or.inl hp
  · intro p hp
    rw [hshape] at hp
    rw [hshape0]
    rcases List.mem_append.mp hp with hp | hp
    · exact Or.inl (List.mem_append.mpr (Or.inl hp))
    · rcases List.mem_cons.mp hp with hp | hp
      · right
        rw [hp, hid]
      · exact Or.inl (List.mem_append.mpr (Or.inr hp))
  · intro hok; exact hok
  · intro hok
    obtain ⟨hb, hn⟩ := hok
    have hbound : ∀ p ∈ funcMembers s, p.1 < s.nextFunctionId := hb
    constructor
    · intro p hp
      rw [hshape] at hp
      rcases List.mem_append.mp hp with hp | hp
      · have := hbound p (hshape0 ▸ List.mem_append.mpr (Or.inl hp))
        simp only [hs']
        omega
      · rcases List.mem_cons.mp hp with hp | hp
        · subst hp
          simp only [hs', hid]
          omega
        · have := hbound p (hshape0 ▸ List.mem_append.mpr (Or.inr hp))
          simp only [hs']
          omega
    · rw [hshape]
      rw [hshape0] at hn
      have hmapeq : ∀ l : List RuntimeFunction,
          (l.map (fun x => (x.functionId, x.args))).map Prod.fst =
            l.map (fun x => x.functionId) := by
        intro l
        simp [Function.comp]
      rw [List.map_append, hmapeq, List.map_cons, hmapeq]
      rw [List.map_append, hmapeq, hmapeq] at hn
      apply nodup_insert_middle hn
      · intro hc
        rcases List.mem_map.mp hc with ⟨x, hx, hxe⟩
        have hm : (x.functionId, x.args) ∈ funcMembers s := by
          rw [hshape0]
          exact List.mem_append.mpr (Or.inl (List.mem_map.mpr ⟨x, hx, rfl⟩))
        have := hbound _ hm
        simp only at this
        omega
      · intro hc
        rcases List.mem_map.mp hc with ⟨x, hx, hxe⟩
        have hm : (x.functionId, x.args) ∈ funcMembers s := by
          rw [hshape0]
          exact List.mem_append.mpr (Or.inr (List.mem_map.mpr ⟨x, hx, rfl⟩))
        have := hbound _ hm
        simp only at this
        omega
  · intro hok; exact hok

end RolLang

namespace RolLang

theorem nodup_extract_middle {xs ys : List Nat} {a : Nat}
    (h : (xs ++ a :: ys).Nodup) :
    (xs ++ ys).Nodup ∧ a ∉ xs ∧ a ∉ ys := by
  rw [List.nodup_append] at h
  obtain ⟨h1, h2, h3⟩ := h
  rw [List.nodup_cons] at h2
  refine ⟨List.nodup_append.mpr ⟨h1, h2.2, ?_⟩, ?_, h2.1⟩
  · intro x hx hc
    exact h3 hx (List.mem_cons_of_mem _ hc)
  · intro hc
    exact h3 hc (List.mem_cons_self _ _)

/-- The map over the three type queues, split explicitly. -/
theorem typeMembers_eq (s : LoaderState) :
    typeMembers s =
      s.loadingRefTypes.map (fun t => (t.typeId, t.args)) ++
      s.postLoadingTypes.map (fun t => (t.typeId, t.args)) ++
      s.finishedLoadingTypes.map (fun t => (t.typeId, t.args)) := by
  simp [typeMembers]

theorem funcMembers_eq (s : LoaderState) :
    funcMembers s =
      s.loadingFunctions.map (fun f => (f.functionId, f.args)) ++
      s.finishedLoadingFunctions.map (fun f => (f.functionId, f.args)) := by
  simp [funcMembers]

/-- Pushing a freshly created reference type (id = counter) and bumping
the counter is a `Step`. -/
theorem Step.pushRefType (s : LoaderState) (t : RuntimeType)
    (hid : t.typeId = s.nextTypeId) :
    Step s
      { s with
        nextTypeId := s.nextTypeId + 1
        loadingRefTypes := s.loadingRefTypes ++ [t] } := by
  set s' : LoaderState :=
    { s with
      nextTypeId := s.nextTypeId + 1
      loadingRefTypes := s.loadingRefTypes ++ [t] } with hs'
  have hshape : typeMembers s' =
      s.loadingRefTypes.map (fun x => (x.typeId, x.args)) ++
        (t.typeId, t.args) ::
          (s.postLoadingTypes.map (fun x => (x.typeId, x.args)) ++
            s.finishedLoadingTypes.map (fun x => (x.typeId, x.args))) := by
    simp [typeMembers, hs']
  have hshape0 : typeMembers s =
      s.loadingRefTypes.map (fun x => (x.typeId, x.args)) ++
        (s.postLoadingTypes.map (fun x => (x.typeId, x.args)) ++
          s.finishedLoadingTypes.map (fun x => (x.typeId, x.args))) := by
    simp [typeMembers]
  refine ⟨rfl, rfl, rfl, by simp [hs'], by simp [hs'], ?_, ?_, ?_, ?_, ?_, ?_, ?_⟩
  · intro p hp
    rw [hshape]
    rw [hshape0] at hp
    rcases List.mem_append.mp hp with hp | hp
    · exact List.mem_append.mpr (Or.inl hp)
    · exact List.mem_append.mpr (Or.inr (List.mem_cons_of_mem _ hp))
  · intro p hp; exact hp
  · intro p hp
    rw [hshape] at hp
    rw [hshape0]
    rcases List.mem_append.mp hp with hp | hp
    · exact Or.inl (List.mem_append.mpr (Or.inl hp))
    · rcases List.mem_cons.mp hp with hp | hp
      · right
        rw [hp, hid]
      · exact Or.inl (List.mem_append.mpr (Or.inr hp))
  · intro p hp; exact Or.inl hp
  · intro hok
    obtain ⟨hb, hn⟩ := hok
    constructor
    · intro p hp
      rw [hshape] at hp
      rcases List.mem_append.mp hp with hp | hp
      · have := hb p (hshape0 ▸ List.mem_append.mpr (Or.inl hp))
        simp only [hs']
        omega
      · rcases List.mem_cons.mp hp with hp | hp
        · subst hp
          simp only [hs', hid]
          omega
        · have := hb p (hshape0 ▸ List.mem_append.mpr (Or.inr hp))
          simp only [hs']
          omega
    · rw [hshape]
      rw [hshape0] at hn
      rw [List.map_append, List.map_cons]
      rw [List.map_append] at hn
      apply nodup_insert_middle hn
      · intro hc
        rcases List.mem_map.mp hc with ⟨x, hx, hxe⟩
        have hm : x ∈ typeMembers s := by
          rw [hshape0]
          exact List.mem_append.mpr (Or.inl hx)
        have := hb _ hm
        omega
      · intro hc
        rcases List.mem_map.mp hc with ⟨x, hx, hxe⟩
        have hm : x ∈ typeMembers s := by
          rw [hshape0]
          exact List.mem_append.mpr (Or.inr hx)
        have := hb _ hm
        omega
  · intro hok; exact hok
  · intro hok; exact hok

end RolLang

namespace RolLang

/-- Pushing an owned type object into `_postLoadingTypes` realizes
`StepAddT` for any object sharing its id and `Args`. -/
theorem StepAddT.pushPost (s : LoaderState) (t t' : RuntimeType)
    (hid : t'.typeId = t.typeId) (harg : t'.args = t.args) :
    StepAddT t s { s with postLoadingTypes := s.postLoadingTypes ++ [t'] } := by
  set s' : LoaderState :=
    { s with postLoadingTypes := s.postLoadingTypes ++ [t'] } with hs'
  have hshape : typeMembers s' =
      (s.loadingRefTypes.map (fun x => (x.typeId, x.args)) ++
        s.postLoadingTypes.map (fun x => (x.typeId, x.args))) ++
        (t.typeId, t.args) ::
          s.finishedLoadingTypes.map (fun x => (x.typeId, x.args)) := by
    simp [typeMembers, hs', hid, harg]
  have hshape0 : typeMembers s =
      (s.loadingRefTypes.map (fun x => (x.typeId, x.args)) ++
        s.postLoadingTypes.map (fun x => (x.typeId, x.args))) ++
        s.finishedLoadingTypes.map (fun x => (x.typeId, x.args)) := by
    simp [typeMembers]
  refine ⟨rfl, rfl, rfl, by simp [hs'], by simp [hs'], ?_, ?_, ?_, ?_, ?_, ?_, ?_, ?_⟩
  · intro p hp
    rw [hshape]
    rw [hshape0] at hp
    rcases List.mem_append.mp hp with hp | hp
    · exact List.mem_append.mpr (Or.inl hp)
    · exact List.mem_append.mpr (Or.inr (List.mem_cons_of_mem _ hp))
  · rw [hshape]
    exact List.mem_append.mpr (Or.inr (List.mem_cons_self _ _))
  · intro p hp; exact hp
  · intro p hp
    rw [hshape] at hp
    rw [hshape0]
    rcases List.mem_append.mp hp with hp | hp
    · exact Or.inl (List.mem_append.mpr (Or.inl hp))
    · rcases List.mem_cons.mp hp with hp | hp
      · exact Or.inr (Or.inl hp)
      · exact Or.inl (List.mem_append.mpr (Or.inr hp))
  · intro p hp; exact Or.inl hp
  · intro hok hlt hne
    obtain ⟨hb, hn⟩ := hok
    constructor
    · intro p hp
      rw [hshape] at hp
      simp only [hs']
      rcases List.mem_append.mp hp with hp | hp
      · exact hb p (hshape0 ▸ List.mem_append.mpr (Or.inl hp))
      · rcases List.mem_cons.mp hp with hp | hp
        · subst hp
          exact hlt
        · exact hb p (hshape0 ▸ List.mem_append.mpr (Or.inr hp))
    · rw [hshape]
      rw [hshape0] at hn
      rw [List.map_append, List.map_cons]
      rw [List.map_append] at hn
      apply nodup_insert_middle hn
      · intro hc
        rcases List.mem_map.mp hc with ⟨x, hx, hxe⟩
        have hm : x ∈ typeMembers s := by
          rw [hshape0]
          exact List.mem_append.mpr (Or.inl hx)
        exact hne x hm hxe
      · intro hc
        rcases List.mem_map.mp hc with ⟨x, hx, hxe⟩
        have hm : x ∈ typeMembers s := by
          rw [hshape0]
          exact List.mem_append.mpr (Or.inr hx)
        exact hne x hm hxe
  · intro hok; exact hok
  · intro hok
    intro u hu
    simp only [hs'] at hu
    exact hok u hu

/-- Pushing an owned, storage-checked type object into
`_finishedLoadingTypes` realizes `StepAddT`. -/
theorem StepAddT.pushFinishedT (s : LoaderState) (t t' : RuntimeType)
    (hid : t'.typeId = t.typeId) (harg : t'.args = t.args)
    (hsig : storageCondOK t') :
    StepAddT t s
      { s with finishedLoadingTypes := s.finishedLoadingTypes ++ [t'] } := by
  set s' : LoaderState :=
    { s with finishedLoadingTypes := s.finishedLoadingTypes ++ [t'] } with hs'
  have hshape : typeMembers s' =
      typeMembers s ++ [(t.typeId, t.args)] := by
    simp [typeMembers, hs', hid, harg]
  refine ⟨rfl, rfl, rfl, by simp [hs'], by simp [hs'], ?_, ?_, ?_, ?_, ?_, ?_, ?_, ?_⟩
  · intro p hp
    rw [hshape]
    exact List.mem_append.mpr (Or.inl hp)
  · rw [hshape]
    exact List.mem_append.mpr (Or.inr (List.mem_singleton.mpr rfl))
  · intro p hp; exact hp
  · intro p hp
    rw [hshape] at hp
    rcases List.mem_append.mp hp with hp | hp
    · exact Or.inl hp
    · exact Or.inr (Or.inl (List.mem_singleton.mp hp))
  · intro p hp; exact Or.inl hp
  · intro hok hlt hne
    obtain ⟨hb, hn⟩ := hok
    constructor
    · intro p hp
      rw [hshape] at hp
      simp only [hs']
      rcases List.mem_append.mp hp with hp | hp
      · exact hb p hp
      · rw [List.mem_singleton.mp hp]
        exact hlt
    · rw [hshape, List.map_append]
      have : ((typeMembers s).map Prod.fst ++ [t.typeId]).Nodup := by
        rw [List.nodup_append]
        refine ⟨hn, List.nodup_singleton _, ?_⟩
        intro x hx hc
        rcases List.mem_map.mp hx with ⟨q, hq, hqe⟩
        rw [List.mem_singleton] at hc
        exact hne q hq (hqe.trans hc)
      exact this
  · intro hok; exact hok
  · intro hok
    intro u hu
    simp only [hs', List.mem_append, List.mem_singleton] at hu
    rcases hu with hu | hu
    · exact hok u hu
    · rw [hu]; exact hsig

/-- Pushing an owned function object into `_finishedLoadingFunctions`
realizes `StepAddF`. -/
theorem StepAddF.pushFinishedF (s : LoaderState) (f f' : RuntimeFunction)
    (hid : f'.functionId = f.functionId) (harg : f'.args = f.args) :
    StepAddF f s
      { s with
        finishedLoadingFunctions := s.finishedLoadingFunctions ++ [f'] } := by
  set s' : LoaderState :=
    { s with
      finishedLoadingFunctions := s.finishedLoadingFunctions ++ [f'] } with hs'
  have hshape : funcMembers s' =
      funcMembers s ++ [(f.functionId, f.args)] := by
    simp [funcMembers, hs', hid, harg]
  refine ⟨rfl, rfl, rfl, by simp [hs'], by simp [hs'], ?_, ?_, ?_, ?_, ?_, ?_, ?_, ?_⟩
  · intro p hp; exact hp
  · intro p hp
    rw [hshape]
    exact List.mem_append.mpr (Or.inl hp)
  · rw [hshape]
    exact List.mem_append.mpr (Or.inr (List.mem_singleton.mpr rfl))
  · intro p hp; exact Or.inl hp
  · intro p hp
    rw [hshape] at hp
    rcases List.mem_append.mp hp with hp | hp
    · exact Or.inl hp
    · exact Or.inr (Or.inl (List.mem_singleton.mp hp))
  · intro hok; exact hok
  · intro hok hlt hne
    obtain ⟨hb, hn⟩ := hok
    constructor
    · intro p hp
      rw [hshape] at hp
      simp only [hs']
      rcases List.mem_append.mp hp with hp | hp
      · exact hb p hp
      · rw [List.mem_singleton.mp hp]
        exact hlt
    · rw [hshape, List.map_append]
      rw [List.nodup_append]
      refine ⟨hn, by simp, ?_⟩
      intro x hx hc
      simp only [List.map_cons, List.map_nil, List.mem_singleton] at hc
      rcases List.mem_map.mp hx with ⟨q, hq, hqe⟩
      exact hne q hq (hqe.trans hc)
  · intro hok; exact hok

end RolLang

namespace RolLang

/-- A `Step` relative to a pushed `loadingTypes` stack entry wraps into
a `Step` with the entry popped again (the members/invariants do not
involve the stack). -/
theorem step_stack_wrap (s s3 : LoaderState) (x : Nat × LoadingArguments)
    (h : Step { s with loadingTypes := s.loadingTypes ++ [x] } s3) :
    Step s { s3 with loadingTypes := s3.loadingTypes.dropLast } := by
  obtain ⟨h1, h2, h3, h4, h5, h6, h7, h8, h9, h10, h11, h12⟩ := h
  have hm : typeMembers { s with loadingTypes := s.loadingTypes ++ [x] } =
      typeMembers s := rfl
  have hf : funcMembers { s with loadingTypes := s.loadingTypes ++ [x] } =
      funcMembers s := rfl
  have hm3 : typeMembers { s3 with loadingTypes := s3.loadingTypes.dropLast } =
      typeMembers s3 := rfl
  have hf3 : funcMembers { s3 with loadingTypes := s3.loadingTypes.dropLast } =
      funcMembers s3 := rfl
  refine ⟨h1, h2, ?_, h4, h5, ?_, ?_, ?_, ?_, ?_, ?_, ?_⟩
  · show s3.loadingTypes.dropLast = s.loadingTypes
    rw [h3]
    exact List.dropLast_concat
  · intro p hp
    rw [hm3]
    exact h6 p (hm ▸ hp)
  · intro p hp
    rw [hf3]
    exact h7 p (hf ▸ hp)
  · intro p hp
    rw [hm3] at hp
    rcases h8 p hp with hq | hq
    · exact Or.inl (hm ▸ hq)
    · exact Or.inr hq
  · intro p hp
    rw [hf3] at hp
    rcases h9 p hp with hq | hq
    · exact Or.inl (hf ▸ hq)
    · exact Or.inr hq
  · intro hok
    have : typeIdsOK { s with loadingTypes := s.loadingTypes ++ [x] } := hok
    have h3' := h10 this
    exact h3'
  · intro hok
    exact h11 hok
  · intro hok
    exact h12 hok

theorem Step.trans_addT {t : RuntimeType} {s1 s2 s3 : LoaderState}
    (h1 : Step s1 s2) (h2 : StepAddT t s2 s3) : StepAddT t s1 s3 := by
  obtain ⟨a1, b1, c1, d1, e1, f1, g1, h1', i1, j1, k1, l1⟩ := h1
  obtain ⟨a2, b2, c2, d2, e2, f2, g2m, g2, i2, i2f, j2, k2, l2⟩ := h2
  refine ⟨a2.trans a1, b2.trans b1, c2.trans c1, d1.trans d2, e1.trans e2,
    fun p hp => f2 p (f1 p hp), g2m, fun p hp => g2 p (g1 p hp), ?_, ?_,
    ?_, fun h => k2 (k1 h), fun h => l2 (l1 h)⟩
  · intro p hp
    rcases i2 p hp with h | h | h
    · rcases h1' p h with h' | h'
      · exact Or.inl h'
      · exact Or.inr (Or.inr h')
    · exact Or.inr (Or.inl h)
    · exact Or.inr (Or.inr (d1.trans h))
  · intro p hp
    rcases i2f p hp with h | h
    · rcases i1 p h with h' | h'
      · exact Or.inl h'
      · exact Or.inr h'
    · exact Or.inr (e1.trans h)
  · intro hok hlt hne
    refine j2 (j1 hok) (lt_of_lt_of_le hlt d1) ?_
    intro p hp
    rcases h1' p hp with h | h
    · exact hne p h
    · intro hc
      rw [hc] at h
      omega

theorem Step.trans_addF {f : RuntimeFunction} {s1 s2 s3 : LoaderState}
    (h1 : Step s1 s2) (h2 : StepAddF f s2 s3) : StepAddF f s1 s3 := by
  obtain ⟨a1, b1, c1, d1, e1, f1, g1, h1', i1, j1, k1, l1⟩ := h1
  obtain ⟨a2, b2, c2, d2, e2, f2, g2, g2m, i2, i2f, j2, k2, l2⟩ := h2
  refine ⟨a2.trans a1, b2.trans b1, c2.trans c1, d1.trans d2, e1.trans e2,
    fun p hp => f2 p (f1 p hp), fun p hp => g2 p (g1 p hp), g2m, ?_, ?_,
    fun h => j2 (j1 h), ?_, fun h => l2 (l1 h)⟩
  · intro p hp
    rcases i2 p hp with h | h
    · rcases h1' p h with h' | h'
      · exact Or.inl h'
      · exact Or.inr h'
    · exact Or.inr (d1.trans h)
  · intro p hp
    rcases i2f p hp with h | h | h
    · rcases i1 p h with h' | h'
      · exact Or.inl h'
      · exact Or.inr (Or.inr h')
    · exact Or.inr (Or.inl h)
    · exact Or.inr (Or.inr (e1.trans h))
  · intro hok hlt hne
    refine k2 (k1 hok) (lt_of_lt_of_le hlt e1) ?_
    intro p hp
    rcases i1 p hp with h | h
    · exact hne p h
    · intro hc
      rw [hc] at h
      omega

theorem stepAddT_then_step {t : RuntimeType} {s1 s2 s3 : LoaderState}
    (h1 : StepAddT t s1 s2) (h2 : Step s2 s3) : StepAddT t s1 s3 := by
  obtain ⟨a1, b1, c1, d1, e1, f1, g1m, g1, i1, i1f, j1, k1, l1⟩ := h1
  obtain ⟨a2, b2, c2, d2, e2, f2, g2, h2', i2, j2, k2, l2⟩ := h2
  refine ⟨a2.trans a1, b2.trans b1, c2.trans c1, d1.trans d2, e1.trans e2,
    fun p hp => f2 p (f1 p hp), f2 _ g1m, fun p hp => g2 p (g1 p hp), ?_, ?_,
    fun h hlt hne => j2 (j1 h hlt hne), fun h => k2 (k1 h), fun h => l2 (l1 h)⟩
  · intro p hp
    rcases h2' p hp with h | h
    · exact i1 p h
    · exact Or.inr (Or.inr (d1.trans h))
  · intro p hp
    rcases i2 p hp with h | h
    · exact i1f p h
    · exact Or.inr (e1.trans h)

theorem stepAddF_then_step {f : RuntimeFunction} {s1 s2 s3 : LoaderState}
    (h1 : StepAddF f s1 s2) (h2 : Step s2 s3) : StepAddF f s1 s3 := by
  obtain ⟨a1, b1, c1, d1, e1, f1, g1, g1m, i1, i1f, j1, k1, l1⟩ := h1
  obtain ⟨a2, b2, c2, d2, e2, f2, g2, h2', i2, j2, k2, l2⟩ := h2
  refine ⟨a2.trans a1, b2.trans b1, c2.trans c1, d1.trans d2, e1.trans e2,
    fun p hp => f2 p (f1 p hp), fun p hp => g2 p (g1 p hp), g2 _ g1m, ?_, ?_,
    fun h => j2 (j1 h), fun h hlt hne => k2 (k1 h hlt hne), fun h => l2 (l1 h)⟩
  · intro p hp
    rcases h2' p hp with h | h
    · exact i1 p h
    · exact Or.inr (d1.trans h)
  · intro p hp
    rcases i2 p hp with h | h
    · exact i1f p h
    · exact Or.inr (Or.inr (e1.trans h))

end RolLang

namespace RolLang

/-- Core composition for one `ProcessLoadingLists` iteration on a type
queue: popping an object whose member pair sits between `A` and `B`,
re-processing it (`StepAddT`) and continuing (`Step`) yields a `Step`
from the original state. -/
theorem popTypeProcess_core {s sPop s1 s' : LoaderState} {t : RuntimeType}
    {A B : List (Nat × LoadingArguments)}
    (hms : typeMembers s = A ++ (t.typeId, t.args) :: B)
    (hmp : typeMembers sPop = A ++ B)
    (hlt : sPop.loadedTypes = s.loadedTypes)
    (hlf : sPop.loadedFunctions = s.loadedFunctions)
    (hst : sPop.loadingTypes = s.loadingTypes)
    (hnt : sPop.nextTypeId = s.nextTypeId)
    (hnf : sPop.nextFunctionId = s.nextFunctionId)
    (hfm : funcMembers sPop = funcMembers s)
    (hfin : sPop.finishedLoadingTypes = s.finishedLoadingTypes)
    (h1 : StepAddT t sPop s1) (h2 : Step s1 s') : Step s s' := by
  obtain ⟨a1, b1, c1, d1, e1, f1, g1m, g1, i1, i1f, j1, k1, l1⟩ := h1
  obtain ⟨a2, b2, c2, d2, e2, f2, g2, h2', i2, j2, k2, l2⟩ := h2
  have hpair : (t.typeId, t.args) ∈ typeMembers s := by
    rw [hms]
    exact List.mem_append.mpr (Or.inr (List.mem_cons_self _ _))
  have hsub : ∀ p, p ∈ typeMembers sPop → p ∈ typeMembers s := by
    intro p hp
    rw [hmp] at hp
    rw [hms]
    rcases List.mem_append.mp hp with hp | hp
    · exact List.mem_append.mpr (Or.inl hp)
    · exact List.mem_append.mpr (Or.inr (List.mem_cons_of_mem _ hp))
  refine ⟨a2.trans (a1.trans hlt), b2.trans (b1.trans hlf),
    c2.trans (c1.trans hst), ?_, ?_, ?_, ?_, ?_, ?_, ?_, ?_, ?_⟩
  · rw [← hnt]; exact d1.trans d2
  · rw [← hnf]; exact e1.trans e2
  · intro p hp
    rw [hms] at hp
    rcases List.mem_append.mp hp with hp | hp
    · have : p ∈ typeMembers sPop := by
        rw [hmp]; exact List.mem_append.mpr (Or.inl hp)
      exact f2 p (f1 p this)
    · rcases List.mem_cons.mp hp with hp | hp
      · rw [hp]
        exact f2 _ g1m
      · have : p ∈ typeMembers sPop := by
          rw [hmp]; exact List.mem_append.mpr (Or.inr hp)
        exact f2 p (f1 p this)
  · intro p hp
    have hp' : p ∈ funcMembers sPop := by rw [hfm]; exact hp
    exact g2 p (g1 p hp')
  · intro p hp
    rcases h2' p hp with hp' | hp'
    · rcases i1 p hp' with hq | hq | hq
      · exact Or.inl (hsub p hq)
      · rw [hq]
        exact Or.inl hpair
      · rw [hnt] at hq
        exact Or.inr hq
    · right
      have := d1.trans hp'
      rw [hnt] at this
      exact this
  · intro p hp
    rcases i2 p hp with hp' | hp'
    · rcases i1f p hp' with hq | hq
      · exact Or.inl (hfm ▸ hq)
      · rw [hnf] at hq
        exact Or.inr hq
    · right
      have := e1.trans hp'
      rw [hnf] at this
      exact this
  · intro hok
    obtain ⟨hb, hn⟩ := hok
    have hbP : ∀ p ∈ typeMembers sPop, p.1 < sPop.nextTypeId := by
      intro p hp
      rw [hnt]
      exact hb p (hsub p hp)
    have hnodups : ((typeMembers s).map Prod.fst).Nodup := hn
    rw [hms, List.map_append, List.map_cons] at hnodups
    obtain ⟨hnAB, hnx, hny⟩ := nodup_extract_middle hnodups
    have hnP : ((typeMembers sPop).map Prod.fst).Nodup := by
      rw [hmp, List.map_append]
      exact hnAB
    have hlt' : t.typeId < sPop.nextTypeId := by
      rw [hnt]
      exact hb _ hpair
    have hne : ∀ p ∈ typeMembers sPop, p.1 ≠ t.typeId := by
      intro p hp hc
      rw [hmp] at hp
      rcases List.mem_append.mp hp with hp | hp
      · exact hnx (hc ▸ List.mem_map.mpr ⟨p, hp, rfl⟩)
      · exact hny (hc ▸ List.mem_map.mpr ⟨p, hp, rfl⟩)
    exact j2 (j1 ⟨hbP, hnP⟩ hlt' hne)
  · intro hok
    obtain ⟨hb, hn⟩ := hok
    have : funcIdsOK sPop := by
      constructor
      · intro p hp
        rw [hnf]
        exact hb p (hfm ▸ hp)
      · rw [hfm]
        exact hn
    exact k2 (k1 this)
  · intro hok
    have : finishedSigOK sPop := by
      intro u hu
      exact hok u (hfin ▸ hu)
    exact l2 (l1 this)

/-- Core composition for one `ProcessLoadingLists` iteration on the
function queue. -/
theorem popFuncProcess_core {s sPop s1 s' : LoaderState} {f : RuntimeFunction}
    {A B : List (Nat × LoadingArguments)}
    (hms : funcMembers s = A ++ (f.functionId, f.args) :: B)
    (hmp : funcMembers sPop = A ++ B)
    (hlt : sPop.loadedTypes = s.loadedTypes)
    (hlf : sPop.loadedFunctions = s.loadedFunctions)
    (hst : sPop.loadingTypes = s.loadingTypes)
    (hnt : sPop.nextTypeId = s.nextTypeId)
    (hnf : sPop.nextFunctionId = s.nextFunctionId)
    (htm : typeMembers sPop = typeMembers s)
    (hfin : sPop.finishedLoadingTypes = s.finishedLoadingTypes)
    (h1 : StepAddF f sPop s1) (h2 : Step s1 s') : Step s s' := by
  obtain ⟨a1, b1, c1, d1, e1, f1, g1, g1m, i1, i1f, j1, k1, l1⟩ := h1
  obtain ⟨a2, b2, c2, d2, e2, f2, g2, h2', i2, j2, k2, l2⟩ := h2
  have hpair : (f.functionId, f.args) ∈ funcMembers s := by
    rw [hms]
    exact List.mem_append.mpr (Or.inr (List.mem_cons_self _ _))
  have hsub : ∀ p, p ∈ funcMembers sPop → p ∈ funcMembers s := by
    intro p hp
    rw [hmp] at hp
    rw [hms]
    rcases List.mem_append.mp hp with hp | hp
    · exact List.mem_append.mpr (Or.inl hp)
    · exact List.mem_append.mpr (Or.inr (List.mem_cons_of_mem _ hp))
  refine ⟨a2.trans (a1.trans hlt), b2.trans (b1.trans hlf),
    c2.trans (c1.trans hst), ?_, ?_, ?_, ?_, ?_, ?_, ?_, ?_, ?_⟩
  · rw [← hnt]; exact d1.trans d2
  · rw [← hnf]; exact e1.trans e2
  · intro p hp
    have hp' : p ∈ typeMembers sPop := by rw [htm]; exact hp
    exact f2 p (f1 p hp')
  · intro p hp
    rw [hms] at hp
    rcases List.mem_append.mp hp with hp | hp
    · have : p ∈ funcMembers sPop := by
        rw [hmp]; exact List.mem_append.mpr (Or.inl hp)
      exact g2 p (g1 p this)
    · rcases List.mem_cons.mp hp with hp | hp
      · rw [hp]
        exact g2 _ g1m
      · have : p ∈ funcMembers sPop := by
          rw [hmp]; exact List.mem_append.mpr (Or.inr hp)
        exact g2 p (g1 p this)
  · intro p hp
    rcases h2' p hp with hp' | hp'
    · rcases i1 p hp' with hq | hq
      · exact Or.inl (htm ▸ hq)
      · rw [hnt] at hq
        exact Or.inr hq
    · right
      have := d1.trans hp'
      rw [hnt] at this
      exact this
  · intro p hp
    rcases i2 p hp with hp' | hp'
    · rcases i1f p hp' with hq | hq | hq
      · exact Or.inl (hsub p hq)
      · rw [hq]
        exact Or.inl hpair
      · rw [hnf] at hq
        exact Or.inr hq
    · right
      have := e1.trans hp'
      rw [hnf] at this
      exact this
  · intro hok
    obtain ⟨hb, hn⟩ := hok
    have : typeIdsOK sPop := by
      constructor
      · intro p hp
        rw [hnt]
        exact hb p (htm ▸ hp)
      · rw [htm]
        exact hn
    exact j2 (j1 this)
  · intro hok
    obtain ⟨hb, hn⟩ := hok
    have hbP : ∀ p ∈ funcMembers sPop, p.1 < sPop.nextFunctionId := by
      intro p hp
      rw [hnf]
      exact hb p (hsub p hp)
    have hnodups : ((funcMembers s).map Prod.fst).Nodup := hn
    rw [hms, List.map_append, List.map_cons] at hnodups
    obtain ⟨hnAB, hnx, hny⟩ := nodup_extract_middle hnodups
    have hnP : ((funcMembers sPop).map Prod.fst).Nodup := by
      rw [hmp, List.map_append]
      exact hnAB
    have hlt' : f.functionId < sPop.nextFunctionId := by
      rw [hnf]
      exact hb _ hpair
    have hne : ∀ p ∈ funcMembers sPop, p.1 ≠ f.functionId := by
      intro p hp hc
      rw [hmp] at hp
      rcases List.mem_append.mp hp with hp | hp
      · exact hnx (hc ▸ List.mem_map.mpr ⟨p, hp, rfl⟩)
      · exact hny (hc ▸ List.mem_map.mpr ⟨p, hp, rfl⟩)
    exact k2 (k1 ⟨hbP, hnP⟩ hlt' hne)
  · intro hok
    have : finishedSigOK sPop := by
      intro u hu
      exact hok u (hfin ▸ hu)
    exact l2 (l1 this)

end RolLang

namespace RolLang

/-- A `StepAddT` for a freshly allocated id (relative to the
counter-bumped state) wraps into a plain `Step` from the original
state. -/
theorem stepAddT_fresh_wrap {s s' : LoaderState} {t : RuntimeType}
    (hid : t.typeId = s.nextTypeId)
    (h : StepAddT t { s with nextTypeId := s.nextTypeId + 1 } s') : Step s s' := by
  obtain ⟨a1, b1, c1, d1, e1, f1, g1m, g1, i1, i1f, j1, k1, l1⟩ := h
  have hm : typeMembers { s with nextTypeId := s.nextTypeId + 1 } =
      typeMembers s := rfl
  have hf : funcMembers { s with nextTypeId := s.nextTypeId + 1 } =
      funcMembers s := rfl
  refine ⟨a1, b1, c1, ?_, e1, ?_, ?_, ?_, ?_, ?_, ?_, l1⟩
  · calc s.nextTypeId ≤ s.nextTypeId + 1 := by omega
      _ ≤ s'.nextTypeId := d1
  · intro p hp
    exact f1 p (hm ▸ hp)
  · intro p hp
    exact g1 p (hf ▸ hp)
  · intro p hp
    rcases i1 p hp with hq | hq | hq
    · exact Or.inl (hm ▸ hq)
    · right
      rw [hq, hid]
    · right
      simp only at hq
      omega
  · intro p hp
    rcases i1f p hp with hq | hq
    · exact Or.inl (hf ▸ hq)
    · exact Or.inr hq
  · intro hok
    obtain ⟨hb, hn⟩ := hok
    have hok2 : typeIdsOK { s with nextTypeId := s.nextTypeId + 1 } := by
      constructor
      · intro p hp
        have := hb p (hm ▸ hp)
        simp only
        omega
      · rw [hm]
        exact hn
    refine j1 hok2 ?_ ?_
    · simp only [hid]
      omega
    · intro p hp hc
      have := hb p (hm ▸ hp)
      rw [hc, hid] at this
      omega
  · intro hok
    exact k1 hok

theorem loadFunctionInternal_spec_succ (env : Env) (n : Nat)
    (ih : SpecOK (fns env n)) :
    ∀ args s r s',
      (fns env (n+1)).loadFunctionInternal args s = (.ok r, s') → Step s s' := by
  intro args s r s' h
  simp only [fns, M_bind_apply, M_get_apply, M_pure_apply] at h
  rcases h1 : firstLoadedFuncMatch s.loadedFunctions args with _ | r1 <;>
    rw [h1] at h
  case some => cases h; exact Step.reflS
  rcases h2 : firstQueueFuncMatch s.finishedLoadingFunctions args with _ | r2 <;>
    rw [h2] at h
  case some => cases h; exact Step.reflS
  rcases h3 : firstQueueFuncMatch s.loadingFunctions args with _ | r3 <;>
    rw [h3] at h
  case some => cases h; exact Step.reflS
  simp only [M_bind_apply, M_lift_apply, M_get_apply, M_pure_apply,
    M_modify_apply] at h
  rcases hft : findFunctionTemplate env args.assembly args.id with e | ft <;>
    rw [hft] at h
  · cases h
  · simp only [M_bind_apply, M_lift_apply, M_get_apply, M_pure_apply,
      M_modify_apply] at h
    rcases hchk : checkGenericArguments ft.generic args with e | u <;>
      rw [hchk] at h
    · cases h
    · simp only [M_bind_apply, M_get_apply, M_pure_apply, M_modify_apply] at h
      split at h
      · next code s3 hgc =>
        cases h
        obtain ⟨q1, q2, q3, q4, q5, q6, q7, q8, q9, q10⟩ :=
          getCode_step env args.assembly args.id s code s3 hgc
        have hpush := Step.pushFunc s3
          { functionId := s.nextFunctionId
            args := args
            code := code
            referencedType := []
            referencedFunction := []
            returnValue := none
            parameters := [] } (by simp [q5])
        exact (getCode_step_state env args.assembly args.id s code s3 hgc).chainS hpush
      · simp at h

end RolLang

namespace RolLang

theorem loadTypeInternal_spec_succ (env : Env) (n : Nat)
    (ih : SpecOK (fns env n)) :
    ∀ args s r s',
      (fns env (n+1)).loadTypeInternal args s = (.ok r, s') →
        Step s s' ∧
        (firstLoadedTypeMatch s.loadedTypes args = some r ∨
          (r, args) ∈ typeMembers s') ∧
        (firstLoadedTypeMatch s.loadedTypes args = none →
          (∀ p ∈ typeMembers s, p.2 ≠ args) →
          r = s.nextTypeId ∧ (r, args) ∈ typeMembers s') := by
  obtain ⟨ihRef, ihDepT, ihDepTI, ihLTI, ihLF, ihRefF, ihDepF, ihDepFI, ihLFI,
    ihPLT, ihPLF, ihPLL⟩ := ih
  intro args s r s' h
  simp only [fns, M_bind_apply, M_get_apply, M_pure_apply] at h
  rcases h1 : firstLoadedTypeMatch s.loadedTypes args with _ | r1 <;>
    rw [h1] at h
  case some =>
    cases h
    refine ⟨Step.reflS, Or.inl rfl, ?_⟩
    intro hn
    cases hn
  rcases h2 : firstQueueTypeMatch s.finishedLoadingTypes args with _ | r2 <;>
    rw [h2] at h
  case some =>
    cases h
    have hmem : (r, args) ∈ typeMembers s := by
      rw [typeMembers_eq]
      exact List.mem_append.mpr (Or.inr (firstQueueTypeMatch_mem h2))
    refine ⟨Step.reflS, Or.inr hmem, ?_⟩
    intro _ hall
    exact absurd rfl (hall _ hmem)
  rcases h3 : firstQueueTypeMatch s.postLoadingTypes args with _ | r3 <;>
    rw [h3] at h
  case some =>
    cases h
    have hmem : (r, args) ∈ typeMembers s := by
      rw [typeMembers_eq]
      refine List.mem_append.mpr (Or.inl (List.mem_append.mpr
        (Or.inr (firstQueueTypeMatch_mem h3))))
    refine ⟨Step.reflS, Or.inr hmem, ?_⟩
    intro _ hall
    exact absurd rfl (hall _ hmem)
  rcases h4 : firstQueueTypeMatch s.loadingRefTypes args with _ | r4 <;>
    rw [h4] at h
  case some =>
    cases h
    have hmem : (r, args) ∈ typeMembers s := by
      rw [typeMembers_eq]
      refine List.mem_append.mpr (Or.inl (List.mem_append.mpr
        (Or.inl (firstQueueTypeMatch_mem h4))))
    refine ⟨Step.reflS, Or.inr hmem, ?_⟩
    intro _ hall
    exact absurd rfl (hall _ hmem)
  simp only [M_bind_apply, M_lift_apply, M_pure_apply, M_modify_apply] at h
  rcases hft : findTypeTemplate env args.assembly args.id with e | tt <;>
    rw [hft] at h
  · cases h
  · simp only [M_bind_apply, M_lift_apply, M_pure_apply, M_modify_apply] at h
    rcases hchk : checkGenericArguments tt.generic args with e | u <;>
      rw [hchk] at h
    · cases h
    · simp only [M_bind_apply, M_pure_apply, M_modify_apply] at h
      by_cases hmode : tt.gcMode = StorageMode.ref
      · simp only [if_pos hmode, M_bind_apply, M_modify_apply, M_pure_apply] at h
        cases h
        set t : RuntimeType :=
          { typeId := s.nextTypeId
            args := args
            storage := tt.gcMode
            fields := []
            size := 0
            alignment := 0
            initializer := none
            finalizer := none
            staticPointer := false
            pointerType := none } with ht
        refine ⟨Step.pushRefType s t rfl, Or.inr ?_, ?_⟩
        · simp [typeMembers]
        · intro _ _
          refine ⟨rfl, ?_⟩
          simp [typeMembers]
      · simp only [if_neg hmode, M_bind_apply, M_modify_apply, M_pure_apply] at h
        obtain ⟨hr, hadd⟩ := ihLF _ _ _ _ _ h
        have hstep := stepAddT_fresh_wrap (t :=
          { typeId := s.nextTypeId
            args := args
            storage := tt.gcMode
            fields := []
            size := 0
            alignment := 0
            initializer := none
            finalizer := none
            staticPointer := false
            pointerType := none }) rfl hadd
        refine ⟨hstep, Or.inr ?_, ?_⟩
        · rw [hr]
          exact hadd.2.2.2.2.2.2.1
        · intro _ _
          refine ⟨hr, ?_⟩
          rw [hr]
          exact hadd.2.2.2.2.2.2.1

end RolLang

namespace RolLang

theorem loadFields_spec_succ (env : Env) (n : Nat) (ih : SpecOK (fns env n)) :
    ∀ t tmpl s r s',
      (fns env (n+1)).loadFields t tmpl s = (.ok r, s') →
        r = t.typeId ∧ StepAddT t s s' := by
  obtain ⟨ihRef, ihDepT, ihDepTI, ihLTI, ihLF, ihRefF, ihDepF, ihDepFI, ihLFI,
    ihPLT, ihPLF, ihPLL⟩ := ih
  intro t tmpl s r s' h
  simp only [fns, M_bind_apply, M_get_apply, M_pure_apply] at h
  by_cases hcyc : s.loadingTypes.any (fun e => e.2 = t.args)
  · rw [if_pos hcyc] at h
    cases h
  · rw [if_neg hcyc] at h
    simp only [M_bind_apply, M_set_apply, M_get_apply, M_pure_apply,
      M_lift_apply, M_modify_apply] at h
    have hTT : ∀ tt : TypeTemplate,
        (match tmpl with
          | some tt => pure tt
          | none =>
            M.lift (findTypeTemplate env t.args.assembly t.args.id) :
          M TypeTemplate) =
        (match tmpl with
          | some tt => pure tt
          | none =>
            M.lift (findTypeTemplate env t.args.assembly t.args.id)) := fun _ => rfl
    rcases tmpl with _ | tt0
    · simp only [M_lift_apply, M_bind_apply] at h
      rcases hft : findTypeTemplate env t.args.assembly t.args.id with e | tt <;>
        rw [hft] at h
      · cases h
      · simp only [M_bind_apply, M_get_apply, M_lift_apply, M_pure_apply,
          M_modify_apply] at h
        split at h
        · next fieldIds s3 hres =>
          have hstep3 := resolveFieldTypes_step _ ihRef _ _ _ _ _ _ hres
          rcases hder : derefTypeList s3 fieldIds with e | ftypes <;>
            rw [hder] at h <;>
            simp only [M_bind_apply, M_lift_apply, M_pure_apply,
              M_modify_apply] at h
          · cases h
          · rcases hlay : layoutFields ftypes 0 1 with e | lay <;>
              rw [hlay] at h <;>
              simp only [M_bind_apply, M_lift_apply, M_pure_apply,
                M_modify_apply] at h
            · cases h
            · cases h
              refine ⟨rfl, ?_⟩
              have hwrap := step_stack_wrap s s3 (t.typeId, t.args) hstep3
              exact Step.trans_addT hwrap
                (StepAddT.pushPost _ t _ rfl rfl)
        · simp at h
    · simp only [M_pure_apply, M_bind_apply, M_get_apply, M_lift_apply,
        M_modify_apply] at h
      split at h
      · next fieldIds s3 hres =>
        have hstep3 := resolveFieldTypes_step _ ihRef _ _ _ _ _ _ hres
        rcases hder : derefTypeList s3 fieldIds with e | ftypes <;>
          rw [hder] at h <;>
          simp only [M_bind_apply, M_lift_apply, M_pure_apply,
            M_modify_apply] at h
        · cases h
        · rcases hlay : layoutFields ftypes 0 1 with e | lay <;>
            rw [hlay] at h <;>
            simp only [M_bind_apply, M_lift_apply, M_pure_apply,
              M_modify_apply] at h
          · cases h
          · cases h
            refine ⟨rfl, ?_⟩
            have hwrap := step_stack_wrap s s3 (t.typeId, t.args) hstep3
            exact Step.trans_addT hwrap
              (StepAddT.pushPost _ t _ rfl rfl)
      · simp at h

theorem postLoadType_spec_succ (env : Env) (n : Nat) (ih : SpecOK (fns env n)) :
    ∀ t s r s',
      (fns env (n+1)).postLoadType t s = (.ok r, s') → StepAddT t s s' := by
  obtain ⟨ihRef, ihDepT, ihDepTI, ihLTI, ihLF, ihRefF, ihDepF, ihDepFI, ihLFI,
    ihPLT, ihPLF, ihPLL⟩ := ih
  intro t s r s' h
  simp only [fns, M_bind_apply, M_lift_apply] at h
  rcases hft : findTypeTemplate env t.args.assembly t.args.id with e | tt <;>
    rw [hft] at h
  · cases h
  · simp only [M_bind_apply, M_lift_apply] at h
    split at h
    · next ini s1 hini =>
      split at h
      · next fin s2 hfin =>
        have step1 := ihRefF _ _ _ _ _ _ hini
        have step2 := ihRefF _ _ _ _ _ _ hfin
        by_cases hc1 : ({ t with initializer := ini, finalizer := fin
            : RuntimeType }).storage ≠ StorageMode.global ∧ ini.isSome
        · rw [if_pos hc1] at h
          cases h
        · rw [if_neg hc1] at h
          by_cases hc2 : ({ t with initializer := ini, finalizer := fin
              : RuntimeType }).storage ≠ StorageMode.ref ∧ fin.isSome
          · rw [if_pos hc2] at h
            cases h
          · rw [if_neg hc2] at h
            simp only [M_modify_apply] at h
            cases h
            push_neg at hc1 hc2
            set t2 : RuntimeType := { t with initializer := ini, finalizer := fin }
              with ht2
            set t3 : RuntimeType :=
              if t2.storage = StorageMode.global then
                { t2 with staticPointer := true }
              else t2 with ht3
            have hid3 : t3.typeId = t.typeId := by
              rw [ht3]
              split <;> rfl
            have harg3 : t3.args = t.args := by
              rw [ht3]
              split <;> rfl
            have hsig3 : storageCondOK t3 := by
              have hsto : t3.storage = t2.storage := by
                rw [ht3]
                split <;> rfl
              have hini3 : t3.initializer = ini := by
                rw [ht3]
                split <;> rfl
              have hfin3 : t3.finalizer = fin := by
                rw [ht3]
                split <;> rfl
              constructor
              · intro hsome
                rw [hini3] at hsome
                rw [hsto]
                by_contra hne
                exact hc1 hne hsome
              · intro hsome
                rw [hfin3] at hsome
                rw [hsto]
                by_contra hne
                exact hc2 hne hsome
            exact Step.trans_addT (step1.chainS step2)
              (StepAddT.pushFinishedT _ t t3 hid3 harg3 hsig3)
      · simp at h
    · simp at h

end RolLang

namespace RolLang

theorem postLoadFunction_spec_succ (env : Env) (n : Nat) (ih : SpecOK (fns env n)) :
    ∀ f s r s',
      (fns env (n+1)).postLoadFunction f s = (.ok r, s') → StepAddF f s s' := by
  obtain ⟨ihRef, ihDepT, ihDepTI, ihLTI, ihLF, ihRefF, ihDepF, ihDepFI, ihLFI,
    ihPLT, ihPLF, ihPLL⟩ := ih
  intro f s r s' h
  simp only [fns, M_bind_apply, M_lift_apply] at h
  rcases hft : findFunctionTemplate env f.args.assembly f.args.id with e | ft <;>
    rw [hft] at h
  · cases h
  · simp only [M_bind_apply, M_lift_apply] at h
    split at h
    · next refTypes s1 hrt =>
      split at h
      · next refFuncs s2 hrf =>
        have step1 := refTypeListLoop_step _ ihRef _ _ _ _ _ _ _ hrt
        have step2 := refFuncListLoop_step _ ihRefF _ _ _ _ _ _ _ hrf
        rcases hrv : refTypes.get? ft.returnValue.typeId with _ | v <;>
          rw [hrv] at h <;>
          simp only [M_bind_apply, M_pure_apply, M_throw_apply, M_lift_apply] at h
        · cases h
        · rcases hps : paramsFrom refTypes ft.parameters with e2 | ps <;>
            rw [hps] at h <;>
            simp only [M_bind_apply, M_pure_apply, M_lift_apply, M_modify_apply] at h
          · cases h
          · cases h
            exact Step.trans_addF (step1.chainS step2)
              (StepAddF.pushFinishedF s2 f _ rfl rfl)
      · simp at h
    · simp at h

end RolLang

namespace RolLang

theorem getLast?_none {l : List α} (h : l.getLast? = none) : l = [] := by
  rcases l with _ | ⟨a, l'⟩
  · rfl
  · rw [List.getLast?_eq_getLast _ (by simp)] at h
    cases h

theorem processLoadingLists_spec_succ (env : Env) (n : Nat) (ih : SpecOK (fns env n)) :
    ∀ s r s',
      (fns env (n+1)).processLoadingLists s = (.ok r, s') →
        Step s s' ∧ s'.loadingRefTypes = [] ∧ s'.postLoadingTypes = [] ∧
        s'.loadingFunctions = [] := by
  obtain ⟨ihRef, ihDepT, ihDepTI, ihLTI, ihLF, ihRefF, ihDepF, ihDepFI, ihLFI,
    ihPLT, ihPLF, ihPLL⟩ := ih
  intro s r s' h
  simp only [fns, M_bind_apply, M_get_apply] at h
  rcases hlast1 : s.loadingRefTypes.getLast? with _ | t <;> rw [hlast1] at h <;>
    simp only [M_bind_apply, M_set_apply] at h
  · rcases hlast2 : s.postLoadingTypes.getLast? with _ | t <;> rw [hlast2] at h <;>
      simp only [M_bind_apply, M_set_apply] at h
    · rcases hlast3 : s.loadingFunctions.getLast? with _ | f <;> rw [hlast3] at h <;>
        simp only [M_bind_apply, M_set_apply, M_pure_apply] at h
      · cases h
        exact ⟨Step.reflS, getLast?_none hlast1, getLast?_none hlast2,
          getLast?_none hlast3⟩
      · split at h
        · next a s1 hpf =>
          have hadd := ihPLF _ _ _ _ hpf
          have hcont := ihPLL _ _ _ h
          have hdec := getLast?_decomp hlast3
          have hms : funcMembers s =
              (s.loadingFunctions.dropLast).map (fun f => (f.functionId, f.args)) ++
                (f.functionId, f.args) ::
                s.finishedLoadingFunctions.map (fun f => (f.functionId, f.args)) := by
            rw [funcMembers_eq]
            nth_rewrite 1 [hdec]
            simp
          have hmp : funcMembers
              { s with loadingFunctions := s.loadingFunctions.dropLast } =
              (s.loadingFunctions.dropLast).map (fun f => (f.functionId, f.args)) ++
                s.finishedLoadingFunctions.map (fun f => (f.functionId, f.args)) := by
            rw [funcMembers_eq]
          refine ⟨popFuncProcess_core hms hmp rfl rfl rfl rfl rfl rfl rfl hadd
            hcont.1, hcont.2.1, hcont.2.2.1, hcont.2.2.2⟩
        · simp at h
    · split at h
      · next a s1 hpt =>
        have hadd := ihPLT _ _ _ _ hpt
        have hcont := ihPLL _ _ _ h
        have hdec := getLast?_decomp hlast2
        have hms : typeMembers s =
            (s.loadingRefTypes.map (fun t => (t.typeId, t.args)) ++
              (s.postLoadingTypes.dropLast).map (fun t => (t.typeId, t.args))) ++
              (t.typeId, t.args) ::
              s.finishedLoadingTypes.map (fun t => (t.typeId, t.args)) := by
          rw [typeMembers_eq]
          nth_rewrite 1 [hdec]
          simp
        have hmp : typeMembers
            { s with postLoadingTypes := s.postLoadingTypes.dropLast } =
            (s.loadingRefTypes.map (fun t => (t.typeId, t.args)) ++
              (s.postLoadingTypes.dropLast).map (fun t => (t.typeId, t.args))) ++
              s.finishedLoadingTypes.map (fun t => (t.typeId, t.args)) := by
          rw [typeMembers_eq]
        refine ⟨popTypeProcess_core hms hmp rfl rfl rfl rfl rfl rfl rfl hadd
          hcont.1, hcont.2.1, hcont.2.2.1, hcont.2.2.2⟩
      · simp at h
  · split at h
    · next a s1 hlf =>
      obtain ⟨hr1, hadd⟩ := ihLF _ _ _ _ _ hlf
      have hcont := ihPLL _ _ _ h
      have hdec := getLast?_decomp hlast1
      have hms : typeMembers s =
          (s.loadingRefTypes.dropLast).map (fun t => (t.typeId, t.args)) ++
            (t.typeId, t.args) ::
            (s.postLoadingTypes.map (fun t => (t.typeId, t.args)) ++
              s.finishedLoadingTypes.map (fun t => (t.typeId, t.args))) := by
        rw [typeMembers_eq]
        nth_rewrite 1 [hdec]
        simp
      have hmp : typeMembers
          { s with loadingRefTypes := s.loadingRefTypes.dropLast } =
          (s.loadingRefTypes.dropLast).map (fun t => (t.typeId, t.args)) ++
            (s.postLoadingTypes.map (fun t => (t.typeId, t.args)) ++
              s.finishedLoadingTypes.map (fun t => (t.typeId, t.args))) := by
        rw [typeMembers_eq]
        simp
      refine ⟨popTypeProcess_core hms hmp rfl rfl rfl rfl rfl rfl rfl hadd
        hcont.1, hcont.2.1, hcont.2.2.1, hcont.2.2.2⟩
    · simp at h

end RolLang

namespace RolLang

theorem specOK_fns (env : Env) : ∀ n, SpecOK (fns env n) := by
  intro n
  induction n with
  | zero =>
    refine ⟨?_, ?_, ?_, ?_, ?_, ?_, ?_, ?_, ?_, ?_, ?_, ?_⟩ <;> intros <;>
      simp_all [fns, errFns, M.throw]
  | succ n ihn =>
    exact ⟨loadRefType_spec_succ env n ihn, loadDependentType_spec_succ env n ihn,
      loadDependentTypeImport_spec_succ env n ihn,
      loadTypeInternal_spec_succ env n ihn, loadFields_spec_succ env n ihn,
      loadRefFunction_spec_succ env n ihn,
      loadDependentFunction_spec_succ env n ihn,
      loadDependentFunctionImport_spec_succ env n ihn,
      loadFunctionInternal_spec_succ env n ihn, postLoadType_spec_succ env n ihn,
      postLoadFunction_spec_succ env n ihn,
      processLoadingLists_spec_succ env n ihn⟩

end RolLang

namespace RolLang

theorem presFrom_pure (s : LoaderState) (a : α) : PresLoadedFrom s (pure a : M α) := by
  intro r s' h
  cases h
  exact ⟨rfl, rfl⟩

theorem presFrom_throw (s : LoaderState) (e : String) :
    PresLoadedFrom s (M.throw e : M α) := by
  intro r s' h
  cases h
  exact ⟨rfl, rfl⟩

theorem presFrom_lift (s : LoaderState) (x : Except String α) :
    PresLoadedFrom s (M.lift x) := by
  intro r s' h
  cases h
  exact ⟨rfl, rfl⟩

theorem presFrom_set (s X : LoaderState) (h1 : X.loadedTypes = s.loadedTypes)
    (h2 : X.loadedFunctions = s.loadedFunctions) : PresLoadedFrom s (M.set X) := by
  intro r s' h
  cases h
  exact ⟨h1, h2⟩

theorem presFrom_modify (s : LoaderState) (f : LoaderState → LoaderState)
    (h : (f s).loadedTypes = s.loadedTypes ∧
      (f s).loadedFunctions = s.loadedFunctions) :
    PresLoadedFrom s (M.modify f) := by
  intro r s' hh
  cases hh
  exact h

theorem presFrom_bind {s : LoaderState} {m : M α} {k : α → M β}
    (h1 : PresLoadedFrom s m)
    (h2 : ∀ a s1, m s = (.ok a, s1) → PresLoadedFrom s1 (k a)) :
    PresLoadedFrom s (m >>= k) := by
  intro r s' h
  rw [M_bind_apply] at h
  split at h
  · next a s1 heq =>
    obtain ⟨e1, e2⟩ := h1 _ _ heq
    obtain ⟨f1, f2⟩ := h2 a s1 heq _ _ h
    exact ⟨f1.trans e1, f2.trans e2⟩
  · next e s1 heq =>
    cases h
    exact h1 _ _ heq

theorem presFrom_get_bind {s : LoaderState} {k : LoaderState → M β}
    (h : PresLoadedFrom s (k s)) : PresLoadedFrom s (M.get >>= k) := by
  intro r s' hh
  rw [M_bind_apply] at hh
  exact h _ _ hh

theorem presFrom_lift_bind {s : LoaderState} {e : Except String α} {k : α → M β}
    (h : ∀ a, e = .ok a → PresLoadedFrom s (k a)) :
    PresLoadedFrom s (M.lift e >>= k) := by
  intro r s' hh
  rw [M_bind_apply] at hh
  rcases e with err | a
  · cases hh
    exact ⟨rfl, rfl⟩
  · exact h a rfl _ _ hh

theorem collectTypeArgs_pres (F : Fns)
    (hF : ∀ args g i, PresLoaded (F.loadRefType args g i)) :
    ∀ steps i la g, PresLoaded (collectTypeArgs F la g i steps) := by
  intro steps
  induction steps with
  | zero =>
    intro i la g s
    simp only [collectTypeArgs]
    exact presFrom_pure s []
  | succ n ih =>
    intro i la g s
    simp only [collectTypeArgs]
    split
    · exact presFrom_pure s []
    · split
      · exact presFrom_pure s []
      · refine presFrom_bind (hF _ _ _ s) ?_
        intro a s1 _
        refine presFrom_bind (ih _ _ _ s1) ?_
        intro b s2 _
        exact presFrom_pure s2 _

theorem collectFuncArgs_pres (F : Fns)
    (hF : ∀ args g i, PresLoaded (F.loadRefType args g i)) :
    ∀ steps i la g, PresLoaded (collectFuncArgs F la g i steps) := by
  intro steps
  induction steps with
  | zero =>
    intro i la g s
    simp only [collectFuncArgs]
    exact presFrom_pure s []
  | succ n ih =>
    intro i la g s
    simp only [collectFuncArgs]
    split
    · exact presFrom_pure s []
    · split
      · exact presFrom_pure s []
      · split
        · exact presFrom_throw s _
        · refine presFrom_bind (hF _ _ _ s) ?_
          intro a s1 _
          refine presFrom_bind (ih _ _ _ s1) ?_
          intro b s2 _
          exact presFrom_pure s2 _

theorem resolveFieldTypes_pres (F : Fns)
    (hF : ∀ args g i, PresLoaded (F.loadRefType args g i)) :
    ∀ l args g, PresLoaded (resolveFieldTypes F args g l) := by
  intro l
  induction l with
  | nil =>
    intro args g s
    simp only [resolveFieldTypes]
    exact presFrom_pure s []
  | cons fid rest ih =>
    intro args g s
    simp only [resolveFieldTypes]
    refine presFrom_bind (hF _ _ _ s) ?_
    intro v s1 _
    split
    · exact presFrom_throw s1 _
    · refine presFrom_bind (ih _ _ s1) ?_
      intro b s2 _
      exact presFrom_pure s2 _

theorem refTypeListLoop_pres (F : Fns)
    (hF : ∀ args g i, PresLoaded (F.loadRefType args g i)) :
    ∀ steps i la g, PresLoaded (refTypeListLoop F la g i steps) := by
  intro steps
  induction steps with
  | zero =>
    intro i la g s
    simp only [refTypeListLoop]
    exact presFrom_pure s []
  | succ n ih =>
    intro i la g s
    simp only [refTypeListLoop]
    split
    · refine presFrom_bind (hF _ _ _ s) ?_
      intro a s1 _
      refine presFrom_bind (ih _ _ _ s1) ?_
      intro b s2 _
      exact presFrom_pure s2 _
    · exact presFrom_pure s []

theorem refFuncListLoop_pres (F : Fns)
    (hF : ∀ args g i, PresLoaded (F.loadRefFunction args g i)) :
    ∀ steps i la g, PresLoaded (refFuncListLoop F la g i steps) := by
  intro steps
  induction steps with
  | zero =>
    intro i la g s
    simp only [refFuncListLoop]
    exact presFrom_pure s []
  | succ n ih =>
    intro i la g s
    simp only [refFuncListLoop]
    split
    · refine presFrom_bind (hF _ _ _ s) ?_
      intro a s1 _
      refine presFrom_bind (ih _ _ _ s1) ?_
      intro b s2 _
      exact presFrom_pure s2 _
    · exact presFrom_pure s []

theorem getCode_pres (env : Env) (a : String) (i : Nat) :
    PresLoaded (getCode env a i) := by
  intro s
  simp only [getCode]
  refine presFrom_get_bind ?_
  dsimp only
  split
  · exact presFrom_pure _ _
  · refine presFrom_lift_bind ?_
    intro f _
    split
    · exact presFrom_pure _ _
    · refine presFrom_bind (presFrom_modify _ _ ⟨rfl, rfl⟩) ?_
      intro _ s2 _
      exact presFrom_pure _ _

theorem presOK_fns (env : Env) : ∀ n, PresOK (fns env n) := by
  intro n
  induction n with
  | zero =>
    refine ⟨?_, ?_, ?_, ?_, ?_, ?_, ?_, ?_, ?_, ?_, ?_, ?_⟩ <;>
      simp only [PresLoaded, PresLoadedFrom, fns, errFns, M_throw_apply] <;>
      intros <;> rename_i h <;> cases h <;> exact ⟨rfl, rfl⟩
  | succ n ihn =>
    obtain ⟨pRef, pDepT, pDepTI, pLTI, pLF, pRefF, pDepF, pDepFI, pLFI,
      pPLT, pPLF, pPLL⟩ := ihn
    refine ⟨?_, ?_, ?_, ?_, ?_, ?_, ?_, ?_, ?_, ?_, ?_, ?_⟩
    · intro args g i s
      simp only [fns]
      split
      · exact presFrom_throw s _
      · split
        · exact presFrom_pure s _
        · split
          · exact pRef _ _ _ s
          · exact presFrom_throw s _
        · refine presFrom_bind (pDepT _ _ _ _ _ _ s) ?_
          intro a s1 _
          exact presFrom_pure s1 _
        · refine presFrom_bind (pDepTI _ _ _ _ _ s) ?_
          intro a s1 _
          exact presFrom_pure s1 _
        · split
          · exact presFrom_throw s _
          · exact presFrom_pure s _
        · exact presFrom_throw s _
    · intro asm i la g ri ca s
      simp only [fns]
      refine presFrom_bind (collectTypeArgs_pres _ pRef _ _ _ _ s) ?_
      intro a s1 _
      split
      · split
        · exact presFrom_throw s1 _
        · exact pLTI _ s1
      · exact pLTI _ s1
    · intro asm i la g ri s
      simp only [fns]
      refine presFrom_lift_bind ?_
      intro a _
      split
      · exact presFrom_throw s _
      · refine presFrom_lift_bind ?_
        intro a2 _
        split
        · exact pDepT _ _ _ _ _ _ s
        · exact presFrom_throw s _
    · intro args s
      simp only [fns]
      refine presFrom_get_bind ?_
      dsimp only
      split
      · exact presFrom_pure _ _
      · split
        · exact presFrom_pure _ _
        · split
          · exact presFrom_pure _ _
          · split
            · exact presFrom_pure _ _
            · refine presFrom_lift_bind ?_
              intro tt _
              refine presFrom_lift_bind ?_
              intro u _
              split
              · refine presFrom_bind (presFrom_modify _ _ ⟨rfl, rfl⟩) ?_
                intro v s2 _
                exact presFrom_pure _ _
              · refine presFrom_bind (presFrom_modify _ _ ⟨rfl, rfl⟩) ?_
                intro v s2 _
                exact pLF _ _ s2
    · intro t tmpl s
      simp only [fns]
      refine presFrom_get_bind ?_
      dsimp only
      split
      · exact presFrom_throw _ _
      · refine presFrom_bind (presFrom_set _ _ rfl rfl) ?_
        intro u s1 _
        split
        · refine presFrom_bind (presFrom_pure _ _) ?_
          intro tt s2 _
          refine presFrom_bind (resolveFieldTypes_pres _ pRef _ _ _ s2) ?_
          intro fieldIds s3 _
          refine presFrom_get_bind ?_
          dsimp only
          refine presFrom_lift_bind ?_
          intro ftypes _
          refine presFrom_lift_bind ?_
          intro layout _
          refine presFrom_bind (presFrom_modify _ _ ⟨rfl, rfl⟩) ?_
          intro v s4 _
          exact presFrom_pure _ _
        · refine presFrom_lift_bind ?_
          intro tt _
          refine presFrom_bind (resolveFieldTypes_pres _ pRef _ _ _ s1) ?_
          intro fieldIds s3 _
          refine presFrom_get_bind ?_
          dsimp only
          refine presFrom_lift_bind ?_
          intro ftypes _
          refine presFrom_lift_bind ?_
          intro layout _
          refine presFrom_bind (presFrom_modify _ _ ⟨rfl, rfl⟩) ?_
          intro v s4 _
          exact presFrom_pure _ _
    · intro args g i s
      simp only [fns]
      split
      · exact presFrom_throw s _
      · split
        · exact presFrom_pure s _
        · split
          · exact pRefF _ _ _ s
          · exact presFrom_throw s _
        · refine presFrom_bind (pDepF _ _ _ _ _ _ s) ?_
          intro a s1 _
          exact presFrom_pure s1 _
        · refine presFrom_bind (pDepFI _ _ _ _ _ s) ?_
          intro a s1 _
          exact presFrom_pure s1 _
        · exact presFrom_throw s _
    · intro asm i la g ri ca s
      simp only [fns]
      refine presFrom_bind (collectFuncArgs_pres _ pRef _ _ _ _ s) ?_
      intro a s1 _
      split
      · split
        · exact presFrom_throw s1 _
        · exact pLFI _ s1
      · exact pLFI _ s1
    · intro asm i la g ri s
      simp only [fns]
      refine presFrom_lift_bind ?_
      intro a _
      split
      · exact presFrom_throw s _
      · refine presFrom_lift_bind ?_
        intro a2 _
        split
        · exact pDepF _ _ _ _ _ _ s
        · exact presFrom_throw s _
    · intro args s
      simp only [fns]
      refine presFrom_get_bind ?_
      dsimp only
      split
      · exact presFrom_pure _ _
      · split
        · exact presFrom_pure _ _
        · split
          · exact presFrom_pure _ _
          · refine presFrom_lift_bind ?_
            intro ft _
            refine presFrom_lift_bind ?_
            intro u _
            refine presFrom_get_bind ?_
            dsimp only
            refine presFrom_bind (getCode_pres env _ _ _) ?_
            intro code s2 _
            refine presFrom_bind (presFrom_modify _ _ ⟨rfl, rfl⟩) ?_
            intro v s3 _
            exact presFrom_pure _ _
    · intro t s
      simp only [fns]
      refine presFrom_lift_bind ?_
      intro tt _
      refine presFrom_bind (pRefF _ _ _ s) ?_
      intro ini s1 _
      refine presFrom_bind (pRefF _ _ _ s1) ?_
      intro fin s2 _
      dsimp only
      split
      · exact presFrom_throw _ _
      · split
        · exact presFrom_throw _ _
        · exact presFrom_modify _ _ ⟨rfl, rfl⟩
    · intro f s
      simp only [fns]
      refine presFrom_lift_bind ?_
      intro ft _
      refine presFrom_bind (refTypeListLoop_pres _ pRef _ _ _ _ s) ?_
      intro refTypes s1 _
      refine presFrom_bind (refFuncListLoop_pres _ pRefF _ _ _ _ s1) ?_
      intro refFuncs s2 _
      split
      · refine presFrom_bind (presFrom_throw _ _) ?_
        intro rv s3 heq
        cases heq
      · refine presFrom_bind (presFrom_pure _ _) ?_
        intro rv s3 _
        refine presFrom_lift_bind ?_
        intro ps _
        exact presFrom_modify _ _ ⟨rfl, rfl⟩
    · intro s
      simp only [fns]
      refine presFrom_get_bind ?_
      dsimp only
      split
      · refine presFrom_bind (presFrom_set _ _ rfl rfl) ?_
        intro u s1 _
        refine presFrom_bind (pLF _ _ s1) ?_
        intro v s2 _
        exact pPLL s2
      · split
        · refine presFrom_bind (presFrom_set _ _ rfl rfl) ?_
          intro u s1 _
          refine presFrom_bind (pPLT _ s1) ?_
          intro v s2 _
          exact pPLL s2
        · split
          · refine presFrom_bind (presFrom_set _ _ rfl rfl) ?_
            intro u s1 _
            refine presFrom_bind (pPLF _ s1) ?_
            intro v s2 _
            exact pPLL s2
          · exact presFrom_pure _ _

end RolLang

namespace RolLang

theorem ro_pure (a : α) : ReadOnly (pure a : M α) := by
  intro s r s' h
  cases h
  rfl

theorem ro_throw (e : String) : ReadOnly (M.throw e : M α) := by
  intro s r s' h
  cases h
  rfl

theorem ro_get : ReadOnly M.get := by
  intro s r s' h
  cases h
  rfl

theorem ro_ite {c : Prop} [Decidable c] {a b : M α} (h1 : ReadOnly a)
    (h2 : ReadOnly b) : ReadOnly (if c then a else b) := by
  by_cases hc : c
  · rw [if_pos hc]
    exact h1
  · rw [if_neg hc]
    exact h2

theorem ro_bind {m : M α} {k : α → M β} (h1 : ReadOnly m)
    (h2 : ∀ a, ReadOnly (k a)) : ReadOnly (m >>= k) := by
  intro s r s' h
  rw [M_bind_apply] at h
  split at h
  · next a s1 heq =>
    exact (h2 a _ _ _ h).trans (h1 _ _ _ heq)
  · next e s1 heq =>
    cases h
    exact h1 _ _ _ heq

theorem tShape_typeId {t t' : RuntimeType} (h : tShape t = tShape t') :
    t.typeId = t'.typeId := congrArg Prod.fst h

theorem tShape_args {t t' : RuntimeType} (h : tShape t = tShape t') :
    t.args = t'.args := congrArg (fun p => p.2.1) h

theorem tShape_storage {t t' : RuntimeType} (h : tShape t = tShape t') :
    t.storage = t'.storage := congrArg (fun p => p.2.2.1) h

theorem tShape_initializer {t t' : RuntimeType} (h : tShape t = tShape t') :
    t.initializer = t'.initializer := congrArg (fun p => p.2.2.2.2.2.2.1) h

theorem tShape_finalizer {t t' : RuntimeType} (h : tShape t = tShape t') :
    t.finalizer = t'.finalizer := congrArg (fun p => p.2.2.2.2.2.2.2.1) h

theorem tShapeEqL_refl (l : List (Option RuntimeType)) : tShapeEqL l l :=
  List.forall₂_same.mpr (fun _ _ => rfl)

theorem tShapeEqQ_refl (l : List RuntimeType) : tShapeEqQ l l :=
  List.forall₂_same.mpr (fun _ _ => rfl)

theorem tShapeEqL_trans {a b c : List (Option RuntimeType)}
    (h1 : tShapeEqL a b) (h2 : tShapeEqL b c) : tShapeEqL a c := by
  induction h1 generalizing c with
  | nil =>
    cases h2
    exact List.Forall₂.nil
  | cons hab h ih =>
    cases h2 with
    | cons hbc h2' => exact List.Forall₂.cons (hab.trans hbc) (ih h2')

theorem tShapeEqQ_trans {a b c : List RuntimeType}
    (h1 : tShapeEqQ a b) (h2 : tShapeEqQ b c) : tShapeEqQ a c := by
  induction h1 generalizing c with
  | nil =>
    cases h2
    exact List.Forall₂.nil
  | cons hab h ih =>
    cases h2 with
    | cons hbc h2' => exact List.Forall₂.cons (hab.trans hbc) (ih h2')

theorem tShapeEqL_map (l : List (Option RuntimeType)) (g : RuntimeType → RuntimeType)
    (hg : ∀ u, tShape (g u) = tShape u) : tShapeEqL l (l.map (Option.map g)) := by
  induction l with
  | nil => exact List.Forall₂.nil
  | cons a l ih =>
    refine List.Forall₂.cons ?_ ih
    rcases a with _ | u
    · rfl
    · exact congrArg some (hg u).symm

theorem tShapeEqQ_map (l : List RuntimeType) (g : RuntimeType → RuntimeType)
    (hg : ∀ u, tShape (g u) = tShape u) : tShapeEqQ l (l.map g) := by
  induction l with
  | nil => exact List.Forall₂.nil
  | cons u l ih =>
    exact List.Forall₂.cons (hg u).symm ih

theorem PtrOnly.reflP {s : LoaderState} : PtrOnly s s :=
  ⟨tShapeEqL_refl _, rfl, rfl, rfl, tShapeEqQ_refl _, tShapeEqQ_refl _, rfl,
    tShapeEqQ_refl _, rfl, rfl, rfl⟩

theorem PtrOnly.chainP {s1 s2 s3 : LoaderState} (h1 : PtrOnly s1 s2)
    (h2 : PtrOnly s2 s3) : PtrOnly s1 s3 := by
  obtain ⟨a1, b1, c1, d1, e1, f1, g1, i1, j1, k1, l1⟩ := h1
  obtain ⟨a2, b2, c2, d2, e2, f2, g2, i2, j2, k2, l2⟩ := h2
  exact ⟨tShapeEqL_trans a1 a2, b2.trans b1, c2.trans c1, d2.trans d1,
    tShapeEqQ_trans e1 e2, tShapeEqQ_trans f1 f2, g2.trans g1,
    tShapeEqQ_trans i1 i2, j2.trans j1, k2.trans k1, l2.trans l1⟩

theorem ptrOnly_update (s : LoaderState) (i : Nat) (f : RuntimeType → RuntimeType)
    (hf : ∀ u, tShape (f u) = tShape u) : PtrOnly s (updateTypeById s i f) := by
  have hg : ∀ u, tShape (if u.typeId = i then f u else u) = tShape u := by
    intro u
    by_cases hu : u.typeId = i
    · rw [if_pos hu]
      exact hf u
    · rw [if_neg hu]
  exact ⟨tShapeEqL_map _ _ hg, rfl, rfl, rfl, tShapeEqQ_map _ _ hg,
    tShapeEqQ_map _ _ hg, rfl, tShapeEqQ_map _ _ hg, rfl, rfl, rfl⟩

theorem finalCheckType_ptrOnly (env : Env) (t : RuntimeType) :
    ∀ s r s', finalCheckType env t s = (r, s') → PtrOnly s s' := by
  have stmt2RO : ReadOnly ((match t.initializer with
      | none => pure ()
      | some fid => do
        let s ← M.get
        match findFuncObj s fid with
        | none => M.throw "UB: dangling function pointer in FinalCheckType"
        | some f =>
          if f.returnValue ≠ none ∨ f.parameters.length ≠ 0 then
            M.throw "Invalid initializer"
          else pure ()) : M Unit) := by
    rcases t.initializer with _ | fid
    · exact ro_pure ()
    · refine ro_bind ro_get ?_
      intro a
      rcases findFuncObj a fid with _ | f
      · exact ro_throw _
      · exact ro_ite (ro_throw _) (ro_pure ())
  have stmt3RO : ReadOnly ((match t.finalizer with
      | none => pure ()
      | some fid => do
        let s ← M.get
        match findFuncObj s fid with
        | none => M.throw "UB: dangling function pointer in FinalCheckType"
        | some f =>
          if f.returnValue ≠ none ∨ f.parameters.length ≠ 1 then
            M.throw "Invalid finalizer"
          else if f.parameters.get? 0 ≠ some (some t.typeId) then
            M.throw "Invalid finalizer"
          else pure ()) : M Unit) := by
    rcases t.finalizer with _ | fid
    · exact ro_pure ()
    · refine ro_bind ro_get ?_
      intro a
      rcases findFuncObj a fid with _ | f
      · exact ro_throw _
      · exact ro_ite (ro_throw _) (ro_ite (ro_throw _) (ro_pure ()))
  have stmt1P : ∀ s r s',
      ((if t.args.assembly = "Core" ∧ pointerTypeIdOf env = some t.args.id then do
        match t.args.arguments.get? 0 with
        | none => M.throw "UB: vector index out of range in FinalCheckType"
        | some none => M.throw "UB: null dereference in FinalCheckType"
        | some (some elemId) =>
          M.modify fun s =>
            updateTypeById s elemId (fun e => { e with pointerType := some t.typeId })
      else pure ()) : M Unit) s = (r, s') → PtrOnly s s' := by
    intro s r s' h
    split at h
    · rcases hv : t.args.arguments.get? 0 with _ | v <;> rw [hv] at h
      · cases h
        exact PtrOnly.reflP
      · rcases v with _ | elemId
        · cases h
          exact PtrOnly.reflP
        · cases h
          exact ptrOnly_update s elemId _ (fun u => rfl)
    · cases h
      exact PtrOnly.reflP
  intro s r s' h
  simp only [finalCheckType] at h
  rw [M_bind_apply] at h
  split at h
  · next a s1 heq1 =>
    have h1 : PtrOnly s s1 := stmt1P s _ s1 heq1
    have h2 : s' = s1 := by
      rw [M_bind_apply] at h
      split at h
      · next b s2 heq2 =>
        have e2 : s2 = s1 := stmt2RO _ _ _ heq2
        have e3 : s' = s2 := stmt3RO _ _ _ h
        exact e3.trans e2
      · next e s2 heq2 =>
        have e2 : s2 = s1 := stmt2RO _ _ _ heq2
        cases h
        exact e2
    rw [h2]
    exact h1
  · next e s1 heq1 =>
    cases h
    exact stmt1P s _ _ heq1

theorem finalChecksLoop_ptrOnly (env : Env) :
    ∀ steps i s r s', finalChecksLoop env steps i s = (r, s') → PtrOnly s s' := by
  intro steps
  induction steps with
  | zero =>
    intro i s r s' h
    simp only [finalChecksLoop, M_pure_apply] at h
    cases h
    exact PtrOnly.reflP
  | succ n ih =>
    intro i s r s' h
    simp only [finalChecksLoop, M_bind_apply, M_get_apply] at h
    rcases hge : s.finishedLoadingTypes.get? i with _ | t <;> rw [hge] at h
    · simp only [M_pure_apply] at h
      cases h
      exact PtrOnly.reflP
    · simp only [M_bind_apply] at h
      split at h
      · next a s1 heq =>
        exact (finalCheckType_ptrOnly env t s _ s1 heq).chainP (ih _ _ _ _ h)
      · next e s1 heq =>
        cases h
        exact finalCheckType_ptrOnly env t s _ _ heq

theorem moveFinishedObjects_cases (env : Env) (s : LoaderState) :
    ∀ r s', moveFinishedObjects env s = (r, s') →
      (∃ s1, PtrOnly s s1 ∧ r = .ok () ∧ s' = publishFinished s1) ∨
      (∃ e, r = .error e ∧ PtrOnly s s') := by
  intro r s' h
  simp only [moveFinishedObjects, M_bind_apply, M_get_apply] at h
  split at h
  · next a s1 heq =>
    simp only [M_modify_apply] at h
    cases h
    exact Or.inl ⟨s1, finalChecksLoop_ptrOnly env _ _ _ _ _ heq, rfl, rfl⟩
  · next e s1 heq =>
    cases h
    exact Or.inr ⟨e, rfl, finalChecksLoop_ptrOnly env _ _ _ _ _ heq⟩

end RolLang

namespace RolLang

theorem tShapeEqL_get? {l l' : List (Option RuntimeType)} (h : tShapeEqL l l') :
    ∀ i, (l.get? i).map (Option.map tShape) = (l'.get? i).map (Option.map tShape) := by
  induction h with
  | nil => intro i; rfl
  | cons hab htail ih =>
    intro i
    cases i with
    | zero => simpa using hab
    | succ j => simpa using ih j

theorem tShapeEqL_scan {l l' : List (Option RuntimeType)} (h : tShapeEqL l l')
    (args : LoadingArguments) :
    firstLoadedTypeMatch l' args = firstLoadedTypeMatch l args := by
  induction h with
  | nil => rfl
  | cons hab htail ih =>
    rename_i a b l1 l2
    rcases a with _ | t
    · rcases b with _ | t'
      · simpa [firstLoadedTypeMatch] using ih
      · simp at hab
    · rcases b with _ | t'
      · simp at hab
      · have hsh : tShape t = tShape t' := by simpa using hab
        have hargs : t.args = t'.args := tShape_args hsh
        have hid : t.typeId = t'.typeId := tShape_typeId hsh
        simp only [firstLoadedTypeMatch]
        rw [hargs, hid]
        by_cases hc : t'.args = args
        · rw [if_pos hc, if_pos hc]
        · rw [if_neg hc, if_neg hc]
          exact ih

theorem tShapeEqQ_pairs {l l' : List RuntimeType} (h : tShapeEqQ l l') :
    l'.map (fun t => (t.typeId, t.args)) = l.map (fun t => (t.typeId, t.args)) := by
  induction h with
  | nil => rfl
  | cons hab htail ih =>
    rename_i a b l1 l2
    simp only [List.map_cons, ih, tShape_typeId hab, tShape_args hab]

theorem tShapeEqL_byId_none {s s' : LoaderState}
    (hL : tShapeEqL s.loadedTypes s'.loadedTypes) (i : Nat)
    (h : getTypeById s i = none) : getTypeById s' i = none := by
  have hlen : s.loadedTypes.length = s'.loadedTypes.length :=
    List.Forall₂.length_eq hL
  simp only [getTypeById] at h ⊢
  by_cases hge : i ≥ s.loadedTypes.length
  · rw [if_pos (hlen ▸ hge)]
  · rw [if_neg hge] at h
    rw [if_neg (hlen ▸ hge)]
    have hq := tShapeEqL_get? hL i
    rcases hg : s.loadedTypes.get? i with _ | e <;> rw [hg] at h hq
    · have : s'.loadedTypes.get? i = none := by
        rcases hg' : s'.loadedTypes.get? i with _ | e'
        · rfl
        · rw [hg'] at hq
          cases hq
      rw [this]
    · rcases e with _ | t
      · have : s'.loadedTypes.get? i = some none := by
          rcases hg' : s'.loadedTypes.get? i with _ | e' <;> rw [hg'] at hq
          · cases hq
          · rcases e' with _ | t'
            · rfl
            · simp at hq
        rw [this]
        rfl
      · simp at h

theorem getType_error_core (env : Env) (fuel : Nat) (args : LoadingArguments)
    (s : LoaderState) (e : String) (s' : LoaderState)
    (h : getType env fuel args s = (.error e, s')) :
    tShapeEqL s.loadedTypes s'.loadedTypes ∧
    s'.loadedFunctions = s.loadedFunctions := by
  obtain ⟨pRef, pDepT, pDepTI, pLTI, pLF, pRefF, pDepF, pDepFI, pLFI,
    pPLT, pPLF, pPLL⟩ := presOK_fns env fuel
  have h2 : loadTypeNoLock env fuel args s = (.error e, s') := by
    simp only [getType] at h
    rcases hm : firstLoadedTypeMatch s.loadedTypes args with _ | r <;> rw [hm] at h
    · exact h
    · cases h
  simp only [loadTypeNoLock] at h2
  split at h2
  · cases h2
  · next e2 s2 heq =>
    cases h2
    show tShapeEqL s.loadedTypes (clearLoadingLists s2).loadedTypes ∧
      (clearLoadingLists s2).loadedFunctions = s.loadedFunctions
    have hgoal : tShapeEqL s.loadedTypes s2.loadedTypes ∧
        s2.loadedFunctions = s.loadedFunctions := by
      simp only [M_bind_apply] at heq
      split at heq
      · next r1 s3 heq1 =>
        obtain ⟨q1, q2⟩ := pLTI args (clearLoadingLists s) _ _ heq1
        split at heq
        · next u s4 heq2 =>
          obtain ⟨q3, q4⟩ := pPLL s3 _ _ heq2
          split at heq
          · next v s5 heq3 =>
            simp only [M_pure_apply] at heq
            cases heq
          · next e4 s5 heq3 =>
            cases heq
            rcases moveFinishedObjects_cases env s4 _ _ heq3 with
              ⟨s6, hp, hr, hs⟩ | ⟨e5, hr, hp⟩
            · cases hr
            · have h4 : s4.loadedTypes = s.loadedTypes := q3.trans q1
              have h4f : s4.loadedFunctions = s.loadedFunctions := q4.trans q2
              refine ⟨?_, ?_⟩
              · rw [← h4]
                exact hp.1
              · rw [hp.2.1]
                exact h4f
        · next e4 s4 heq2 =>
          obtain ⟨q3, q4⟩ := pPLL s3 _ _ heq2
          cases heq
          constructor
          · rw [q3, q1]
            exact tShapeEqL_refl _
          · rw [q4, q2]
            rfl
      · next e3 s3 heq1 =>
        obtain ⟨q1, q2⟩ := pLTI args (clearLoadingLists s) _ _ heq1
        cases heq
        constructor
        · rw [q1]
          exact tShapeEqL_refl _
        · rw [q2]
          rfl
    exact hgoal

end RolLang

namespace RolLang

theorem replicate_get?_lt (a : α) : ∀ k i : Nat, i < k →
    (List.replicate k a).get? i = some a := by
  intro k
  induction k with
  | zero => intro i hi; omega
  | succ n ih =>
    intro i hi
    cases i with
    | zero => rfl
    | succ j =>
      simp only [List.replicate_succ, List.get?_cons_succ]
      exact ih j (by omega)

theorem setValueInList_length (v : List (Option α)) (n : Nat) (x : α) :
    (setValueInList v n x).length = max v.length (n+1) := by
  simp only [setValueInList]
  by_cases hlt : n < v.length
  · rw [if_pos hlt, List.length_set]
    omega
  · rw [if_neg hlt]
    simp only [List.length_append, List.length_replicate, List.length_singleton]
    omega

theorem setValueInList_get_self (v : List (Option α)) (n : Nat) (x : α) :
    (setValueInList v n x).get? n = some (some x) := by
  simp only [setValueInList]
  by_cases hlt : n < v.length
  · rw [if_pos hlt]
    exact List.get?_set_eq_of_lt _ hlt
  · rw [if_neg hlt]
    have hlen : (v ++ List.replicate (n - v.length) none).length = n := by
      simp only [List.length_append, List.length_replicate]
      omega
    have hc := List.get?_concat_length (v ++ List.replicate (n - v.length) none)
      (some x)
    rw [hlen] at hc
    exact hc

theorem setValueInList_get_lt (v : List (Option α)) (n : Nat) (x : α) (i : Nat)
    (hne : i ≠ n) (hlt : i < v.length) :
    (setValueInList v n x).get? i = v.get? i := by
  simp only [setValueInList]
  by_cases hn : n < v.length
  · rw [if_pos hn]
    exact List.get?_set_ne _ _ (Ne.symm hne)
  · rw [if_neg hn]
    rw [List.get?_append (by simp only [List.length_append, List.length_replicate]; omega)]
    rw [List.get?_append hlt]

theorem setValueInList_get_other (v : List (Option α)) (n : Nat) (x : α) (i : Nat)
    (hne : i ≠ n) (hge : v.length ≤ i) :
    (setValueInList v n x).get? i = none ∨
    (setValueInList v n x).get? i = some none := by
  simp only [setValueInList]
  by_cases hn : n < v.length
  · rw [if_pos hn]
    left
    rw [List.get?_set_ne _ _ (Ne.symm hne)]
    exact List.get?_eq_none.mpr hge
  · rw [if_neg hn]
    by_cases hi : i < n
    · right
      rw [List.get?_append (by simp only [List.length_append, List.length_replicate]; omega)]
      rw [List.get?_append_right hge]
      exact replicate_get?_lt none _ _ (by omega)
    · left
      refine List.get?_eq_none.mpr ?_
      simp only [List.length_append, List.length_replicate, List.length_singleton]
      omega

theorem pubFold_cons (x : RuntimeType) (l : List RuntimeType)
    (acc : List (Option RuntimeType)) :
    (x :: l).reverse.foldl (fun acc t => setValueInList acc t.typeId t) acc =
      setValueInList
        (l.reverse.foldl (fun acc t => setValueInList acc t.typeId t) acc)
        x.typeId x := by
  rw [List.reverse_cons, List.foldl_append]
  rfl

theorem pubFold_length_le (l : List RuntimeType) (acc : List (Option RuntimeType)) :
    acc.length ≤
      (l.reverse.foldl (fun acc t => setValueInList acc t.typeId t) acc).length := by
  induction l with
  | nil => exact le_refl _
  | cons x l ih =>
    rw [pubFold_cons, setValueInList_length]
    omega

theorem pubFold_get_lt (l : List RuntimeType) (acc : List (Option RuntimeType))
    (i : Nat) (hids : ∀ t ∈ l, acc.length ≤ t.typeId) (hi : i < acc.length) :
    (l.reverse.foldl (fun acc t => setValueInList acc t.typeId t) acc).get? i =
      acc.get? i := by
  induction l with
  | nil => rfl
  | cons x l ih =>
    rw [pubFold_cons]
    have hx : acc.length ≤ x.typeId := hids x (List.mem_cons_self _ _)
    rw [setValueInList_get_lt _ _ _ _ (by omega)
      (lt_of_lt_of_le hi (pubFold_length_le l acc))]
    exact ih (fun t ht => hids t (List.mem_cons_of_mem _ ht))

theorem pubFold_get_self (l : List RuntimeType) (acc : List (Option RuntimeType))
    (hnd : (l.map (fun t => t.typeId)).Nodup) :
    ∀ t0 ∈ l,
      (l.reverse.foldl (fun acc t => setValueInList acc t.typeId t) acc).get?
        t0.typeId = some (some t0) := by
  induction l with
  | nil => intro t0 ht0; cases ht0
  | cons x l ih =>
    intro t0 ht0
    rw [List.map_cons, List.nodup_cons] at hnd
    rw [pubFold_cons]
    rcases List.mem_cons.mp ht0 with he | ht
    · rw [he]
      exact setValueInList_get_self _ _ _
    · have hne : t0.typeId ≠ x.typeId := by
        intro hc
        exact hnd.1 (hc ▸ List.mem_map.mpr ⟨t0, ht, rfl⟩)
      have hprev := ih hnd.2 t0 ht
      have hlt : t0.typeId <
          (l.reverse.foldl (fun acc t => setValueInList acc t.typeId t) acc).length := by
        by_contra hc
        rw [List.get?_eq_none.mpr (le_of_not_lt hc)] at hprev
        cases hprev
      rw [setValueInList_get_lt _ _ _ _ hne hlt]
      exact hprev

theorem pubFold_get_other (l : List RuntimeType) (acc : List (Option RuntimeType))
    (i : Nat) (hne : ∀ t ∈ l, t.typeId ≠ i) (hge : acc.length ≤ i) :
    (l.reverse.foldl (fun acc t => setValueInList acc t.typeId t) acc).get? i = none ∨
    (l.reverse.foldl (fun acc t => setValueInList acc t.typeId t) acc).get? i =
      some none := by
  induction l with
  | nil => exact Or.inl (List.get?_eq_none.mpr hge)
  | cons x l ih =>
    rw [pubFold_cons]
    have hxne : i ≠ x.typeId := Ne.symm (hne x (List.mem_cons_self _ _))
    by_cases hi :
        i < (l.reverse.foldl (fun acc t => setValueInList acc t.typeId t) acc).length
    · rw [setValueInList_get_lt _ _ _ _ hxne hi]
      exact ih (fun t ht => hne t (List.mem_cons_of_mem _ ht))
    · exact setValueInList_get_other _ _ _ _ hxne (le_of_not_lt hi)

theorem firstLoadedTypeMatch_none {l : List (Option RuntimeType)}
    {args : LoadingArguments} (h : firstLoadedTypeMatch l args = none) :
    ∀ j t, l.get? j = some (some t) → t.args ≠ args := by
  induction l with
  | nil => intro j t hj; cases hj
  | cons a rest ih =>
    intro j t hj
    rcases a with _ | u
    · simp only [firstLoadedTypeMatch] at h
      cases j with
      | zero => simp at hj
      | succ jj => exact ih h jj t (by simpa using hj)
    · simp only [firstLoadedTypeMatch] at h
      by_cases hc : u.args = args
      · rw [if_pos hc] at h
        cases h
      · rw [if_neg hc] at h
        cases j with
        | zero =>
          have he : u = t := by simpa using hj
          rw [← he]
          exact hc
        | succ jj => exact ih h jj t (by simpa using hj)

theorem firstLoadedTypeMatch_some_at {l : List (Option RuntimeType)}
    {args : LoadingArguments} :
    ∀ i (t : RuntimeType),
      (∀ j, j < i → ∀ u, l.get? j = some (some u) → u.args ≠ args) →
      l.get? i = some (some t) → t.args = args →
      firstLoadedTypeMatch l args = some t.typeId := by
  induction l with
  | nil => intro i t _ hi _; cases hi
  | cons a rest ih =>
    intro i t hpre hi hargs
    rcases a with _ | u
    · simp only [firstLoadedTypeMatch]
      cases i with
      | zero => simp at hi
      | succ j =>
        refine ih j t ?_ (by simpa using hi) hargs
        intro j2 hj2 u2 hu2
        exact hpre (j2+1) (by omega) u2 (by simpa using hu2)
    · simp only [firstLoadedTypeMatch]
      cases i with
      | zero =>
        have he : u = t := by simpa using hi
        rw [he, if_pos hargs]
      | succ j =>
        have hne : u.args ≠ args := hpre 0 (by omega) u (by simp)
        rw [if_neg hne]
        refine ih j t ?_ (by simpa using hi) hargs
        intro j2 hj2 u2 hu2
        exact hpre (j2+1) (by omega) u2 (by simpa using hu2)

theorem publish_scan {fin : List RuntimeType} {acc : List (Option RuntimeType)}
    {args : LoadingArguments} {r : Nat}
    (hlen : ∀ t ∈ fin, acc.length ≤ t.typeId)
    (hnd : (fin.map (fun t => t.typeId)).Nodup)
    (tr : RuntimeType) (htr : tr ∈ fin) (hid : tr.typeId = r)
    (hargs : tr.args = args)
    (hmin : ∀ t ∈ fin, r ≤ t.typeId)
    (hold : firstLoadedTypeMatch acc args = none) :
    firstLoadedTypeMatch
      (fin.reverse.foldl (fun acc t => setValueInList acc t.typeId t) acc) args =
      some r := by
  have hself := pubFold_get_self fin acc hnd tr htr
  rw [hid] at hself
  have hpre : ∀ j, j < r → ∀ u,
      (fin.reverse.foldl (fun acc t => setValueInList acc t.typeId t) acc).get? j =
        some (some u) → u.args ≠ args := by
    intro j hj u hu
    by_cases hjl : j < acc.length
    · rw [pubFold_get_lt fin acc j hlen hjl] at hu
      exact firstLoadedTypeMatch_none hold j u hu
    · have hge : acc.length ≤ j := le_of_not_lt hjl
      have hne : ∀ t ∈ fin, t.typeId ≠ j := by
        intro t ht hc
        have := hmin t ht
        omega
      rcases pubFold_get_other fin acc j hne hge with hnone | hpad
      · rw [hnone] at hu
        cases hu
      · rw [hpad] at hu
        simp at hu
  have := firstLoadedTypeMatch_some_at r tr hpre hself hargs
  rw [this, hid]

end RolLang

namespace RolLang

theorem pair_mem_exists {l : List RuntimeType} {r : Nat} {args : LoadingArguments}
    (h : (r, args) ∈ l.map (fun t => (t.typeId, t.args))) :
    ∃ t ∈ l, t.typeId = r ∧ t.args = args := by
  rcases List.mem_map.mp h with ⟨t, ht, he⟩
  cases he
  exact ⟨t, ht, rfl, rfl⟩

theorem loadTypeNoLock_ok_scan (env : Env) (fuel : Nat) (args : LoadingArguments)
    (s : LoaderState) (r : Nat) (s' : LoaderState)
    (hC : s.loadedTypes.length ≤ s.nextTypeId)
    (hscan : firstLoadedTypeMatch s.loadedTypes args = none)
    (h : loadTypeNoLock env fuel args s = (.ok r, s')) :
    firstLoadedTypeMatch s'.loadedTypes args = some r := by
  obtain ⟨sRef, sDepT, sDepTI, sLTI, sLF, sRefF, sDepF, sDepFI, sLFI,
    sPLT, sPLF, sPLL⟩ := specOK_fns env fuel
  simp only [loadTypeNoLock] at h
  split at h
  · next r2 s2 heq =>
    cases h
    show firstLoadedTypeMatch s2.loadedTypes args = some r
    simp only [M_bind_apply] at heq
    split at heq
    · next r1 s3 heq1 =>
      split at heq
      · next u s4 heq2 =>
        split at heq
        · next v s5 heq3 =>
          simp only [M_pure_apply] at heq
          have hsnd : s5 = s2 := congrArg Prod.snd heq
          have hr12 : r1 = r := Except.ok.inj (congrArg Prod.fst heq)
          obtain ⟨step1, hmatch, hfresh⟩ := sLTI args (clearLoadingLists s) _ _ heq1
          obtain ⟨hr1, hmem3⟩ :=
            hfresh hscan (fun p hp =>
              absurd hp (by simp [typeMembers, clearLoadingLists]))
          obtain ⟨step2, hdr, hdp, hdf⟩ := sPLL s3 _ _ heq2
          have stepC := step1.chainS step2
          obtain ⟨aC, bC, cC, dC, eC, fC, gC, h2C, iC, jC, kC, lC⟩ := stepC
          obtain ⟨a2, b2, c2, d2, e2, f2, g2, h22, i2, j2, k2, l2⟩ := step2
          have hmem4 : (r1, args) ∈ typeMembers s4 := f2 _ hmem3
          have hr1' : r1 = s.nextTypeId := hr1
          have hids4 : ∀ p ∈ typeMembers s4, r1 ≤ p.1 := by
            intro p hp
            rcases h2C p hp with hin | hge
            · exact absurd hin (by simp [typeMembers, clearLoadingLists])
            · rw [hr1']
              exact hge
          have hidsOK4 : typeIdsOK s4 :=
            jC ⟨fun p hp => absurd hp (by simp [typeMembers, clearLoadingLists]),
              by simp [typeIdsOK, typeMembers, clearLoadingLists]⟩
          rcases moveFinishedObjects_cases env s4 _ _ heq3 with
            ⟨s6, hptr, hok, hs5⟩ | ⟨e, habs, hrest⟩
          · have hqfin := hptr.2.2.2.2.2.2.2.1
            have hmemfin : typeMembers s4 =
                s4.finishedLoadingTypes.map (fun t => (t.typeId, t.args)) := by
              rw [typeMembers_eq, hdr, hdp]
              simp
            have hpairs : s6.finishedLoadingTypes.map (fun t => (t.typeId, t.args)) =
                s4.finishedLoadingTypes.map (fun t => (t.typeId, t.args)) :=
              tShapeEqQ_pairs hqfin
            have hmem6 : (r1, args) ∈
                s6.finishedLoadingTypes.map (fun t => (t.typeId, t.args)) := by
              rw [hpairs, ← hmemfin]
              exact hmem4
            obtain ⟨tr, htr, hid, hargs⟩ := pair_mem_exists hmem6
            have hlen46 : s4.loadedTypes.length = s6.loadedTypes.length :=
              List.Forall₂.length_eq hptr.1
            have hlen4 : s4.loadedTypes = s.loadedTypes := aC
            have hfin_ids : ∀ t ∈ s6.finishedLoadingTypes, r1 ≤ t.typeId := by
              intro t ht
              have hp : (t.typeId, t.args) ∈
                  s6.finishedLoadingTypes.map (fun t => (t.typeId, t.args)) :=
                List.mem_map.mpr ⟨t, ht, rfl⟩
              rw [hpairs, ← hmemfin] at hp
              exact hids4 _ hp
            have hlenb : ∀ t ∈ s6.finishedLoadingTypes,
                s6.loadedTypes.length ≤ t.typeId := by
              intro t ht
              have h1 : s6.loadedTypes.length = s.loadedTypes.length := by
                rw [← hlen46, hlen4]
              rw [h1]
              refine le_trans hC (le_trans ?_ (hfin_ids t ht))
              rw [hr1']
            have hnd6 : (s6.finishedLoadingTypes.map (fun t => t.typeId)).Nodup := by
              have hh := hidsOK4.2
              rw [hmemfin] at hh
              have hmm : s6.finishedLoadingTypes.map (fun t => t.typeId) =
                  (s6.finishedLoadingTypes.map
                    (fun t => (t.typeId, t.args))).map Prod.fst := by
                simp [List.map_map]
              rw [hmm, hpairs]
              exact hh
            have hold6 : firstLoadedTypeMatch s6.loadedTypes args = none := by
              rw [tShapeEqL_scan hptr.1 args, hlen4]
              exact hscan
            have hpub := publish_scan hlenb hnd6 tr htr hid hargs hfin_ids hold6
            rw [← hsnd, ← hr12, hs5]
            exact hpub
          · cases habs
        · next e4 s5 heq3 =>
          cases heq
      · next e4 s4 heq2 =>
        cases heq
    · next e3 s3 heq1 =>
      cases heq
  · next e2 s2 heq =>
    cases h

end RolLang

namespace RolLang

theorem tShapeEqQ_get? {l l' : List RuntimeType} (h : tShapeEqQ l l') :
    ∀ i, (l.get? i).map tShape = (l'.get? i).map tShape := by
  induction h with
  | nil => intro i; rfl
  | cons hab htail ih =>
    intro i
    cases i with
    | zero => simpa using hab
    | succ j => simpa using ih j

theorem tShapeEqQ_mem {l l' : List RuntimeType} (h : tShapeEqQ l l') :
    ∀ t ∈ l', ∃ t0 ∈ l, tShape t0 = tShape t := by
  induction h with
  | nil => intro t ht; cases ht
  | cons hab htail ih =>
    intro t ht
    rcases List.mem_cons.mp ht with he | ht'
    · rename_i a b l1 l2
      exact ⟨a, List.mem_cons_self _ _, he ▸ hab⟩
    · obtain ⟨t0, ht0, hsh⟩ := ih t ht'
      exact ⟨t0, List.mem_cons_of_mem _ ht0, hsh⟩

theorem tShapeEqL_mem {l l' : List (Option RuntimeType)} (h : tShapeEqL l l') :
    ∀ t : RuntimeType, some t ∈ l' →
      ∃ t0 : RuntimeType, some t0 ∈ l ∧ tShape t0 = tShape t := by
  induction h with
  | nil => intro t ht; cases ht
  | cons hab htail ih =>
    intro t ht
    rcases List.mem_cons.mp ht with he | ht'
    · rename_i a b l1 l2
      rw [← he] at hab
      rcases a with _ | t0
      · simp at hab
      · refine ⟨t0, List.mem_cons_self _ _, ?_⟩
        simpa using hab
    · obtain ⟨t0, ht0, hsh⟩ := ih t ht'
      exact ⟨t0, List.mem_cons_of_mem _ ht0, hsh⟩

theorem findFuncObj_ptrOnly {s s' : LoaderState} (hp : PtrOnly s s') (i : Nat) :
    findFuncObj s' i = findFuncObj s i := by
  obtain ⟨p1, p2, p3, p4, p5, p6, p7, p8, p9, p10, p11⟩ := hp
  simp only [findFuncObj, p2, p7, p9]

theorem sigCheckOK_transfer {s s' : LoaderState} {t t' : RuntimeType}
    (hp : PtrOnly s s') (hsh : tShape t = tShape t') (h : sigCheckOK s t) :
    sigCheckOK s' t' := by
  obtain ⟨h1, h2⟩ := h
  constructor
  · intro fid hf
    rw [← tShape_initializer hsh] at hf
    obtain ⟨f, hfo, hr, hp0⟩ := h1 fid hf
    refine ⟨f, ?_, hr, hp0⟩
    rw [findFuncObj_ptrOnly hp]
    exact hfo
  · intro fid hf
    rw [← tShape_finalizer hsh] at hf
    obtain ⟨f, hfo, hr, hl, hp0⟩ := h2 fid hf
    refine ⟨f, ?_, hr, hl, ?_⟩
    · rw [findFuncObj_ptrOnly hp]
      exact hfo
    · rw [← tShape_typeId hsh]
      exact hp0

theorem storageCondOK_transfer {t t' : RuntimeType} (hsh : tShape t = tShape t')
    (h : storageCondOK t) : storageCondOK t' := by
  obtain ⟨h1, h2⟩ := h
  constructor
  · intro hi
    rw [← tShape_initializer hsh] at hi
    rw [← tShape_storage hsh]
    exact h1 hi
  · intro hi
    rw [← tShape_finalizer hsh] at hi
    rw [← tShape_storage hsh]
    exact h2 hi

theorem findFuncObj_mem {s : LoaderState} {fid : Nat} {f : RuntimeFunction}
    (h : findFuncObj s fid = some f) :
    (some f ∈ s.loadedFunctions ∨ f ∈ s.loadingFunctions ∨
      f ∈ s.finishedLoadingFunctions) ∧ f.functionId = fid := by
  simp only [findFuncObj] at h
  split at h
  · next f0 hf0 =>
    cases h
    have hm := List.mem_of_find?_eq_some hf0
    have hid := List.find?_some hf0
    rcases List.mem_filterMap.mp hm with ⟨b, hb, hbe⟩
    have : b = some f := hbe
    rw [this] at hb
    exact ⟨Or.inl hb, by simpa using hid⟩
  · split at h
    · next f0 hf0 =>
      cases h
      exact ⟨Or.inr (Or.inl (List.mem_of_find?_eq_some hf0)),
        by simpa using List.find?_some hf0⟩
    · exact ⟨Or.inr (Or.inr (List.mem_of_find?_eq_some h)),
        by simpa using List.find?_some h⟩

theorem mem_setValueInList {v : List (Option α)} {n : Nat} {x : α}
    {y : Option α} (h : y ∈ setValueInList v n x) :
    y ∈ v ∨ y = some x ∨ y = none := by
  simp only [setValueInList] at h
  by_cases hn : n < v.length
  · rw [if_pos hn] at h
    rcases List.mem_or_eq_of_mem_set h with h1 | h1
    · exact Or.inl h1
    · exact Or.inr (Or.inl h1)
  · rw [if_neg hn] at h
    rcases List.mem_append.mp h with h1 | h1
    · rcases List.mem_append.mp h1 with h2 | h2
      · exact Or.inl h2
      · exact Or.inr (Or.inr (List.eq_of_mem_replicate h2))
    · exact Or.inr (Or.inl (List.mem_singleton.mp h1))

theorem mem_pubFold {l : List RuntimeType} {acc : List (Option RuntimeType)}
    {y : Option RuntimeType}
    (h : y ∈ l.reverse.foldl (fun acc t => setValueInList acc t.typeId t) acc) :
    y ∈ acc ∨ (∃ t ∈ l, y = some t) ∨ y = none := by
  induction l with
  | nil => exact Or.inl h
  | cons x l ih =>
    rw [pubFold_cons] at h
    rcases mem_setValueInList h with h1 | h1 | h1
    · rcases ih h1 with h2 | h2 | h2
      · exact Or.inl h2
      · obtain ⟨t, ht, he⟩ := h2
        exact Or.inr (Or.inl ⟨t, List.mem_cons_of_mem _ ht, he⟩)
      · exact Or.inr (Or.inr h2)
    · exact Or.inr (Or.inl ⟨x, List.mem_cons_self _ _, h1⟩)
    · exact Or.inr (Or.inr h1)

theorem pubFoldF_cons (x : RuntimeFunction) (l : List RuntimeFunction)
    (acc : List (Option RuntimeFunction)) :
    (x :: l).reverse.foldl (fun acc f => setValueInList acc f.functionId f) acc =
      setValueInList
        (l.reverse.foldl (fun acc f => setValueInList acc f.functionId f) acc)
        x.functionId x := by
  rw [List.reverse_cons, List.foldl_append]
  rfl

theorem pubFoldF_length_le (l : List RuntimeFunction)
    (acc : List (Option RuntimeFunction)) :
    acc.length ≤
      (l.reverse.foldl (fun acc f => setValueInList acc f.functionId f) acc).length := by
  induction l with
  | nil => exact le_refl _
  | cons x l ih =>
    rw [pubFoldF_cons, setValueInList_length]
    omega

theorem pubFoldF_get_lt (l : List RuntimeFunction)
    (acc : List (Option RuntimeFunction)) (i : Nat)
    (hids : ∀ f ∈ l, acc.length ≤ f.functionId) (hi : i < acc.length) :
    (l.reverse.foldl (fun acc f => setValueInList acc f.functionId f) acc).get? i =
      acc.get? i := by
  induction l with
  | nil => rfl
  | cons x l ih =>
    rw [pubFoldF_cons]
    have hx : acc.length ≤ x.functionId := hids x (List.mem_cons_self _ _)
    rw [setValueInList_get_lt _ _ _ _ (by omega)
      (lt_of_lt_of_le hi (pubFoldF_length_le l acc))]
    exact ih (fun f hf => hids f (List.mem_cons_of_mem _ hf))

theorem pubFoldF_get_self (l : List RuntimeFunction)
    (acc : List (Option RuntimeFunction))
    (hnd : (l.map (fun f => f.functionId)).Nodup) :
    ∀ f0 ∈ l,
      (l.reverse.foldl (fun acc f => setValueInList acc f.functionId f) acc).get?
        f0.functionId = some (some f0) := by
  induction l with
  | nil => intro f0 hf0; cases hf0
  | cons x l ih =>
    intro f0 hf0
    rw [List.map_cons, List.nodup_cons] at hnd
    rw [pubFoldF_cons]
    rcases List.mem_cons.mp hf0 with he | hf
    · rw [he]
      exact setValueInList_get_self _ _ _
    · have hne : f0.functionId ≠ x.functionId := by
        intro hc
        exact hnd.1 (hc ▸ List.mem_map.mpr ⟨f0, hf, rfl⟩)
      have hprev := ih hnd.2 f0 hf
      have hlt : f0.functionId <
          (l.reverse.foldl
            (fun acc f => setValueInList acc f.functionId f) acc).length := by
        by_contra hc
        rw [List.get?_eq_none.mpr (le_of_not_lt hc)] at hprev
        cases hprev
      rw [setValueInList_get_lt _ _ _ _ hne hlt]
      exact hprev

theorem fMembers_pairs (l : List RuntimeFunction) :
    ∀ f ∈ l, (f.functionId, f.args) ∈ l.map (fun f => (f.functionId, f.args)) :=
  fun f hf => List.mem_map.mpr ⟨f, hf, rfl⟩

end RolLang

namespace RolLang

theorem finalCheckType_sig (env : Env) (t0 : RuntimeType) (s : LoaderState)
    (u : Unit) (s1 : LoaderState) (h : finalCheckType env t0 s = (.ok u, s1)) :
    sigCheckOK s1 t0 := by
  simp only [finalCheckType, M_bind_apply] at h
  split at h
  · next a sM heq1 =>
    rcases hini : t0.initializer with _ | fid <;> rw [hini] at h <;>
      simp only [M_bind_apply, M_pure_apply, M_get_apply] at h
    · rcases hfin : t0.finalizer with _ | fid2 <;> rw [hfin] at h <;>
        simp only [M_bind_apply, M_pure_apply, M_get_apply] at h
      · cases h
        constructor
        · intro fid' hf
          rw [hini] at hf
          cases hf
        · intro fid' hf
          rw [hfin] at hf
          cases hf
      · rcases hfo : findFuncObj sM fid2 with _ | f2 <;> rw [hfo] at h <;>
            simp only [M_throw_apply] at h
        · cases h
        · by_cases hc1 : f2.returnValue ≠ none ∨ f2.parameters.length ≠ 1
          · rw [if_pos hc1] at h
            cases h
          · rw [if_neg hc1] at h
            by_cases hc2 : f2.parameters.get? 0 ≠ some (some t0.typeId)
            · rw [if_pos hc2] at h
              cases h
            · rw [if_neg hc2] at h
              simp only [M_pure_apply] at h
              cases h
              push_neg at hc1 hc2
              constructor
              · intro fid' hf
                rw [hini] at hf
                cases hf
              · intro fid' hf
                rw [hfin] at hf
                cases hf
                exact ⟨f2, hfo, hc1.1, hc1.2, hc2⟩
    · rcases hfo : findFuncObj sM fid with _ | f <;> rw [hfo] at h <;>
        simp only [M_throw_apply] at h
      · cases h
      · by_cases hc1 : f.returnValue ≠ none ∨ f.parameters.length ≠ 0
        · rw [if_pos hc1] at h
          cases h
        · rw [if_neg hc1] at h
          simp only [M_pure_apply] at h
          push_neg at hc1
          rcases hfin : t0.finalizer with _ | fid2 <;> rw [hfin] at h <;>
            simp only [M_bind_apply, M_pure_apply, M_get_apply] at h
          · cases h
            constructor
            · intro fid' hf
              rw [hini] at hf
              cases hf
              exact ⟨f, hfo, hc1.1, List.length_eq_zero.mp hc1.2⟩
            · intro fid' hf
              rw [hfin] at hf
              cases hf
          · rcases hfo2 : findFuncObj sM fid2 with _ | f2 <;> rw [hfo2] at h <;>
              simp only [M_throw_apply] at h
            · cases h
            · by_cases hc2 : f2.returnValue ≠ none ∨ f2.parameters.length ≠ 1
              · rw [if_pos hc2] at h
                cases h
              · rw [if_neg hc2] at h
                by_cases hc3 : f2.parameters.get? 0 ≠ some (some t0.typeId)
                · rw [if_pos hc3] at h
                  cases h
                · rw [if_neg hc3] at h
                  simp only [M_pure_apply] at h
                  cases h
                  push_neg at hc2 hc3
                  constructor
                  · intro fid' hf
                    rw [hini] at hf
                    cases hf
                    exact ⟨f, hfo, hc1.1, List.length_eq_zero.mp hc1.2⟩
                  · intro fid' hf
                    rw [hfin] at hf
                    cases hf
                    exact ⟨f2, hfo2, hc2.1, hc2.2, hc3⟩
  · next e sM heq1 =>
    cases h

end RolLang

namespace RolLang

theorem finalChecksLoop_sig (env : Env) :
    ∀ steps i s r s', finalChecksLoop env steps i s = (.ok r, s') →
      ∀ j t, i ≤ j → j < i + steps →
        s'.finishedLoadingTypes.get? j = some t → sigCheckOK s' t := by
  intro steps
  induction steps with
  | zero =>
    intro i s r s' h j t hij hlt hgt
    omega
  | succ n ih =>
    intro i s r s' h
    simp only [finalChecksLoop, M_bind_apply, M_get_apply] at h
    rcases hge : s.finishedLoadingTypes.get? i with _ | t0 <;> rw [hge] at h
    · simp only [M_pure_apply] at h
      cases h
      intro j t hij hlt hgt
      rw [List.get?_eq_none.mpr (le_trans (List.get?_eq_none.mp hge) hij)] at hgt
      cases hgt
    · simp only [M_bind_apply] at h
      split at h
      · next a sM heq1 =>
        have hptr1 := finalCheckType_ptrOnly env t0 s _ _ heq1
        have hptr2 := finalChecksLoop_ptrOnly env n (i+1) sM _ _ h
        have hsig0 : sigCheckOK sM t0 := finalCheckType_sig env t0 s a sM heq1
        intro j t hij hlt hgt
        by_cases hji : j = i
        · subst hji
          have q1 := tShapeEqQ_get? hptr1.2.2.2.2.2.2.2.1 j
          rw [hge] at q1
          rcases hM : sM.finishedLoadingTypes.get? j with _ | tM <;> rw [hM] at q1
          · cases q1
          · have hsh1 : tShape t0 = tShape tM := by simpa using q1
            have q2 := tShapeEqQ_get? hptr2.2.2.2.2.2.2.2.1 j
            rw [hM, hgt] at q2
            have hsh2 : tShape tM = tShape t := by simpa using q2
            exact sigCheckOK_transfer hptr2 (hsh1.symm ▸ hsh2) hsig0
        · exact ih (i+1) sM r s' h j t (by omega) (by omega) hgt
      · next e sM heq1 =>
        cases h

end RolLang

namespace RolLang

theorem published_types_checked (env : Env) (fuel : Nat) (args : LoadingArguments)
    (s : LoaderState) (r : Nat) (s' : LoaderState)
    (hC : countersOK s) (hI : loadedIdsOK s)
    (h : getType env fuel args s = (.ok r, s')) :
    ∀ t : RuntimeType, some t ∈ s'.loadedTypes → s.nextTypeId ≤ t.typeId →
      storageCondOK t ∧ loadedFuncSig s' t := by
  obtain ⟨sRef, sDepT, sDepTI, sLTI, sLF, sRefF, sDepF, sDepFI, sLFI,
    sPLT, sPLF, sPLL⟩ := specOK_fns env fuel
  simp only [getType] at h
  rcases hm : firstLoadedTypeMatch s.loadedTypes args with _ | r0 <;> rw [hm] at h
  · simp only [loadTypeNoLock] at h
    split at h
    · next r2 s2 heq =>
      cases h
      intro t hmem hid
      replace hmem : some t ∈ s2.loadedTypes := hmem
      simp only [M_bind_apply] at heq
      split at heq
      · next r1 s3 heq1 =>
        split at heq
        · next u s4 heq2 =>
          split at heq
          · next v s5 heq3 =>
            simp only [M_pure_apply] at heq
            have hsnd : s5 = s2 := congrArg Prod.snd heq
            obtain ⟨step1, hmatch1, hfresh1⟩ := sLTI args (clearLoadingLists s) _ _ heq1
            obtain ⟨step2, hdr, hdp, hdf⟩ := sPLL s3 _ _ heq2
            have stepC := step1.chainS step2
            obtain ⟨aC, bC, cC, dC, eC, fC, gC, h2C, iC, jC, kC, lC⟩ := stepC
            have hfsig4 : finishedSigOK s4 :=
              lC (fun t0 ht0 => absurd ht0 (List.not_mem_nil t0))
            have hfids4 : funcIdsOK s4 :=
              kC ⟨fun p hp => absurd hp (List.not_mem_nil p),
                List.nodup_nil⟩
            have hfmem4 : ∀ p ∈ funcMembers s4, s.nextFunctionId ≤ p.1 := by
              intro p hp
              rcases iC p hp with hin | hge
              · exact absurd hin (List.not_mem_nil p)
              · exact hge
            simp only [moveFinishedObjects, M_bind_apply, M_get_apply] at heq3
            split at heq3
            · next a6 s6 heqL =>
              simp only [M_modify_apply] at heq3
              have hs5 : s5 = publishFinished s6 :=
                (congrArg Prod.snd heq3).symm
              have hptr := finalChecksLoop_ptrOnly env _ _ s4 _ s6 heqL
              obtain ⟨p1, p2, p3, p4, p5, p6, p7, p8, p9, p10, p11⟩ := hptr
              have hsig := finalChecksLoop_sig env _ 0 s4 _ s6 heqL
              have hlenfin : s6.finishedLoadingTypes.length =
                  s4.finishedLoadingTypes.length :=
                (List.Forall₂.length_eq p8).symm
              rw [← hsnd, hs5] at hmem
              rw [← hsnd, hs5]
              replace hmem : some t ∈
                  s6.finishedLoadingTypes.reverse.foldl
                    (fun acc t => setValueInList acc t.typeId t)
                    s6.loadedTypes := hmem
              rcases mem_pubFold hmem with hold | ⟨t6, ht6, he⟩ | hnone
              · exfalso
                obtain ⟨t0, ht0, hsh⟩ := tShapeEqL_mem p1 t hold
                have ht0' : some t0 ∈ s.loadedTypes := by
                  have : s4.loadedTypes = s.loadedTypes := aC
                  rw [← this]
                  exact ht0
                have hlt := hI.1 t0 ht0'
                rw [tShape_typeId hsh] at hlt
                omega
              · cases he
                constructor
                · obtain ⟨t4, ht4, hsh4⟩ := tShapeEqQ_mem p8 t ht6
                  exact storageCondOK_transfer hsh4 (hfsig4 t4 ht4)
                · obtain ⟨j, hj⟩ := List.get?_of_mem ht6
                  have hjlt : j < s6.finishedLoadingTypes.length := by
                    by_contra hc
                    rw [List.get?_eq_none.mpr (le_of_not_lt hc)] at hj
                    cases hj
                  have hsig6 : sigCheckOK s6 t :=
                    hsig j t (by omega) (by omega) hj
                  have hloadfn : s6.loadedFunctions = s.loadedFunctions := by
                    rw [p2]
                    exact bC
                  have hloading6 : s6.loadingFunctions = ([] : List RuntimeFunction) := by
                    rw [p7]
                    exact hdf
                  have hfinF : s6.finishedLoadingFunctions =
                      s4.finishedLoadingFunctions := p9
                  have hfm4 : funcMembers s4 =
                      s4.finishedLoadingFunctions.map
                        (fun f => (f.functionId, f.args)) := by
                    rw [funcMembers_eq, hdf]
                    simp
                  have hfinids : ∀ f ∈ s6.finishedLoadingFunctions,
                      s6.loadedFunctions.length ≤ f.functionId := by
                    intro f hf
                    rw [hfinF] at hf
                    have hp : (f.functionId, f.args) ∈ funcMembers s4 := by
                      rw [hfm4]
                      exact List.mem_map.mpr ⟨f, hf, rfl⟩
                    have := hfmem4 _ hp
                    rw [hloadfn]
                    exact le_trans hC.2 this
                  have hndF : (s6.finishedLoadingFunctions.map
                      (fun f => f.functionId)).Nodup := by
                    have hh := hfids4.2
                    rw [hfm4] at hh
                    have hmm : s6.finishedLoadingFunctions.map
                        (fun f => f.functionId) =
                        (s4.finishedLoadingFunctions.map
                          (fun f => (f.functionId, f.args))).map Prod.fst := by
                      rw [hfinF]
                      simp [List.map_map]
                    rw [hmm]
                    exact hh
                  have hfunc_pub : ∀ f : RuntimeFunction,
                      findFuncObj s6 f.functionId = some f →
                      some f ∈ (publishFinished s6).loadedFunctions := by
                    intro f hfo
                    obtain ⟨hwhere, hfid⟩ := findFuncObj_mem hfo
                    rcases hwhere with hw | hw | hw
                    · obtain ⟨j2, hj2⟩ := List.get?_of_mem hw
                      have hj2lt : j2 < s6.loadedFunctions.length := by
                        by_contra hc
                        rw [List.get?_eq_none.mpr (le_of_not_lt hc)] at hj2
                        cases hj2
                      have hpres := pubFoldF_get_lt s6.finishedLoadingFunctions
                        s6.loadedFunctions j2 hfinids hj2lt
                      have hg2 : ((publishFinished s6).loadedFunctions).get? j2 =
                          some (some f) := by
                        show (s6.finishedLoadingFunctions.reverse.foldl
                          (fun acc f => setValueInList acc f.functionId f)
                          s6.loadedFunctions).get? j2 = some (some f)
                        rw [hpres]
                        exact hj2
                      exact List.get?_mem hg2
                    · rw [hloading6] at hw
                      cases hw
                    · have hself := pubFoldF_get_self s6.finishedLoadingFunctions
                        s6.loadedFunctions hndF f hw
                      have hg2 : ((publishFinished s6).loadedFunctions).get?
                          f.functionId = some (some f) := hself
                      exact List.get?_mem hg2
                  obtain ⟨hsg1, hsg2⟩ := hsig6
                  constructor
                  · intro fid hf
                    obtain ⟨f, hfo, hret, hpar⟩ := hsg1 fid hf
                    have hfid := (findFuncObj_mem hfo).2
                    refine ⟨f, ?_, hfid, hret, hpar⟩
                    show some f ∈ (publishFinished s6).loadedFunctions
                    rw [← hfid] at hfo
                    exact hfunc_pub f hfo
                  · intro fid hf
                    obtain ⟨f, hfo, hret, hlen1, hpar0⟩ := hsg2 fid hf
                    have hfid := (findFuncObj_mem hfo).2
                    refine ⟨f, ?_, hfid, hret, hlen1, hpar0⟩
                    show some f ∈ (publishFinished s6).loadedFunctions
                    rw [← hfid] at hfo
                    exact hfunc_pub f hfo
              · cases hnone
            · next e6 s6 heqL =>
              cases heq3
          · next e4 s5 heq3 =>
            cases heq
        · next e4 s4 heq2 =>
          cases heq
      · next e3 s3 heq1 =>
        cases heq
    · next e2 s2 heq =>
      cases h
  · cases h
    intro t hmem hid
    exfalso
    have := hI.1 t hmem
    omega

end RolLang

namespace RolLang

theorem except_ok_bind (a : α) (f : α → Except String β) :
    (Except.ok a >>= f) = f a := rfl

theorem except_error_bind (e : String) (f : α → Except String β) :
    ((Except.error e : Except String α) >>= f) = Except.error e := rfl

theorem le_alignUp (off al : Nat) (hal : 0 < al) :
    off ≤ (off + al - 1) / al * al := by
  have hd := Nat.div_add_mod (off + al - 1) al
  have hm : (off + al - 1) % al < al := Nat.mod_lt _ hal
  have hcomm : (off + al - 1) / al * al = al * ((off + al - 1) / al) :=
    Nat.mul_comm _ _
  omega

theorem layoutFields_cons (ft : RuntimeType) (rest : List RuntimeType)
    (off tot : Nat) (fs : List FieldInfo) (endOff endAl : Nat)
    (h : layoutFields (ft :: rest) off tot = .ok (fs, endOff, endAl)) :
    ∃ len al off0 fsr,
      fieldLenAlign ft = .ok (len, al) ∧
      alignUp off al = .ok off0 ∧
      layoutFields rest (off0 + len) (max al tot) = .ok (fsr, endOff, endAl) ∧
      fs = ⟨ft.typeId, off0, len⟩ :: fsr := by
  simp only [layoutFields] at h
  rcases hfa : fieldLenAlign ft with e | ⟨len, al⟩ <;> rw [hfa] at h <;>
    simp only [except_error_bind, except_ok_bind] at h
  · cases h
  · rcases hau : alignUp off al with e | off0 <;> rw [hau] at h <;>
      simp only [except_error_bind, except_ok_bind] at h
    · cases h
    · rcases hlf : layoutFields rest (off0 + len) (max al tot) with e | ⟨fsr, fo, tl⟩ <;>
        rw [hlf] at h <;> simp only [except_error_bind, except_ok_bind] at h
      · cases h
      · cases h
        exact ⟨len, al, off0, fsr, rfl, hau, hlf, rfl⟩

theorem alignUp_pos (off al off0 : Nat) (h : alignUp off al = .ok off0) :
    0 < al ∧ off0 = (off + al - 1) / al * al := by
  simp only [alignUp] at h
  by_cases hz : al = 0
  · rw [if_pos hz] at h
    cases h
  · rw [if_neg hz] at h
    cases h
    exact ⟨Nat.pos_of_ne_zero hz, rfl⟩

theorem layoutFields_charP :
    ∀ (ftypes : List RuntimeType) (off tot : Nat) (fs : List FieldInfo)
      (endOff endAl : Nat),
      layoutFields ftypes off tot = .ok (fs, endOff, endAl) →
      fs.length = ftypes.length ∧ tot ≤ endAl ∧ off ≤ endOff ∧
      ∀ k ft, ftypes.get? k = some ft →
        ∃ fi len al, fs.get? k = some fi ∧
          fieldLenAlign ft = .ok (len, al) ∧
          fi.type = ft.typeId ∧ fi.length = len ∧
          fi.offset % al = 0 ∧ al ≤ endAl ∧ off ≤ fi.offset ∧
          fi.offset + len ≤ endOff := by
  intro ftypes
  induction ftypes with
  | nil =>
    intro off tot fs endOff endAl h
    simp only [layoutFields] at h
    cases h
    refine ⟨rfl, le_refl _, le_refl _, ?_⟩
    intro k ft hk
    cases hk
  | cons ft0 rest ih =>
    intro off tot fs endOff endAl h
    obtain ⟨len, al, off0, fsr, hfa, hau, hrest, hfs⟩ :=
      layoutFields_cons _ _ _ _ _ _ _ h
    obtain ⟨hal, hoff0⟩ := alignUp_pos _ _ _ hau
    obtain ⟨ih1, ih2, ih3, ih4⟩ := ih _ _ _ _ _ hrest
    subst hfs
    refine ⟨by simp [ih1], le_trans (le_max_right _ _) ih2, ?_, ?_⟩
    · refine le_trans ?_ ih3
      refine le_trans (le_alignUp off al hal) ?_
      rw [← hoff0]
      omega
    · intro k ft hk
      cases k with
      | zero =>
        have hft : ft0 = ft := by simpa using hk
        subst hft
        refine ⟨⟨ft0.typeId, off0, len⟩, len, al, rfl, hfa, rfl, rfl, ?_, ?_, ?_, ?_⟩
        · show off0 % al = 0
          rw [hoff0]
          exact Nat.mul_mod_left _ _
        · exact le_trans (le_max_left _ _) ih2
        · show off ≤ off0
          rw [hoff0]
          exact le_alignUp off al hal
        · show off0 + len ≤ endOff
          exact ih3
      | succ k' =>
        obtain ⟨fi, len', al', hfi, hfa', hti, hle, hmod, hlal, hoffb, hoffe⟩ :=
          ih4 k' ft (by simpa using hk)
        refine ⟨fi, len', al', by simpa using hfi, hfa', hti, hle, hmod, hlal, ?_,
          hoffe⟩
        refine le_trans ?_ hoffb
        refine le_trans (le_alignUp off al hal) ?_
        rw [← hoff0]
        omega

end RolLang

namespace RolLang

theorem SM_run_bind {m : SM α} {k : α → SM β} {s s1 : SolverState}
    {a : α} (hm : m s = (.ok a, s1)) : (m >>= k) s = k a s1 := by
  rw [SM_bind_apply, hm]

/-- C6 (amended): after simplifying both sides, `TryDetermineEqualTypes`
follows the rule table with the `Empty` guard strictly before the `Fail`
guard: `Empty` on either side yields 0 (even against `Fail`); otherwise
`Fail` on either side yields −1; `Any` against `RT` binds the `Any` slot
and yields 1; `Any` against anything else (`Generic`, `Subtype`, `Any`)
yields 0; `Subtype` on either side yields 0; `RT` against `RT` yields 0
exactly on equal pointers and −1 otherwise; `Generic` against `Generic`
requires equal (assembly, id, segment sizes) and recurses element-wise;
`RT` against `Generic` treats the `RT`'s `LoadingArguments` as a virtual
`Generic` (null `RT` pointer is UB); `Generic` against `RT` swaps; and
`unifyPairsWith` stops at the first non-zero result. -/
theorem C6_unifier_rules : ∀ oracle n a0 b0 s r s',
    tryDetermineEqualTypes oracle (n+1) a0 b0 s = (r, s') →
    ∀ a s1 b s2,
      (simpFns oracle (n+1)).simplifyConstraintType a0 s = (.ok a, s1) →
      (simpFns oracle (n+1)).simplifyConstraintType b0 s1 = (.ok b, s2) →
      ((a.ctype = CTT.empty ∨ b.ctype = CTT.empty) → (r, s') = (.ok 0, s2)) ∧
      (¬(a.ctype = CTT.empty ∨ b.ctype = CTT.empty) →
        (a.ctype = CTT.fail ∨ b.ctype = CTT.fail) → (r, s') = (.ok (-1), s2)) ∧
      (a.ctype = CTT.any → b.ctype = CTT.rt →
        (r, s') = (.ok 1, s2.setDetermined a.undetermined b.determined)) ∧
      (a.ctype = CTT.rt → b.ctype = CTT.any →
        (r, s') = (.ok 1, s2.setDetermined b.undetermined a.determined)) ∧
      (¬(a.ctype = CTT.empty ∨ b.ctype = CTT.empty) →
        ¬(a.ctype = CTT.fail ∨ b.ctype = CTT.fail) →
        (a.ctype = CTT.any ∨ b.ctype = CTT.any) →
        a.ctype ≠ CTT.rt → b.ctype ≠ CTT.rt → (r, s') = (.ok 0, s2)) ∧
      (¬(a.ctype = CTT.empty ∨ b.ctype = CTT.empty) →
        ¬(a.ctype = CTT.fail ∨ b.ctype = CTT.fail) →
        a.ctype ≠ CTT.any → b.ctype ≠ CTT.any →
        (a.ctype = CTT.subtypeT ∨ b.ctype = CTT.subtypeT) →
        (r, s') = (.ok 0, s2)) ∧
      (a.ctype = CTT.rt → b.ctype = CTT.rt →
        (a.determined ≠ b.determined → (r, s') = (.ok (-1), s2)) ∧
        (a.determined = b.determined → (r, s') = (.ok 0, s2))) ∧
      (a.ctype = CTT.generic → b.ctype = CTT.generic →
        ((a.typeTemplateAssembly ≠ b.typeTemplateAssembly ∨
            a.typeTemplateIndex ≠ b.typeTemplateIndex ∨
            sizeList a.args ≠ sizeList b.args) → (r, s') = (.ok (-1), s2)) ∧
        (a.typeTemplateAssembly = b.typeTemplateAssembly →
          a.typeTemplateIndex = b.typeTemplateIndex →
          sizeList a.args = sizeList b.args →
          unifyPairsWith (tryDetermineEqualTypes oracle n)
            ((flattenML a.args).zip (flattenML b.args)) s2 = (r, s'))) ∧
      (a.ctype = CTT.rt → b.ctype = CTT.generic →
        (a.determined = none →
          (r, s') =
            (.error "UB: null dereference in TryDetermineEqualTypes", s2)) ∧
        (∀ aId, a.determined = some aId →
          (((s2.rtArgs aId).assembly ≠ b.typeTemplateAssembly ∨
              (s2.rtArgs aId).id ≠ b.typeTemplateIndex ∨
              sizeList (s2.rtArgs aId).arguments ≠ sizeList b.args) →
            (r, s') = (.ok (-1), s2)) ∧
          ((s2.rtArgs aId).assembly = b.typeTemplateAssembly →
            (s2.rtArgs aId).id = b.typeTemplateIndex →
            sizeList (s2.rtArgs aId).arguments = sizeList b.args →
            unifyPairsWith (tryDetermineEqualTypes oracle n)
              ((flattenML b.args).zip
                ((flattenML (s2.rtArgs aId).arguments).map ctRT)) s2 =
              (r, s')))) ∧
      (a.ctype = CTT.generic → b.ctype = CTT.rt →
        tryDetermineEqualTypes oracle n b a s2 = (r, s')) := by
  intro oracle n a0 b0 s r s' h a s1 b s2 hsa hsb
  simp only [tryDetermineEqualTypes] at h
  rw [SM_run_bind hsa] at h
  rw [SM_run_bind hsb] at h
  refine ⟨?_, ?_, ?_, ?_, ?_, ?_, ?_, ?_, ?_, ?_⟩
  · intro h1
    rw [if_pos h1] at h
    exact h.symm
  · intro h1 h2
    rw [if_neg h1, if_pos h2] at h
    exact h.symm
  · intro h3 h4
    have h1 : ¬(a.ctype = CTT.empty ∨ b.ctype = CTT.empty) := by
      simp [h3, h4]
    have h2 : ¬(a.ctype = CTT.fail ∨ b.ctype = CTT.fail) := by
      simp [h3, h4]
    rw [if_neg h1, if_neg h2, if_pos (Or.inl h3)] at h
    rw [if_neg (by simp [h3]), if_pos h4] at h
    simp only [SM_bind_apply, SM_get_apply, SM_set_apply, SM_pure_apply] at h
    exact h.symm
  · intro h3 h4
    have h1 : ¬(a.ctype = CTT.empty ∨ b.ctype = CTT.empty) := by
      simp [h3, h4]
    have h2 : ¬(a.ctype = CTT.fail ∨ b.ctype = CTT.fail) := by
      simp [h3, h4]
    rw [if_neg h1, if_neg h2, if_pos (Or.inr h4), if_pos h3] at h
    simp only [SM_bind_apply, SM_get_apply, SM_set_apply, SM_pure_apply] at h
    exact h.symm
  · intro h1 h2 h3 h4 h5
    rw [if_neg h1, if_neg h2, if_pos h3, if_neg h4, if_neg h5] at h
    exact h.symm
  · intro h1 h2 h3 h4 h5
    rw [if_neg h1, if_neg h2, if_neg (by simp [h3, h4] : ¬(a.ctype = CTT.any ∨ b.ctype = CTT.any)),
      if_pos h5] at h
    exact h.symm
  · intro h3 h4
    have h1 : ¬(a.ctype = CTT.empty ∨ b.ctype = CTT.empty) := by
      simp [h3, h4]
    have h2 : ¬(a.ctype = CTT.fail ∨ b.ctype = CTT.fail) := by
      simp [h3, h4]
    have hany : ¬(a.ctype = CTT.any ∨ b.ctype = CTT.any) := by
      simp [h3, h4]
    have hsub : ¬(a.ctype = CTT.subtypeT ∨ b.ctype = CTT.subtypeT) := by
      simp [h3, h4]
    rw [if_neg h1, if_neg h2, if_neg hany, if_neg hsub,
      if_pos ⟨h3, h4⟩] at h
    constructor
    · intro hd
      rw [if_pos hd] at h
      exact h.symm
    · intro hd
      rw [if_neg (by simp [hd])] at h
      exact h.symm
  · intro h3 h4
    have h1 : ¬(a.ctype = CTT.empty ∨ b.ctype = CTT.empty) := by
      simp [h3, h4]
    have h2 : ¬(a.ctype = CTT.fail ∨ b.ctype = CTT.fail) := by
      simp [h3, h4]
    have hany : ¬(a.ctype = CTT.any ∨ b.ctype = CTT.any) := by
      simp [h3, h4]
    have hsub : ¬(a.ctype = CTT.subtypeT ∨ b.ctype = CTT.subtypeT) := by
      simp [h3, h4]
    have hrt : ¬(a.ctype = CTT.rt ∧ b.ctype = CTT.rt) := by
      simp [h3]
    rw [if_neg h1, if_neg h2, if_neg hany, if_neg hsub, if_neg hrt,
      if_pos ⟨h3, h4⟩] at h
    constructor
    · intro hmis
      rw [if_pos hmis] at h
      exact h.symm
    · intro e1 e2 e3
      rw [if_neg (by simp [e1, e2, e3])] at h
      exact h
  · intro h3 h4
    have h1 : ¬(a.ctype = CTT.empty ∨ b.ctype = CTT.empty) := by
      simp [h3, h4]
    have h2 : ¬(a.ctype = CTT.fail ∨ b.ctype = CTT.fail) := by
      simp [h3, h4]
    have hany : ¬(a.ctype = CTT.any ∨ b.ctype = CTT.any) := by
      simp [h3, h4]
    have hsub : ¬(a.ctype = CTT.subtypeT ∨ b.ctype = CTT.subtypeT) := by
      simp [h3, h4]
    have hrt : ¬(a.ctype = CTT.rt ∧ b.ctype = CTT.rt) := by
      simp [h4]
    have hgg : ¬(a.ctype = CTT.generic ∧ b.ctype = CTT.generic) := by
      simp [h3]
    rw [if_neg h1, if_neg h2, if_neg hany, if_neg hsub, if_neg hrt,
      if_neg hgg, if_pos h3] at h
    simp only [SM_bind_apply, SM_get_apply] at h
    constructor
    · intro hd
      rw [hd] at h
      simp only [SM_throw_apply] at h
      exact h.symm
    · intro aId hd
      rw [hd] at h
      dsimp only at h
      constructor
      · intro hmis
        rw [if_pos hmis] at h
        simp only [SM_pure_apply] at h
        exact h.symm
      · intro e1 e2 e3
        rw [if_neg (by simp [e1, e2, e3])] at h
        exact h
  · intro h3 h4
    have h1 : ¬(a.ctype = CTT.empty ∨ b.ctype = CTT.empty) := by
      simp [h3, h4]
    have h2 : ¬(a.ctype = CTT.fail ∨ b.ctype = CTT.fail) := by
      simp [h3, h4]
    have hany : ¬(a.ctype = CTT.any ∨ b.ctype = CTT.any) := by
      simp [h3, h4]
    have hsub : ¬(a.ctype = CTT.subtypeT ∨ b.ctype = CTT.subtypeT) := by
      simp [h3, h4]
    have hrt : ¬(a.ctype = CTT.rt ∧ b.ctype = CTT.rt) := by
      simp [h3]
    have hgg : ¬(a.ctype = CTT.generic ∧ b.ctype = CTT.generic) := by
      simp [h4]
    rw [if_neg h1, if_neg h2, if_neg hany, if_neg hsub, if_neg hrt,
      if_neg hgg, if_neg (by simp [h3])] at h
    exact h

end RolLang

namespace RolLang

theorem getType_hit (env : Env) (fuel : Nat) (args : LoadingArguments)
    (s : LoaderState) (r : Nat)
    (h : firstLoadedTypeMatch s.loadedTypes args = some r) :
    getType env fuel args s = (.ok r, s) := by
  simp only [getType]
  rw [h]

theorem getType_staged (env : Env) (fuel : Nat) (args : LoadingArguments)
    (s s1 s2 s3 : LoaderState) (r : Nat)
    (hscan : firstLoadedTypeMatch s.loadedTypes args = none)
    (h1 : (fns env fuel).loadTypeInternal args (clearLoadingLists s) = (.ok r, s1))
    (h2 : (fns env fuel).processLoadingLists s1 = (.ok (), s2))
    (h3 : moveFinishedObjects env s2 = (.ok (), s3)) :
    getType env fuel args s = (.ok r, clearLoadingLists s3) := by
  simp only [getType]
  rw [hscan]
  simp only [loadTypeNoLock, M_bind_apply, h1]
  simp only [M_bind_apply, h2]
  simp only [M_bind_apply, h3, M_pure_apply]

theorem getType_staged_err (env : Env) (fuel : Nat) (args : LoadingArguments)
    (s s1 : LoaderState) (e : String)
    (hscan : firstLoadedTypeMatch s.loadedTypes args = none)
    (h1 : (fns env fuel).loadTypeInternal args (clearLoadingLists s) = (.error e, s1)) :
    getType env fuel args s = (.error e, clearLoadingLists s1) := by
  simp only [getType]
  rw [hscan]
  simp only [loadTypeNoLock, M_bind_apply, h1]

theorem nodeRef_run : getType nodeRefEnv 8 nodeArgs initialState =
    (.ok 1, nodeRunState) :=
  getType_staged nodeRefEnv 8 nodeArgs initialState nrT1.2 nrT2.2 nrT3.2 1
    rfl (Prod.ext (rfl : nrT1.1 = Except.ok 1) rfl)
    (Prod.ext (rfl : nrT2.1 = Except.ok ()) rfl)
    (Prod.ext (rfl : nrT3.1 = Except.ok ()) rfl)

end RolLang

namespace RolLang

theorem nodeVal_err_run : getType nodeValEnv 8 nodeArgs initialState =
    (.error "Cyclic type dependence", nodeValErrState) :=
  getType_staged_err nodeValEnv 8 nodeArgs initialState nvT1.2
    "Cyclic type dependence" rfl
    (Prod.ext (rfl : nvT1.1 = Except.error "Cyclic type dependence") rfl)

theorem coreI32_run : getType coreEnv 20 ⟨"Core", 0, []⟩ initialState =
    (.ok 1, coreStateI32) :=
  getType_staged coreEnv 20 ⟨"Core", 0, []⟩ initialState ciT1.2 ciT2.2 ciT3.2 1
    rfl (Prod.ext (rfl : ciT1.1 = Except.ok 1) rfl)
    (Prod.ext (rfl : ciT2.1 = Except.ok ()) rfl)
    (Prod.ext (rfl : ciT3.1 = Except.ok ()) rfl)

theorem corePtr_run : getType coreEnv 20 ⟨"Core", 1, [some 1]⟩ coreStateI32 =
    (.ok 2, coreStatePtr) :=
  getType_staged coreEnv 20 ⟨"Core", 1, [some 1]⟩ coreStateI32
    cpT1.2 cpT2.2 cpT3.2 2
    (by decide) (Prod.ext (rfl : cpT1.1 = Except.ok 2) rfl)
    (Prod.ext (rfl : cpT2.1 = Except.ok ()) rfl)
    (Prod.ext (rfl : cpT3.1 = Except.ok ()) rfl)

theorem corePtr_rescan : getType coreEnv 20 ⟨"Core", 1, [some 1]⟩ coreStatePtr =
    (.ok 2, coreStatePtr) :=
  getType_hit coreEnv 20 ⟨"Core", 1, [some 1]⟩ coreStatePtr 2 (by decide)

theorem finR_run : getType finEnv 10 ⟨"M", 0, []⟩ initialState =
    (.ok 1, finRunState) :=
  getType_staged finEnv 10 ⟨"M", 0, []⟩ initialState finT1.2 finT2.2 finT3.2 1
    rfl (Prod.ext (rfl : finT1.1 = Except.ok 1) rfl)
    (Prod.ext (rfl : finT2.1 = Except.ok ()) rfl)
    (Prod.ext (rfl : finT3.1 = Except.ok ()) rfl)

end RolLang

namespace RolLang

/-- C1 (amended): under the counter invariant, `GetType` is idempotent —
a second call with the same `LoadingArguments` returns the same id and
performs no mutation. (The claim's other two parts fail: a single
successful load can publish two entries with equal arguments, and the
`GetFunction` rescan is not idempotent — see the counterexample.) -/
theorem C1_getType_idempotent (env : Env) (fuel : Nat) (args : LoadingArguments)
    (s : LoaderState) (r : Nat) (s' : LoaderState) (hC : countersOK s)
    (h : getType env fuel args s = (.ok r, s')) :
    getType env fuel args s' = (.ok r, s') := by
  simp only [getType] at h ⊢
  rcases hm : firstLoadedTypeMatch s.loadedTypes args with _ | r0 <;> rw [hm] at h
  · have hscan := loadTypeNoLock_ok_scan env fuel args s r s' hC.1 hm h
    rw [hscan]
  · cases h
    rw [hm]

/-- C1, counterexample: the canonical reference-`Node` load leaves TWO
loaded entries with identical `LoadingArguments` (refuting the
at-most-once corollary), and `GetFunction` is not idempotent: after one
successful load its unguarded rescan dereferences a null slot. -/
theorem C1_counterexample :
    countLoadedTypeMatches nodeRunState nodeArgs = 2 ∧
    getFunction funcEnv 8 ⟨"M", 0, []⟩ initialState = (.ok 1, funcRunState) ∧
    getFunction funcEnv 8 ⟨"M", 0, []⟩ funcRunState =
      (.error "UB: null dereference in GetFunction scan", funcRunState) :=
  ⟨by decide, rfl, rfl⟩

/-- C1, witness: the amended idempotence at the reference-`Node` load. -/
theorem C1_witness :
    countersOK initialState ∧
    getType nodeRefEnv 8 nodeArgs initialState = (.ok 1, nodeRunState) ∧
    getType nodeRefEnv 8 nodeArgs nodeRunState = (.ok 1, nodeRunState) :=
  ⟨⟨by decide, by decide⟩, nodeRef_run,
    C1_getType_idempotent nodeRefEnv 8 nodeArgs initialState 1 nodeRunState
      ⟨by decide, by decide⟩ nodeRef_run⟩

/-- C2: loading is all-or-nothing — if `GetType` fails, the
loaded-function table is unchanged, the loaded-type table keeps its
length, and no id that `GetTypeById` mapped to null becomes valid. -/
theorem C2_failed_load_preserves_tables (env : Env) (fuel : Nat)
    (args : LoadingArguments) (s : LoaderState) (e : String) (s' : LoaderState)
    (h : getType env fuel args s = (.error e, s')) :
    s'.loadedTypes.length = s.loadedTypes.length ∧
    s'.loadedFunctions = s.loadedFunctions ∧
    ∀ i, getTypeById s i = none → getTypeById s' i = none := by
  obtain ⟨hL, hF⟩ := getType_error_core env fuel args s e s' h
  exact ⟨(List.Forall₂.length_eq hL).symm, hF,
    fun i hi => tShapeEqL_byId_none hL i hi⟩

/-- C2, witness: the failing value-`Node` load preserves both tables. -/
theorem C2_witness :
    getType nodeValEnv 8 nodeArgs initialState =
      (.error "Cyclic type dependence", nodeValErrState) ∧
    nodeValErrState.loadedTypes.length = initialState.loadedTypes.length ∧
    nodeValErrState.loadedFunctions = initialState.loadedFunctions := by
  obtain ⟨h1, h2, _⟩ := C2_failed_load_preserves_tables nodeValEnv 8 nodeArgs
    initialState "Cyclic type dependence" nodeValErrState nodeVal_err_run
  exact ⟨nodeVal_err_run, h1, h2⟩

/-- C4: value-type cycle rejection — whenever the `loadingTypes` stack
already holds an entry with the same `LoadingArguments` (the linear
search hit), `LoadFields` fails with the cyclic-dependence error and
mutates nothing; end to end, the value-`Node` request fails with that
error and publishes no partial state (both loaded tables stay empty). -/
theorem C4_value_cycle_rejected :
    (∀ (env : Env) (n : Nat) (t : RuntimeType) (tmpl : Option TypeTemplate)
      (s : LoaderState),
      s.loadingTypes.any (fun e => e.2 = t.args) = true →
      (fns env (n+1)).loadFields t tmpl s = (.error "Cyclic type dependence", s)) ∧
    getType nodeValEnv 8 nodeArgs initialState =
      (.error "Cyclic type dependence", nodeValErrState) ∧
    nodeValErrState.loadedTypes = [] ∧
    nodeValErrState.loadedFunctions = [] := by
  refine ⟨?_, nodeVal_err_run, by decide, by decide⟩
  intro env n t tmpl s hs
  simp only [fns, M_bind_apply, M_get_apply]
  rw [if_pos hs]
  rfl

/-- C4, witness: the stack hit on the in-flight `Pair<I32, I8>` object. -/
theorem C4_witness :
    ({ initialState with
        loadingTypes := [(3, pairT.args)] } : LoaderState).loadingTypes.any
      (fun e => e.2 = pairT.args) = true ∧
    (fns nodeValEnv 8).loadFields pairT (some pairTemplate)
        { initialState with loadingTypes := [(3, pairT.args)] } =
      (.error "Cyclic type dependence",
        { initialState with loadingTypes := [(3, pairT.args)] }) :=
  ⟨by decide,
    C4_value_cycle_rejected.1 nodeValEnv 7 pairT (some pairTemplate)
      { initialState with loadingTypes := [(3, pairT.args)] } (by decide)⟩

/-- C5: reference-cycle tolerance — the self-referencing reference-`Node`
template loads successfully, and the published object has reference
storage, one field at offset 0 of pointer length, and pointer size and
alignment. -/
theorem C5_reference_cycle_tolerated :
    getType nodeRefEnv 8 nodeArgs initialState = (.ok 1, nodeRunState) ∧
    (findTypeObj nodeRunState 1).map
        (fun t => (t.storage, t.fields, t.size, t.alignment)) =
      some (StorageMode.ref, [⟨2, 0, ptrSize⟩], ptrSize, ptrSize) :=
  ⟨nodeRef_run, by decide⟩

/-- C8: pointer back-reference — after `GetType(Core.Pointer, [I32])`
the element type's `PointerType` field is the result (it was null
before), `IsPointerType` holds of the result, and a second call returns
the same id without mutation. -/
theorem C8_pointer_backreference :
    getType coreEnv 20 ⟨"Core", 1, [some 1]⟩ coreStateI32 =
      (.ok 2, coreStatePtr) ∧
    getType coreEnv 20 ⟨"Core", 1, [some 1]⟩ coreStatePtr =
      (.ok 2, coreStatePtr) ∧
    (findTypeObj coreStateI32 1).map (·.pointerType) = some none ∧
    (findTypeObj coreStatePtr 1).map (·.pointerType) = some (some 2) ∧
    (findTypeObj coreStatePtr 2).map (isPointerType coreEnv) = some true :=
  ⟨corePtr_run, corePtr_rescan, by decide, by decide, by decide⟩

/-- C9: by-id lookup — `GetTypeById` is total and safe (null on any
out-of-range id), but `GetFunctionById` uses `>` where `GetTypeById`
uses `>=`: at `id == table size` its guard passes and the vector is
indexed out of bounds (UB), so the claim's safety property fails for
`GetFunctionById`. -/
theorem C9_by_id_lookup (s : LoaderState) (i : Nat) :
    (i ≥ s.loadedTypes.length → getTypeById s i = none) ∧
    (i = s.loadedFunctions.length →
      getFunctionById s i =
        .error "UB: vector index out of range in GetFunctionById") := by
  constructor
  · intro hge
    simp only [getTypeById]
    rw [if_pos hge]
  · intro he
    simp only [getFunctionById]
    rw [if_neg (by omega : ¬ i > s.loadedFunctions.length)]
    rw [List.get?_eq_none.mpr (by omega)]

/-- C9, witness: the boundary id on a fresh loader. -/
theorem C9_witness :
    (0 ≥ initialState.loadedTypes.length) ∧
    (0 = initialState.loadedFunctions.length) ∧
    getTypeById initialState 0 = none ∧
    getFunctionById initialState 0 =
      .error "UB: vector index out of range in GetFunctionById" :=
  ⟨by decide, rfl, (C9_by_id_lookup initialState 0).1 (by decide),
    (C9_by_id_lookup initialState 0).2 rfl⟩

/-- C10: the implicit safety of the `GetFunction` scan is FALSE — a
successful load can leave a null slot in the loaded-function table (the
first request here publishes `[none, some f]`), and the very next
`GetFunction` call dereferences that null entry. -/
theorem C10_getFunction_scan_null :
    getFunction funcEnv 8 ⟨"M", 0, []⟩ initialState = (.ok 1, funcRunState) ∧
    funcRunState.loadedFunctions.get? 0 = some none ∧
    getFunction funcEnv 8 ⟨"M", 0, []⟩ funcRunState =
      (.error "UB: null dereference in GetFunction scan", funcRunState) :=
  ⟨rfl, rfl, rfl⟩

end RolLang

namespace RolLang

theorem loadFields_layout (env : Env) (n : Nat) (t : RuntimeType)
    (tmpl : Option TypeTemplate) (s : LoaderState) (r : Nat) (s' : LoaderState)
    (h : (fns env (n+1)).loadFields t tmpl s = (.ok r, s')) :
    ∃ ftypes fs endOff endAl,
      layoutFields ftypes 0 1 = .ok (fs, endOff, endAl) ∧
      { t with fields := fs, size := if endOff = 0 then 1 else endOff,
               alignment := endAl } ∈ s'.postLoadingTypes := by
  simp only [fns, M_bind_apply, M_get_apply, M_pure_apply] at h
  by_cases hcyc : s.loadingTypes.any (fun e => e.2 = t.args)
  · rw [if_pos hcyc] at h
    cases h
  · rw [if_neg hcyc] at h
    simp only [M_bind_apply, M_set_apply, M_get_apply, M_pure_apply,
      M_lift_apply, M_modify_apply] at h
    rcases tmpl with _ | tt0
    · simp only [M_lift_apply, M_bind_apply] at h
      rcases hft : findTypeTemplate env t.args.assembly t.args.id with e | tt <;>
        rw [hft] at h
      · cases h
      · simp only [M_bind_apply, M_get_apply, M_lift_apply, M_pure_apply,
          M_modify_apply] at h
        split at h
        · next fieldIds s3 hres =>
          rcases hder : derefTypeList s3 fieldIds with e | ftypes <;>
            rw [hder] at h <;>
            simp only [M_bind_apply, M_lift_apply, M_pure_apply,
              M_modify_apply] at h
          · cases h
          · rcases hlay : layoutFields ftypes 0 1 with e | lay <;>
              rw [hlay] at h <;>
              simp only [M_bind_apply, M_lift_apply, M_pure_apply,
                M_modify_apply] at h
            · cases h
            · cases h
              refine ⟨ftypes, lay.1, lay.2.1, lay.2.2, ?_, ?_⟩
              · rw [hlay]
              · exact List.mem_append_right _ (List.mem_singleton.mpr rfl)
        · simp at h
    · simp only [M_pure_apply, M_bind_apply, M_get_apply, M_lift_apply,
        M_modify_apply] at h
      split at h
      · next fieldIds s3 hres =>
        rcases hder : derefTypeList s3 fieldIds with e | ftypes <;>
          rw [hder] at h <;>
          simp only [M_bind_apply, M_lift_apply, M_pure_apply,
            M_modify_apply] at h
        · cases h
        · rcases hlay : layoutFields ftypes 0 1 with e | lay <;>
            rw [hlay] at h <;>
            simp only [M_bind_apply, M_lift_apply, M_pure_apply,
              M_modify_apply] at h
          · cases h
          · cases h
            refine ⟨ftypes, lay.1, lay.2.1, lay.2.2, ?_, ?_⟩
            · rw [hlay]
            · exact List.mem_append_right _ (List.mem_singleton.mpr rfl)
      · simp at h

/-- C3: field-layout correctness — a reference field contributes
`(ptrSize, ptrSize)` and a value field its type's `(size, alignment)`;
each step rounds the offset up with `align_up` (`(off + al - 1) / al * al`)
and adds the field length; starting from `(0, 1)` every field's offset is
a multiple of its alignment, within the final extent, descriptors are
in declaration order, and the final alignment bounds every field's and
is at least 1; the published object carries the layout's descriptors,
`max(offset, 1)` as size, and the accumulated alignment. -/
theorem C3_field_layout :
    (∀ ft : RuntimeType, ft.storage = StorageMode.ref →
      fieldLenAlign ft = .ok (ptrSize, ptrSize)) ∧
    (∀ ft : RuntimeType, ft.storage = StorageMode.value →
      fieldLenAlign ft = .ok (ft.size, ft.alignment)) ∧
    (∀ (ft : RuntimeType) (rest : List RuntimeType) (off tot : Nat)
      (fs : List FieldInfo) (endOff endAl : Nat),
      layoutFields (ft :: rest) off tot = .ok (fs, endOff, endAl) →
      ∃ len al off0 fsr,
        fieldLenAlign ft = .ok (len, al) ∧
        0 < al ∧ off0 = (off + al - 1) / al * al ∧
        layoutFields rest (off0 + len) (max al tot) = .ok (fsr, endOff, endAl) ∧
        fs = ⟨ft.typeId, off0, len⟩ :: fsr) ∧
    (∀ (ftypes : List RuntimeType) (fs : List FieldInfo) (endOff endAl : Nat),
      layoutFields ftypes 0 1 = .ok (fs, endOff, endAl) →
      fs.length = ftypes.length ∧ 1 ≤ endAl ∧
      ∀ k ft, ftypes.get? k = some ft →
        ∃ fi len al, fs.get? k = some fi ∧
          fieldLenAlign ft = .ok (len, al) ∧
          fi.type = ft.typeId ∧ fi.length = len ∧
          fi.offset % al = 0 ∧ al ≤ endAl ∧ fi.offset + len ≤ endOff) ∧
    (∀ (env : Env) (n : Nat) (t : RuntimeType) (tmpl : Option TypeTemplate)
      (s : LoaderState) (r : Nat) (s' : LoaderState),
      (fns env (n+1)).loadFields t tmpl s = (.ok r, s') →
      ∃ ftypes fs endOff endAl,
        layoutFields ftypes 0 1 = .ok (fs, endOff, endAl) ∧
        { t with fields := fs, size := if endOff = 0 then 1 else endOff,
                 alignment := endAl } ∈ s'.postLoadingTypes) := by
  refine ⟨?_, ?_, ?_, ?_, loadFields_layout⟩
  · intro ft hst
    simp only [fieldLenAlign]
    rw [hst]
  · intro ft hst
    simp only [fieldLenAlign]
    rw [hst]
  · intro ft rest off tot fs endOff endAl h
    obtain ⟨len, al, off0, fsr, hfa, hau, hlf, hfs⟩ :=
      layoutFields_cons ft rest off tot fs endOff endAl h
    obtain ⟨hal, hoff0⟩ := alignUp_pos off al off0 hau
    exact ⟨len, al, off0, fsr, hfa, hal, hoff0, hlf, hfs⟩
  · intro ftypes fs endOff endAl h
    obtain ⟨l1, l2, _, l4⟩ := layoutFields_charP ftypes 0 1 fs endOff endAl h
    refine ⟨l1, le_trans (le_refl 1) l2, ?_⟩
    intro k ft hk
    obtain ⟨fi, len, al, hg, hfa, ht, hl, hm, ha, _, hb⟩ := l4 k ft hk
    exact ⟨fi, len, al, hg, hfa, ht, hl, hm, ha, hb⟩

/-- C3, witness: the layout of `Pair<I32, I8>`'s resolved field list. -/
theorem C3_witness :
    layoutFields [i32rt, i8rt] 0 1 =
      .ok ([⟨1, 0, 4⟩, ⟨2, 4, 1⟩], 5, 4) ∧
    ([⟨1, 0, 4⟩, ⟨2, 4, 1⟩] : List FieldInfo).length = [i32rt, i8rt].length ∧
    1 ≤ 4 :=
  ⟨rfl,
    (C3_field_layout.2.2.2.1 [i32rt, i8rt] [⟨1, 0, 4⟩, ⟨2, 4, 1⟩] 5 4 rfl).1,
    (C3_field_layout.2.2.2.1 [i32rt, i8rt] [⟨1, 0, 4⟩, ⟨2, 4, 1⟩] 5 4 rfl).2.1⟩

/-- C6, counterexample: `Empty` against `Fail` yields 0 in both
directions — the `Empty` test precedes the `Fail` test in
`TryDetermineEqualTypes`, so "`Fail` on either side yields −1" and
"`Empty` matches only `Empty`" are both false for this pair. -/
theorem C6_counterexample :
    tryDetermineEqualTypes oracle0 2 ctEmptyN ctFailN solverState0 =
      (.ok 0, solverState0) ∧
    tryDetermineEqualTypes oracle0 2 ctFailN ctEmptyN solverState0 =
      (.ok 0, solverState0) ∧
    ctEmptyN.ctype = CTT.empty ∧ ctFailN.ctype = CTT.fail :=
  ⟨rfl, rfl, rfl, rfl⟩

/-- C6, witness: the `RT`-vs-`RT` rule at two distinct determined
pointers. -/
theorem C6_witness :
    (ctRT (some 5)).determined ≠ (ctRT (some 6)).determined ∧
    tryDetermineEqualTypes oracle0 2 (ctRT (some 5)) (ctRT (some 6)) solverState0 =
      (.ok (-1), solverState0) := by
  have happ := C6_unifier_rules oracle0 1 (ctRT (some 5)) (ctRT (some 6))
    solverState0
    (tryDetermineEqualTypes oracle0 2 (ctRT (some 5)) (ctRT (some 6))
      solverState0).1
    (tryDetermineEqualTypes oracle0 2 (ctRT (some 5)) (ctRT (some 6))
      solverState0).2
    rfl (ctRT (some 5)) solverState0 (ctRT (some 6)) solverState0 rfl rfl
  have h7 := (happ.2.2.2.2.2.2.1 rfl rfl).1 (by decide)
  exact ⟨by decide, h7⟩

/-- C7: the initializer/finalizer invariant of every published type —
any type the call adds to the loaded table satisfies the storage
conditions (initializer only on global storage, finalizer only on
reference storage) and its initializer/finalizer function, looked up in
the result state's loaded-function table, has the checked signature (no
return and no parameters; no return and exactly the owning type as the
single parameter, respectively). -/
theorem C7_initializer_finalizer_invariant (env : Env) (fuel : Nat)
    (args : LoadingArguments) (s : LoaderState) (r : Nat) (s' : LoaderState)
    (hC : countersOK s) (hI : loadedIdsOK s)
    (h : getType env fuel args s = (.ok r, s')) :
    ∀ t : RuntimeType, some t ∈ s'.loadedTypes → s.nextTypeId ≤ t.typeId →
      storageCondOK t ∧ loadedFuncSig s' t :=
  published_types_checked env fuel args s r s' hC hI h

/-- C7, witness: the finalizer-assembly load publishes `R` with a
reference storage and a checked finalizer. -/
theorem C7_witness :
    countersOK initialState ∧ loadedIdsOK initialState ∧
    getType finEnv 10 ⟨"M", 0, []⟩ initialState = (.ok 1, finRunState) ∧
    some finRType ∈ finRunState.loadedTypes ∧
    initialState.nextTypeId ≤ finRType.typeId ∧
    storageCondOK finRType ∧ loadedFuncSig finRunState finRType := by
  have hC : countersOK initialState := ⟨by decide, by decide⟩
  have hI : loadedIdsOK initialState :=
    ⟨fun t ht => absurd ht (List.not_mem_nil _),
     fun f hf => absurd hf (List.not_mem_nil _)⟩
  have hmem : some finRType ∈ finRunState.loadedTypes :=
    List.get?_mem (by decide : finRunState.loadedTypes.get? 1 = some (some finRType))
  have hle : initialState.nextTypeId ≤ finRType.typeId := by decide
  obtain ⟨hs1, hs2⟩ := C7_initializer_finalizer_invariant finEnv 10 ⟨"M", 0, []⟩
    initialState 1 finRunState hC hI finR_run finRType hmem hle
  exact ⟨hC, hI, finR_run, hmem, hle, hs1, hs2⟩

end RolLang
